import Mathlib

/-!
Shallow embedding of the matching-engine core (src/src/orderbook.cpp,
src/src/include/order.hpp, src/src/include/orderbook.hpp,
src/src/include/thread_safe_queue.hpp, src/src/order.cpp).

Modelling conventions:
* unsigned 64-bit quantities and timestamps become `Nat`; every subtraction
  performed by the code is guarded (the matched quantity is the minimum of the
  two remaining quantities, and the MODIFY path subtracts only under a strict
  comparison), so truncated `Nat` subtraction agrees with the C++ semantics;
* `order_id` (signed 64-bit) becomes `Int`;
* prices are IEEE doubles in the source but the engine only ever compares them
  and copies them around, so they are modelled as `Int`;
* the two `std::map` ladders become association lists of price levels kept in
  key order (descending for bids, ascending for asks), each level being the
  FIFO `std::list<Order>` of resting orders;
* `std::set<long long> ids_traded_this_event_` becomes a `List Int` used only
  through membership;
* the two `while` loops (`matchOrders` and the MARKET sweeps) are written with
  explicit fuel; a fuel-stabilisation lemma shows the loop finishes within the
  claimed bound, and the public functions run the loop at that bound.
-/

inductive Side where
  | BUY
  | SELL
  | UNKNOWN_SIDE
deriving DecidableEq, Repr

inductive OrderType where
  | LIMIT
  | MARKET
  | UNKNOWN_TYPE
deriving DecidableEq, Repr

inductive OrderAction where
  | NEW
  | MODIFY
  | CANCEL
  | UNKNOWN_ACTION
deriving DecidableEq, Repr

inductive OrderStatus where
  | PENDING
  | PARTIALLY_EXECUTED
  | EXECUTED
  | CANCELED
  | REJECTED
  | UNKNOWN_STATUS
deriving DecidableEq, Repr

/-- `struct Order` from order.hpp: the CSV fields plus the matching-state
fields. -/
structure Order where
  timestamp : Nat
  order_id : Int
  instrument : String
  side : Side
  type : OrderType
  quantity : Nat
  price : Int
  action : OrderAction
  remaining_quantity : Nat
  cumulative_executed_quantity : Nat
  status : OrderStatus
deriving DecidableEq, Repr

/-- `struct OutputRecord` from orderbook.hpp (enum-valued fields are kept as
enums instead of their rendered strings). -/
structure OutputRecord where
  timestamp : Nat
  order_id : Int
  instrument : String
  side : Side
  type : OrderType
  original_quantity_or_remaining : Nat
  price : Int
  action : OrderAction
  status : OrderStatus
  executed_this_event_quantity : Nat
  execution_price : Int
  counterparty_id : Int
deriving DecidableEq, Repr

/-- A price level: the map key together with the `std::list<Order>` FIFO. -/
abbrev Level := Int × List Order

/-- One side of the book: the levels of a `std::map`, listed in key order
(descending keys for `bids_`, ascending keys for `asks_`). -/
abbrev Ladder := List Level

/-- The mutable state of one `OrderBook`. -/
structure Book where
  bids : Ladder
  asks : Ladder
  ids_traded_this_event : List Int
deriving DecidableEq, Repr

def emptyBook : Book := ⟨[], [], []⟩

namespace OrderBook

/-- `bids_[price].push_back(order)` on the descending-key bid map: walk the
levels until the key is found (append to its FIFO) or passed (create the
level). -/
def insertBid (lad : Ladder) (p : Int) (o : Order) : Ladder :=
  match lad with
  | [] => [(p, [o])]
  | (q, l) :: rest =>
    if p > q then (p, [o]) :: (q, l) :: rest
    else if p = q then (q, l ++ [o]) :: rest
    else (q, l) :: insertBid rest p o

/-- `asks_[price].push_back(order)` on the ascending-key ask map. -/
def insertAsk (lad : Ladder) (p : Int) (o : Order) : Ladder :=
  match lad with
  | [] => [(p, [o])]
  | (q, l) :: rest =>
    if p < q then (p, [o]) :: (q, l) :: rest
    else if p = q then (q, l ++ [o]) :: rest
    else (q, l) :: insertAsk rest p o

/-- `ids_traded_this_event_.insert(id)` (std::set insertion, used only through
membership). -/
def insertId (s : List Int) (i : Int) : List Int :=
  if i ∈ s then s else i :: s

/-- orderbook.cpp lines 17-54, `OrderBook::addInitialOutputRecord`: build the
output record whose quantity column depends on the status being logged and
whose price column is zeroed for CANCELED. -/
def addInitialOutputRecord (instrument_name : String) (order_state_for_log : Order)
    (status_to_log : OrderStatus) (executed_qty_this_event : Nat) (exec_price : Int)
    (counterparty : Int) (event_timestamp : Nat) : OutputRecord :=
  let quantity_for_output_column : Nat :=
    if status_to_log = OrderStatus.PENDING ∨ status_to_log = OrderStatus.REJECTED then
      order_state_for_log.quantity
    else if status_to_log = OrderStatus.PARTIALLY_EXECUTED then
      order_state_for_log.remaining_quantity
    else 0
  let price_for_output_column : Int :=
    if status_to_log = OrderStatus.CANCELED then 0 else order_state_for_log.price
  { timestamp := event_timestamp
    order_id := order_state_for_log.order_id
    instrument := instrument_name
    side := order_state_for_log.side
    type := order_state_for_log.type
    original_quantity_or_remaining := quantity_for_output_column
    price := price_for_output_column
    action := order_state_for_log.action
    status := status_to_log
    executed_this_event_quantity := executed_qty_this_event
    execution_price := exec_price
    counterparty_id := counterparty }

/-- The mutation `recordMatchAndCreateOutput` applies identically to each of
the two matched orders (orderbook.cpp lines 62-65 and 68-70): subtract the
matched quantity from remaining, add it to cumulative, set the status from the
new remaining quantity. -/
def applyFill (o : Order) (matched_qty : Nat) : Order :=
  let o1 : Order :=
    { o with
      remaining_quantity := o.remaining_quantity - matched_qty
      cumulative_executed_quantity := o.cumulative_executed_quantity + matched_qty }
  { o1 with status :=
      if o1.remaining_quantity = 0 then OrderStatus.EXECUTED
      else OrderStatus.PARTIALLY_EXECUTED }

/-- One of the two per-participant records of `recordMatchAndCreateOutput`
(orderbook.cpp lines 77-110), built from the participant's already-mutated
state: quantity column is 0 when EXECUTED, else the remaining quantity. -/
def matchRecord (instrument_name : String) (o : Order) (counterparty : Int)
    (matched_qty : Nat) (match_price : Int) (event_timestamp : Nat) : OutputRecord :=
  { timestamp := event_timestamp
    order_id := o.order_id
    instrument := instrument_name
    side := o.side
    type := o.type
    original_quantity_or_remaining :=
      if o.status = OrderStatus.EXECUTED then 0 else o.remaining_quantity
    price := o.price
    action := o.action
    status := o.status
    executed_this_event_quantity := matched_qty
    execution_price := match_price
    counterparty_id := counterparty }

/-- orderbook.cpp lines 58-120, `OrderBook::recordMatchAndCreateOutput`:
mutate the two matched orders and build their two output records (aggressive
record first, as the queue pushes). The caller adds both ids to
`ids_traded_this_event_`. -/
def recordMatchAndCreateOutput (instrument_name : String)
    (aggressive_order passive_order : Order) (matched_qty : Nat) (match_price : Int)
    (event_timestamp : Nat) : Order × Order × List OutputRecord :=
  let agg := applyFill aggressive_order matched_qty
  let pas := applyFill passive_order matched_qty
  (agg, pas,
   [matchRecord instrument_name agg passive_order.order_id matched_qty match_price
      event_timestamp,
    matchRecord instrument_name pas aggressive_order.order_id matched_qty match_price
      event_timestamp])

/-- Fuel measure for the loops: number of resting orders plus number of price
levels of a ladder. -/
def ladderWeight (lad : Ladder) : Nat :=
  (lad.map (fun lv => lv.2.length + 1)).sum

/-- One iteration of the `while` loop of orderbook.cpp lines 435-496
(`OrderBook::matchOrders`): `none` when the loop exits (an empty ladder or an
uncrossed book), otherwise the updated ladders, traded-id set and the records
of this iteration. -/
def matchStep (instrument_name : String) (event_timestamp : Nat)
    (bids asks : Ladder) (traded : List Int) :
    Option (Ladder × Ladder × List Int × List OutputRecord) :=
  match bids, asks with
  | [], _ => none
  | _ :: _, [] => none
  | (best_bid_price, bid_level) :: bids_rest,
    (best_ask_price, ask_level) :: asks_rest =>
    if best_bid_price < best_ask_price then none
    else
      match bid_level with
      | [] => some (bids_rest, (best_ask_price, ask_level) :: asks_rest, traded, [])
      | buy_order :: bid_tail =>
        match ask_level with
        | [] => some ((best_bid_price, buy_order :: bid_tail) :: bids_rest, asks_rest,
            traded, [])
        | sell_order :: ask_tail =>
          let match_price : Int :=
            if buy_order.timestamp < sell_order.timestamp then buy_order.price
            else if sell_order.timestamp < buy_order.timestamp then sell_order.price
            else best_bid_price
          let match_qty : Nat :=
            min buy_order.remaining_quantity sell_order.remaining_quantity
          let r := recordMatchAndCreateOutput instrument_name buy_order sell_order
            match_qty match_price event_timestamp
          let traded1 := insertId (insertId traded buy_order.order_id) sell_order.order_id
          let bid_level1 :=
            if r.1.remaining_quantity = 0 then bid_tail else r.1 :: bid_tail
          let ask_level1 :=
            if r.2.1.remaining_quantity = 0 then ask_tail else r.2.1 :: ask_tail
          let bids1 :=
            if bid_level1 = [] then bids_rest else (best_bid_price, bid_level1) :: bids_rest
          let asks1 :=
            if ask_level1 = [] then asks_rest else (best_ask_price, ask_level1) :: asks_rest
          some (bids1, asks1, traded1, r.2.2)

/-- The `while` loop of `OrderBook::matchOrders`, iterating `matchStep` with
explicit fuel (one unit per iteration). -/
def matchLoop (instrument_name : String) :
    Nat → Nat → Ladder → Ladder → List Int →
    Ladder × Ladder × List Int × List OutputRecord
  | 0, _, bids, asks, traded => (bids, asks, traded, [])
  | fuel + 1, event_timestamp, bids, asks, traded =>
    match matchStep instrument_name event_timestamp bids asks traded with
    | none => (bids, asks, traded, [])
    | some (bids1, asks1, traded1, recs) =>
      let rest := matchLoop instrument_name fuel event_timestamp bids1 asks1 traded1
      (rest.1, rest.2.1, rest.2.2.1, recs ++ rest.2.2.2)

/-- `OrderBook::matchOrders(event_timestamp)`: run the loop at its
fuel bound (resting orders + levels, under which it provably stabilises). -/
def matchOrders (instrument_name : String) (event_timestamp : Nat) (b : Book) :
    Book × List OutputRecord :=
  let fuel := ladderWeight b.bids + ladderWeight b.asks
  let r := matchLoop instrument_name fuel event_timestamp b.bids b.asks
    b.ids_traded_this_event
  (⟨r.1, r.2.1, r.2.2.1⟩, r.2.2.2)

/-- One iteration of the MARKET sweep loop (orderbook.cpp lines 169-193 /
197-219, repeated verbatim at lines 348-368 for the MODIFY MARKET path): the
aggressive order eats the front of the opposing ladder at the resting order's
price; `none` when the loop exits (aggressive filled or ladder exhausted). -/
def sweepStep (instrument_name : String) (event_timestamp : Nat) (agg : Order)
    (lad : Ladder) (traded : List Int) :
    Option (Order × Ladder × List Int × List OutputRecord) :=
  if agg.remaining_quantity = 0 then none
  else
    match lad with
    | [] => none
    | (level_price, level_orders) :: lad_rest =>
      match level_orders with
      | [] => some (agg, lad_rest, traded, [])
      | resting :: level_tail =>
        let match_price : Int := resting.price
        let match_qty : Nat := min agg.remaining_quantity resting.remaining_quantity
        let r := recordMatchAndCreateOutput instrument_name agg resting match_qty
          match_price event_timestamp
        let traded1 := insertId (insertId traded agg.order_id) resting.order_id
        let level1 :=
          if r.2.1.remaining_quantity = 0 then level_tail else r.2.1 :: level_tail
        let lad1 :=
          if level1 = [] then lad_rest else (level_price, level1) :: lad_rest
        some (r.1, lad1, traded1, r.2.2)

/-- The MARKET sweep loop, iterating `sweepStep` with explicit fuel. -/
def sweepLoop (instrument_name : String) :
    Nat → Nat → Order → Ladder → List Int →
    Order × Ladder × List Int × List OutputRecord
  | 0, _, agg, lad, traded => (agg, lad, traded, [])
  | fuel + 1, event_timestamp, agg, lad, traded =>
    match sweepStep instrument_name event_timestamp agg lad traded with
    | none => (agg, lad, traded, [])
    | some (agg1, lad1, traded1, recs) =>
      let rest := sweepLoop instrument_name fuel event_timestamp agg1 lad1 traded1
      (rest.1, rest.2.1, rest.2.2.1, recs ++ rest.2.2.2)

/-- Fuel bound for a sweep: the opposing ladder's weight plus one (the final
iteration may only zero the aggressive order without shrinking the ladder). -/
def sweepFuel (lad : Ladder) : Nat := ladderWeight lad + 1

/-- Remove the first order with the given id from a FIFO
(the `find_and_remove_from_list` lambda of the MODIFY and CANCEL paths). -/
def removeFirstById : List Order → Int → Option (Order × List Order)
  | [], _ => none
  | o :: rest, target =>
    if o.order_id = target then some (o, rest)
    else (removeFirstById rest target).map (fun p => (p.1, o :: p.2))

/-- Scan a ladder level by level for the first order with the given id,
removing it and erasing its level if that empties it (orderbook.cpp lines
241-281 and the identical CANCEL copy at lines 382-416). -/
def findRemoveLadder : Ladder → Int → Option (Order × Ladder)
  | [], _ => none
  | (p, l) :: rest, target =>
    match removeFirstById l target with
    | some (o, l1) => some (o, if l1 = [] then rest else (p, l1) :: rest)
    | none => (findRemoveLadder rest target).map (fun r => (r.1, (p, l) :: r.2))

/-- Scan `bids_` then `asks_` for the target id, as both the MODIFY and the
CANCEL paths do; the result records which ladder shrank. -/
def findRemoveBook (b : Book) (target : Int) : Option (Order × Book) :=
  match findRemoveLadder b.bids target with
  | some (o, bids1) => some (o, { b with bids := bids1 })
  | none =>
    match findRemoveLadder b.asks target with
    | some (o, asks1) => some (o, { b with asks := asks1 })
    | none => none

/-- The shared scan of orderbook.cpp lines 334 and 336: inside the level at
the given price (if any), the first order with the target id. -/
def findTargetAtLevel (lad : Ladder) (p : Int) (target : Int) : Option Order :=
  match lad.find? (fun lv => lv.1 = p) with
  | some lv => lv.2.find? (fun o => o.order_id = target)
  | none => none

/-- orderbook.cpp lines 333-337: after the MODIFY re-insert and match, look
for the modified order inside the level at its (new) price — in the bids when
its side is BUY, in the asks when its side is SELL, and nowhere otherwise: an
UNKNOWN side falls through both guards of the `if`/`else if` and leaves the
final resting pointer null. -/
def findRestingAfterModify (b : Book) (side : Side) (p : Int) (target : Int) :
    Option Order :=
  if side = Side.BUY then findTargetAtLevel b.bids p target
  else if side = Side.SELL then findTargetAtLevel b.asks p target
  else none

/-- orderbook.cpp lines 150-161: a NEW LIMIT order (already initialized) is
appended to its ladder, a PENDING record is emitted, and the matching loop
runs. -/
def processNewLimit (instrument_name : String) (current_event_timestamp : Nat)
    (o : Order) (b : Book) : Book × List OutputRecord :=
  let b1 :=
    if o.side = Side.BUY then { b with bids := insertBid b.bids o.price o }
    else { b with asks := insertAsk b.asks o.price o }
  let pending := addInitialOutputRecord instrument_name o OrderStatus.PENDING 0 0 0
    current_event_timestamp
  let r := matchOrders instrument_name current_event_timestamp b1
  (r.1, pending :: r.2)

/-- The shared shape of the two MARKET sweeps (orderbook.cpp lines 167-220 for
NEW, lines 348-368 for MODIFY): a BUY sweeps the asks, anything else sweeps
the bids; returns the swept aggressive order, the updated book and the fill
records. -/
def marketSweep (instrument_name : String) (current_event_timestamp : Nat)
    (o : Order) (b : Book) : Order × Book × List OutputRecord :=
  if o.side = Side.BUY then
    let sw := sweepLoop instrument_name (sweepFuel b.asks) current_event_timestamp o
      b.asks b.ids_traded_this_event
    (sw.1, { b with asks := sw.2.1, ids_traded_this_event := sw.2.2.1 }, sw.2.2.2)
  else
    let sw := sweepLoop instrument_name (sweepFuel b.bids) current_event_timestamp o
      b.bids b.ids_traded_this_event
    (sw.1, { b with bids := sw.2.1, ids_traded_this_event := sw.2.2.1 }, sw.2.2.2)

/-- orderbook.cpp lines 164-226: a NEW MARKET order sweeps the opposing ladder
and is REJECTED exactly when its initial quantity was positive and nothing
executed. -/
def processNewMarket (instrument_name : String) (current_event_timestamp : Nat)
    (o : Order) (b : Book) : Book × List OutputRecord :=
  let initial_market_order_qty := o.remaining_quantity
  let sw := marketSweep instrument_name current_event_timestamp o b
  if sw.1.cumulative_executed_quantity = 0 ∧ initial_market_order_qty > 0 then
    (sw.2.1, sw.2.2 ++ [addInitialOutputRecord instrument_name sw.1
      OrderStatus.REJECTED 0 0 0 current_event_timestamp])
  else (sw.2.1, sw.2.2)

/-- orderbook.cpp lines 327-341: after the MODIFY re-insert and match, the one
extra record for the modified order, emitted only if it is found resting at
its (new) price level and its id is not in `ids_traded_this_event_`. -/
def modifyPendingExtra (instrument_name : String) (current_event_timestamp : Nat)
    (bAfter : Book) (m : Order) : List OutputRecord :=
  match findRestingAfterModify bAfter m.side m.price m.order_id with
  | some final_resting =>
    if m.order_id ∈ bAfter.ids_traded_this_event then []
    else
      [addInitialOutputRecord instrument_name final_resting final_resting.status 0 0 0
        current_event_timestamp]
  | none => []

/-- orderbook.cpp lines 310-341: re-insert the modified LIMIT order, run the
matching loop, and emit one PENDING-shaped record for it only if it still
rests at its (new) price level and did not trade during this event. -/
def modifyLimitReinsert (instrument_name : String) (current_event_timestamp : Nat)
    (m : Order) (b1 : Book) : Book × List OutputRecord :=
  let b2 :=
    if m.side = Side.BUY then { b1 with bids := insertBid b1.bids m.price m }
    else { b1 with asks := insertAsk b1.asks m.price m }
  let r := matchOrders instrument_name current_event_timestamp b2
  (r.1, r.2 ++ modifyPendingExtra instrument_name current_event_timestamp r.1 m)

/-- orderbook.cpp lines 344-371: the MODIFY MARKET path sweeps like a NEW
MARKET but rejects only when the sweep added nothing to the retained
cumulative executed quantity. -/
def modifyMarketSweep (instrument_name : String) (current_event_timestamp : Nat)
    (m : Order) (b1 : Book) : Book × List OutputRecord :=
  let initial_mod_market_qty := m.remaining_quantity
  let cum_exec_before_market_sweep := m.cumulative_executed_quantity
  let sw := marketSweep instrument_name current_event_timestamp m b1
  if sw.1.cumulative_executed_quantity = cum_exec_before_market_sweep ∧
      initial_mod_market_qty > 0 then
    (sw.2.1, sw.2.2 ++ [addInitialOutputRecord instrument_name sw.1
      OrderStatus.REJECTED 0 0 0 current_event_timestamp])
  else (sw.2.1, sw.2.2)

/-- orderbook.cpp lines 229-373, the MODIFY path: locate and remove the target
(bids then asks), REJECT when absent; overwrite timestamp, price, quantity,
type and action while keeping the cumulative executed quantity; a new quantity
at most the cumulative yields one CANCELED/EXECUTED record without
re-insertion, otherwise the order re-enters by type. -/
def processModify (instrument_name : String) (current_event_timestamp : Nat)
    (req : Order) (b : Book) : Book × List OutputRecord :=
  match findRemoveBook b req.order_id with
  | none =>
    (b, [addInitialOutputRecord instrument_name req OrderStatus.REJECTED 0 0 0
      current_event_timestamp])
  | some (existing_order_copy, b1) =>
    let modified : Order :=
      { existing_order_copy with
        timestamp := current_event_timestamp
        price := req.price
        quantity := req.quantity
        action := OrderAction.MODIFY
        type := req.type }
    if modified.quantity ≤ modified.cumulative_executed_quantity then
      let modified :=
        { modified with
          remaining_quantity := 0
          status :=
            if modified.cumulative_executed_quantity = 0 ∧ modified.quantity = 0 then
              OrderStatus.CANCELED
            else OrderStatus.EXECUTED }
      (b1, [addInitialOutputRecord instrument_name modified modified.status 0 0 0
        current_event_timestamp])
    else
      let modified :=
        { modified with
          remaining_quantity := modified.quantity - modified.cumulative_executed_quantity
          status := OrderStatus.PENDING }
      match modified.type with
      | OrderType.LIMIT =>
        modifyLimitReinsert instrument_name current_event_timestamp modified b1
      | OrderType.MARKET =>
        modifyMarketSweep instrument_name current_event_timestamp modified b1
      | OrderType.UNKNOWN_TYPE => (b1, [])

/-- orderbook.cpp lines 375-425, the CANCEL path. -/
def processCancel (instrument_name : String) (current_event_timestamp : Nat)
    (req : Order) (b : Book) : Book × List OutputRecord :=
  match findRemoveBook b req.order_id with
  | some (order_being_cancelled, b1) =>
    let cancelled :=
      { order_being_cancelled with
        timestamp := current_event_timestamp
        action := OrderAction.CANCEL }
    (b1, [addInitialOutputRecord instrument_name cancelled OrderStatus.CANCELED 0 0 0
      current_event_timestamp])
  | none =>
    (b, [addInitialOutputRecord instrument_name req OrderStatus.REJECTED 0 0 0
      current_event_timestamp])

/-- orderbook.cpp lines 123-431, `OrderBook::processSingleOrder`: full action
dispatch for one incoming event; returns the new book state and the records
pushed to the output queue, in push order. -/
def processSingleOrder (instrument_name : String) (incoming : Order) (b0 : Book) :
    Book × List OutputRecord :=
  let current_event_timestamp := incoming.timestamp
  if incoming.instrument ≠ instrument_name then
    (b0, [addInitialOutputRecord instrument_name incoming OrderStatus.REJECTED 0 0 0
      current_event_timestamp])
  else
    let req :=
      if incoming.action = OrderAction.NEW then
        { incoming with
          remaining_quantity := incoming.quantity
          cumulative_executed_quantity := 0
          status := OrderStatus.PENDING }
      else incoming
    let b : Book := { b0 with ids_traded_this_event := [] }
    match req.action with
    | OrderAction.NEW =>
      match req.type with
      | OrderType.LIMIT => processNewLimit instrument_name current_event_timestamp req b
      | OrderType.MARKET => processNewMarket instrument_name current_event_timestamp req b
      | OrderType.UNKNOWN_TYPE => (b, [])
    | OrderAction.MODIFY => processModify instrument_name current_event_timestamp req b
    | OrderAction.CANCEL => processCancel instrument_name current_event_timestamp req b
    | OrderAction.UNKNOWN_ACTION =>
      (b, [addInitialOutputRecord instrument_name req OrderStatus.REJECTED 0 0 0
        current_event_timestamp])

/-- Process a whole input stream through one book (the worker loop of
orderbook.hpp lines 67-78 drains its inbox in FIFO order), starting from the
empty book and concatenating the emitted records. -/
def runEvents (instrument_name : String) (events : List Order) :
    Book × List OutputRecord :=
  events.foldl
    (fun st e =>
      let r := processSingleOrder instrument_name e st.1
      (r.1, st.2 ++ r.2))
    (emptyBook, [])

/-- The fuel measure of one `matchOrders` iteration's two ladders. -/
def matchMeasure (bids asks : Ladder) : Nat := ladderWeight bids + ladderWeight asks

/-- The fuel measure of a sweep state: the opposing ladder's weight plus one
when the aggressive order still has remaining quantity. -/
def sweepMeasure (agg : Order) (lad : Ladder) : Nat :=
  ladderWeight lad + (if agg.remaining_quantity = 0 then 0 else 1)

/-- All orders resting in a ladder, level by level. -/
def ordersOfLadder (lad : Ladder) : List Order := (lad.map Prod.snd).flatten

/-- The ids of the orders resting in a ladder. -/
def ladderIds (lad : Ladder) : List Int := (ordersOfLadder lad).map Order.order_id

/-- All orders resting in a book. -/
def bookOrders (b : Book) : List Order := ordersOfLadder b.bids ++ ordersOfLadder b.asks

/-- The ids of all orders resting in a book. -/
def bookIds (b : Book) : List Int := (bookOrders b).map Order.order_id

/-- The sum of the `executed_quantity` column over all records emitted for one
order id. -/
def execSum (id : Int) (out : List OutputRecord) : Nat :=
  (out.filter (fun r => r.order_id = id)).foldr
    (fun r acc => r.executed_this_event_quantity + acc) 0

/-- A record stream made of consecutive fill pairs: each match emits the
aggressive record then the passive record, both priced at the passive record's
own price column and referencing each other as counterparty. -/
def fillPaired : List OutputRecord → Prop
  | [] => True
  | r1 :: r2 :: rest =>
    r1.execution_price = r2.price ∧ r2.execution_price = r2.price ∧
    r1.counterparty_id = r2.order_id ∧ r2.counterparty_id = r1.order_id ∧
    r1.executed_this_event_quantity = r2.executed_this_event_quantity ∧
    r1.timestamp = r2.timestamp ∧ fillPaired rest
  | _ :: [] => False

instance instDecidableFillPaired : (l : List OutputRecord) → Decidable (fillPaired l)
  | [] => by unfold fillPaired; infer_instance
  | [_] => by unfold fillPaired; infer_instance
  | _ :: _ :: rest => by
    unfold fillPaired
    have := instDecidableFillPaired rest
    infer_instance

/-- The ids of the NEW events of an input stream (each is unique per the
spec's input contract). -/
def newIds (events : List Order) : List Int :=
  (events.filter (fun e => e.action = OrderAction.NEW)).map Order.order_id

/-- The bid ladder's keys are strictly descending and the ask ladder's keys
strictly ascending — the `std::map` invariants of `bids_` and `asks_`. -/
def ladderSorted (b : Book) : Prop :=
  b.bids.Pairwise (fun x y => y.1 < x.1) ∧ b.asks.Pairwise (fun x y => x.1 < y.1)

/-- The book is not crossed: one ladder empty, or best bid < best ask. -/
def uncrossed (b : Book) : Prop :=
  match b.bids, b.asks with
  | [], _ => True
  | _, [] => True
  | (bp, _) :: _, (ap, _) :: _ => bp < ap

instance : DecidablePred uncrossed := fun b => by
  rcases b with ⟨bids, asks, tr⟩
  rcases bids with _ | ⟨⟨bp, bl⟩, br⟩ <;> rcases asks with _ | ⟨⟨ap, al⟩, ar⟩ <;>
    first
      | exact isTrue trivial
      | exact inferInstanceAs (Decidable (_ < _))

/-- An input event as the reader produces it (order.cpp lines 267-271:
`remaining_quantity = quantity`, `cumulative_executed_quantity = 0`,
`status = UNKNOWN`). -/
def mkEvent (instr : String) (ts : Nat) (id : Int) (s : Side) (ty : OrderType)
    (q : Nat) (p : Int) (a : OrderAction) : Order :=
  { timestamp := ts, order_id := id, instrument := instr, side := s, type := ty,
    quantity := q, price := p, action := a, remaining_quantity := q,
    cumulative_executed_quantity := 0, status := OrderStatus.UNKNOWN_STATUS }

/-- A LIMIT order resting in a ladder, as a NEW LIMIT leaves it when it does
not match: PENDING with full remaining quantity. -/
def mkResting (instr : String) (ts : Nat) (id : Int) (s : Side) (q : Nat)
    (p : Int) : Order :=
  { timestamp := ts, order_id := id, instrument := instr, side := s,
    type := OrderType.LIMIT, quantity := q, price := p, action := OrderAction.NEW,
    remaining_quantity := q, cumulative_executed_quantity := 0,
    status := OrderStatus.PENDING }

/-- The record-column contract of the spec's output table that the code
satisfies: PENDING and REJECTED rows carry no execution data, CANCELED rows
are fully zeroed, EXECUTED rows show 0 in the quantity column. -/
def recordColumnFacts (r : OutputRecord) : Prop :=
  (r.status = OrderStatus.PENDING ∨ r.status = OrderStatus.REJECTED →
    r.executed_this_event_quantity = 0 ∧ r.execution_price = 0 ∧
    r.counterparty_id = 0) ∧
  (r.status = OrderStatus.CANCELED →
    r.original_quantity_or_remaining = 0 ∧ r.price = 0 ∧
    r.executed_this_event_quantity = 0 ∧ r.execution_price = 0 ∧
    r.counterparty_id = 0) ∧
  (r.status = OrderStatus.EXECUTED → r.original_quantity_or_remaining = 0)

/-- The claimed fill contract of EXECUTED and PARTIALLY_EXECUTED rows: such a
record reports this fill's quantities and "the other order's id", so the other
participant's record must exist in the same event output, mirroring the ids
and carrying the same fill data. -/
def recordsPartnered (out : List OutputRecord) : Prop :=
  ∀ r ∈ out,
    (r.status = OrderStatus.EXECUTED ∨ r.status = OrderStatus.PARTIALLY_EXECUTED) →
    ∃ s ∈ out, s.order_id = r.counterparty_id ∧ s.counterparty_id = r.order_id ∧
      s.executed_this_event_quantity = r.executed_this_event_quantity ∧
      s.execution_price = r.execution_price

instance : DecidablePred recordsPartnered := fun out => by
  unfold recordsPartnered
  infer_instance

/-- The `original_quantity` stated on the most recent event carrying a given
order id. -/
def mostRecentOriginalQuantity (events : List Order) (id : Int) : Nat :=
  ((events.filter (fun e => e.order_id = id)).map Order.quantity).getLastD 0

/-- A partially executed LIMIT order resting in a ladder (`fill` units already
executed). -/
def mkRestingPart (instr : String) (ts : Nat) (id : Int) (s : Side) (q : Nat)
    (p : Int) (fill : Nat) : Order :=
  { timestamp := ts, order_id := id, instrument := instr, side := s,
    type := OrderType.LIMIT, quantity := q, price := p, action := OrderAction.NEW,
    remaining_quantity := q - fill, cumulative_executed_quantity := fill,
    status := OrderStatus.PARTIALLY_EXECUTED }

/-- The two resting-order invariants of the spec: a live status and quantity
conservation (`remaining + cumulative = original`). -/
def orderLive (o : Order) : Prop :=
  (o.status = OrderStatus.PENDING ∨ o.status = OrderStatus.PARTIALLY_EXECUTED) ∧
  o.remaining_quantity + o.cumulative_executed_quantity = o.quantity

/-- The global ledger invariant tying a book to the output emitted so far:
every resting order is live and its cumulative executed quantity equals the
sum of the executed quantities over its emitted records; resting ids are
pairwise distinct and all stem from already-processed NEW ids; and the
executed-quantity sum vanishes on ids never seen as a NEW. -/
def bookLedgerInv (processed : List Int) (b : Book) (out : List OutputRecord) :
    Prop :=
  (∀ o ∈ bookOrders b,
    orderLive o ∧ execSum o.order_id out = o.cumulative_executed_quantity) ∧
  (bookIds b).Nodup ∧
  (∀ id ∈ bookIds b, id ∈ processed) ∧
  (∀ id, id ∉ processed → execSum id out = 0)

end OrderBook

namespace ThreadSafeQueue

/-- thread_safe_queue.hpp lines 31-41, `ThreadSafeQueue::push`: under the
mutex, unconditionally append the item to the underlying `std::queue` and wake
one waiter. The functional content is the enqueue; there is no capacity
parameter and no wait of any kind before the enqueue. -/
def push {T : Type} (data_queue : List T) (item : T) : List T :=
  data_queue ++ [item]

/-- thread_safe_queue.hpp lines 99-103, `ThreadSafeQueue::size`. -/
def size {T : Type} (data_queue : List T) : Nat := data_queue.length

/-- order.cpp lines 360-366: before pushing a parsed order into the input
queue the reader spins until `order_queue.size() < max_queue_size_allowed`;
this is the state in which the push then happens (the queue has a single
producer). -/
def readerCanPush {T : Type} (data_queue : List T) (max_queue_size_allowed : Nat) :
    Prop :=
  size data_queue < max_queue_size_allowed

end ThreadSafeQueue


namespace OrderBook

@[simp] theorem ladderWeight_nil : ladderWeight [] = 0 := rfl

@[simp] theorem ladderWeight_cons (p : Int) (l : List Order) (rest : Ladder) :
    ladderWeight ((p, l) :: rest) = l.length + 1 + ladderWeight rest := by
  simp [ladderWeight]

theorem ladderWeight_eq_zero {lad : Ladder} (h : ladderWeight lad = 0) : lad = [] := by
  cases lad with
  | nil => rfl
  | cons lv rest => rcases lv with ⟨p, l⟩; simp at h

@[simp] theorem applyFill_rem (o : Order) (q : Nat) :
    (applyFill o q).remaining_quantity = o.remaining_quantity - q := rfl

@[simp] theorem applyFill_cum (o : Order) (q : Nat) :
    (applyFill o q).cumulative_executed_quantity =
      o.cumulative_executed_quantity + q := rfl

@[simp] theorem applyFill_id (o : Order) (q : Nat) :
    (applyFill o q).order_id = o.order_id := rfl

@[simp] theorem applyFill_quantity (o : Order) (q : Nat) :
    (applyFill o q).quantity = o.quantity := rfl

@[simp] theorem applyFill_price (o : Order) (q : Nat) :
    (applyFill o q).price = o.price := rfl

@[simp] theorem applyFill_side (o : Order) (q : Nat) :
    (applyFill o q).side = o.side := rfl

@[simp] theorem applyFill_type (o : Order) (q : Nat) :
    (applyFill o q).type = o.type := rfl

@[simp] theorem applyFill_timestamp (o : Order) (q : Nat) :
    (applyFill o q).timestamp = o.timestamp := rfl

@[simp] theorem applyFill_status (o : Order) (q : Nat) :
    (applyFill o q).status =
      if o.remaining_quantity - q = 0 then OrderStatus.EXECUTED
      else OrderStatus.PARTIALLY_EXECUTED := rfl

@[simp] theorem matchRecord_order_id (i : String) (o : Order) (cp : Int) (q : Nat)
    (px : Int) (ts : Nat) : (matchRecord i o cp q px ts).order_id = o.order_id := rfl

@[simp] theorem matchRecord_status (i : String) (o : Order) (cp : Int) (q : Nat)
    (px : Int) (ts : Nat) : (matchRecord i o cp q px ts).status = o.status := rfl

@[simp] theorem matchRecord_exec_qty (i : String) (o : Order) (cp : Int) (q : Nat)
    (px : Int) (ts : Nat) :
    (matchRecord i o cp q px ts).executed_this_event_quantity = q := rfl

@[simp] theorem matchRecord_exec_price (i : String) (o : Order) (cp : Int) (q : Nat)
    (px : Int) (ts : Nat) : (matchRecord i o cp q px ts).execution_price = px := rfl

@[simp] theorem matchRecord_counterparty (i : String) (o : Order) (cp : Int) (q : Nat)
    (px : Int) (ts : Nat) : (matchRecord i o cp q px ts).counterparty_id = cp := rfl

@[simp] theorem matchRecord_price (i : String) (o : Order) (cp : Int) (q : Nat)
    (px : Int) (ts : Nat) : (matchRecord i o cp q px ts).price = o.price := rfl

@[simp] theorem matchRecord_qty_col (i : String) (o : Order) (cp : Int) (q : Nat)
    (px : Int) (ts : Nat) :
    (matchRecord i o cp q px ts).original_quantity_or_remaining =
      if o.status = OrderStatus.EXECUTED then 0 else o.remaining_quantity := rfl

@[simp] theorem recordMatch_agg (i : String) (a p : Order) (q : Nat) (px : Int)
    (ts : Nat) :
    (recordMatchAndCreateOutput i a p q px ts).1 = applyFill a q := rfl

@[simp] theorem recordMatch_pas (i : String) (a p : Order) (q : Nat) (px : Int)
    (ts : Nat) :
    (recordMatchAndCreateOutput i a p q px ts).2.1 = applyFill p q := rfl

@[simp] theorem recordMatch_recs (i : String) (a p : Order) (q : Nat) (px : Int)
    (ts : Nat) :
    (recordMatchAndCreateOutput i a p q px ts).2.2 =
      [matchRecord i (applyFill a q) p.order_id q px ts,
       matchRecord i (applyFill p q) a.order_id q px ts] := rfl

theorem ladderWeight_reinsert_le (p : Int) (lvl : List Order) (rest : Ladder) :
    ladderWeight (if lvl = [] then rest else (p, lvl) :: rest) ≤
      lvl.length + 1 + ladderWeight rest := by
  by_cases h : lvl = [] <;> simp [h]

/-- Each iteration of `matchOrders` that `matchStep` performs strictly shrinks
the measure: an empty front level is erased, or the front order with the
smaller remaining quantity is popped. -/
theorem matchStep_measure_lt (i : String) (ts : Nat) {bids asks bids1 asks1 : Ladder}
    {traded traded1 : List Int} {recs : List OutputRecord}
    (h : matchStep i ts bids asks traded = some (bids1, asks1, traded1, recs)) :
    matchMeasure bids1 asks1 < matchMeasure bids asks := by
  rcases bids with _ | ⟨⟨bp, bl⟩, brest⟩
  · simp [matchStep] at h
  rcases asks with _ | ⟨⟨ap, al⟩, arest⟩
  · simp [matchStep] at h
  by_cases hlt : bp < ap
  · simp [matchStep, hlt] at h
  rcases bl with _ | ⟨buy, bt⟩
  · simp only [matchStep, if_neg hlt, Option.some.injEq, Prod.mk.injEq] at h
    obtain ⟨rfl, rfl, rfl, rfl⟩ := h
    simp [matchMeasure]
  rcases al with _ | ⟨sell, st⟩
  · simp only [matchStep, if_neg hlt, Option.some.injEq, Prod.mk.injEq] at h
    obtain ⟨rfl, rfl, rfl, rfl⟩ := h
    simp [matchMeasure]
  · simp only [matchStep, if_neg hlt, Option.some.injEq, Prod.mk.injEq] at h
    obtain ⟨h1, h2, _, _⟩ := h
    subst h1 h2
    set q := min buy.remaining_quantity sell.remaining_quantity with hq
    have hpop : buy.remaining_quantity - q = 0 ∨ sell.remaining_quantity - q = 0 := by
      rcases le_total buy.remaining_quantity sell.remaining_quantity with hh | hh
      · left
        have := Nat.min_le_left buy.remaining_quantity sell.remaining_quantity
        have : q = buy.remaining_quantity := by rw [hq]; exact Nat.min_eq_left hh
        omega
      · right
        have : q = sell.remaining_quantity := by rw [hq]; exact Nat.min_eq_right hh
        omega
    simp only [recordMatch_agg, recordMatch_pas, applyFill_rem]
    rcases hpop with h0 | h0 <;>
      by_cases hb0 : buy.remaining_quantity - q = 0 <;>
      by_cases hs0 : sell.remaining_quantity - q = 0 <;>
      rcases bt with _ | ⟨b1, btt⟩ <;> rcases st with _ | ⟨s1, stt⟩ <;>
      simp [matchMeasure, hb0, hs0] <;>
      omega

/-- One more unit of fuel beyond the measure does not change `matchLoop`. -/
theorem matchLoop_succ_stable (i : String) (ts : Nat) :
    ∀ fuel bids asks traded, matchMeasure bids asks ≤ fuel →
      matchLoop i (fuel + 1) ts bids asks traded =
        matchLoop i fuel ts bids asks traded := by
  intro fuel
  induction fuel with
  | zero =>
    intro bids asks traded h
    have hz : matchMeasure bids asks = 0 := Nat.le_zero.mp h
    have hb : bids = [] := by
      apply ladderWeight_eq_zero
      simp [matchMeasure] at hz
      omega
    subst hb
    simp [matchLoop, matchStep]
  | succ f ih =>
    intro bids asks traded h
    rcases hstep : matchStep i ts bids asks traded with _ | ⟨bids1, asks1, traded1, recs⟩
    · rw [matchLoop, matchLoop, hstep]
    · have hlt := matchStep_measure_lt i ts hstep
      rw [matchLoop, matchLoop, hstep]
      simp only
      rw [ih bids1 asks1 traded1 (by omega)]

/-- `matchLoop` stabilises at fuel `matchMeasure`: any larger fuel gives the
same result. -/
theorem matchLoop_stable (i : String) (ts : Nat) (bids asks : Ladder)
    (traded : List Int) :
    ∀ fuel, matchMeasure bids asks ≤ fuel →
      matchLoop i fuel ts bids asks traded =
        matchLoop i (matchMeasure bids asks) ts bids asks traded := by
  intro fuel h
  obtain ⟨k, rfl⟩ : ∃ k, fuel = matchMeasure bids asks + k :=
    ⟨fuel - matchMeasure bids asks, by omega⟩
  induction k with
  | zero => rfl
  | succ k ihk =>
    rw [show matchMeasure bids asks + (k + 1) = (matchMeasure bids asks + k) + 1 by omega,
      matchLoop_succ_stable i ts _ _ _ _ (by omega), ihk (by omega)]

/-- Claim C9: the matching loop terminates for every finite book state, within
a number of iterations bounded by the number of resting orders plus price
levels (`matchMeasure`): running `matchLoop` with any fuel at least that bound
returns exactly what `matchOrders` (which runs the loop at the bound)
returns. -/
theorem C9_matchOrders_terminates (i : String) (ts : Nat) (b : Book) (fuel : Nat)
    (h : matchMeasure b.bids b.asks ≤ fuel) :
    matchLoop i fuel ts b.bids b.asks b.ids_traded_this_event =
      ((matchOrders i ts b).1.bids, (matchOrders i ts b).1.asks,
       (matchOrders i ts b).1.ids_traded_this_event, (matchOrders i ts b).2) := by
  rw [matchLoop_stable i ts _ _ _ fuel h]
  rfl

/-- Witness for C9 on a concrete crossed book and a fuel far above the bound. -/
theorem C9_matchOrders_terminates_witness :
    matchMeasure [((100 : Int), [mkResting "X" 1 1 Side.BUY 10 100])]
        [((100 : Int), [mkResting "X" 2 2 Side.SELL 4 100])] ≤ 50 ∧
      matchLoop "X" 50 3
          [((100 : Int), [mkResting "X" 1 1 Side.BUY 10 100])]
          [((100 : Int), [mkResting "X" 2 2 Side.SELL 4 100])] [] =
        ((matchOrders "X" 3 ⟨[((100 : Int), [mkResting "X" 1 1 Side.BUY 10 100])],
            [((100 : Int), [mkResting "X" 2 2 Side.SELL 4 100])], []⟩).1.bids,
         (matchOrders "X" 3 ⟨[((100 : Int), [mkResting "X" 1 1 Side.BUY 10 100])],
            [((100 : Int), [mkResting "X" 2 2 Side.SELL 4 100])], []⟩).1.asks,
         (matchOrders "X" 3 ⟨[((100 : Int), [mkResting "X" 1 1 Side.BUY 10 100])],
            [((100 : Int), [mkResting "X" 2 2 Side.SELL 4 100])], []⟩).1.ids_traded_this_event,
         (matchOrders "X" 3 ⟨[((100 : Int), [mkResting "X" 1 1 Side.BUY 10 100])],
            [((100 : Int), [mkResting "X" 2 2 Side.SELL 4 100])], []⟩).2) :=
  ⟨by decide,
   C9_matchOrders_terminates "X" 3
     ⟨[((100 : Int), [mkResting "X" 1 1 Side.BUY 10 100])],
      [((100 : Int), [mkResting "X" 2 2 Side.SELL 4 100])], []⟩ 50 (by decide)⟩

/-- Claim C1: whenever both ladders are non-empty and the best bid price is at
least the best ask price, the matching loop's next match is between the two
front orders and executes at the earlier-arrived order's price, the tie going
to the best bid price; the two records of that match carry exactly that
execution price. -/
theorem C1_price_determination (i : String) (fuel ts : Nat) (bp ap : Int)
    (buy sell : Order) (bt st : List Order) (brest arest : Ladder)
    (traded : List Int) (h : ap ≤ bp) :
    ∃ rest,
      (matchLoop i (fuel + 1) ts ((bp, buy :: bt) :: brest)
          ((ap, sell :: st) :: arest) traded).2.2.2 =
        matchRecord i (applyFill buy (min buy.remaining_quantity sell.remaining_quantity))
            sell.order_id (min buy.remaining_quantity sell.remaining_quantity)
            (if buy.timestamp < sell.timestamp then buy.price
              else if sell.timestamp < buy.timestamp then sell.price else bp) ts ::
          matchRecord i (applyFill sell (min buy.remaining_quantity sell.remaining_quantity))
            buy.order_id (min buy.remaining_quantity sell.remaining_quantity)
            (if buy.timestamp < sell.timestamp then buy.price
              else if sell.timestamp < buy.timestamp then sell.price else bp) ts ::
          rest := by
  rw [matchLoop]
  simp only [matchStep, if_neg (not_lt.mpr h), recordMatch_recs]
  exact ⟨_, rfl⟩

/-- Witness for C1 on a concrete book where the buy order arrived first, so
its price (101) is the execution price. -/
theorem C1_price_determination_witness :
    (4 : Int) ≤ 101 ∧
      ∃ rest,
        (matchLoop "X" 9 7 [((101 : Int), [mkResting "X" 1 1 Side.BUY 10 101])]
            [((4 : Int), [mkResting "X" 2 2 Side.SELL 4 4])] []).2.2.2 =
          matchRecord "X"
              (applyFill (mkResting "X" 1 1 Side.BUY 10 101)
                (min (mkResting "X" 1 1 Side.BUY 10 101).remaining_quantity
                  (mkResting "X" 2 2 Side.SELL 4 4).remaining_quantity))
              (mkResting "X" 2 2 Side.SELL 4 4).order_id
              (min (mkResting "X" 1 1 Side.BUY 10 101).remaining_quantity
                (mkResting "X" 2 2 Side.SELL 4 4).remaining_quantity)
              (if (mkResting "X" 1 1 Side.BUY 10 101).timestamp <
                  (mkResting "X" 2 2 Side.SELL 4 4).timestamp then
                  (mkResting "X" 1 1 Side.BUY 10 101).price
                else if (mkResting "X" 2 2 Side.SELL 4 4).timestamp <
                    (mkResting "X" 1 1 Side.BUY 10 101).timestamp then
                  (mkResting "X" 2 2 Side.SELL 4 4).price
                else 101) 7 ::
            matchRecord "X"
              (applyFill (mkResting "X" 2 2 Side.SELL 4 4)
                (min (mkResting "X" 1 1 Side.BUY 10 101).remaining_quantity
                  (mkResting "X" 2 2 Side.SELL 4 4).remaining_quantity))
              (mkResting "X" 1 1 Side.BUY 10 101).order_id
              (min (mkResting "X" 1 1 Side.BUY 10 101).remaining_quantity
                (mkResting "X" 2 2 Side.SELL 4 4).remaining_quantity)
              (if (mkResting "X" 1 1 Side.BUY 10 101).timestamp <
                  (mkResting "X" 2 2 Side.SELL 4 4).timestamp then
                  (mkResting "X" 1 1 Side.BUY 10 101).price
                else if (mkResting "X" 2 2 Side.SELL 4 4).timestamp <
                    (mkResting "X" 1 1 Side.BUY 10 101).timestamp then
                  (mkResting "X" 2 2 Side.SELL 4 4).price
                else 101) 7 ::
            rest :=
  ⟨by decide,
   C1_price_determination "X" 8 7 101 4 (mkResting "X" 1 1 Side.BUY 10 101)
     (mkResting "X" 2 2 Side.SELL 4 4) [] [] [] [] [] (by decide)⟩

/-- Claim C6: a MODIFY whose target is found resting and whose new
original_quantity does not exceed the retained cumulative executed quantity
emits exactly one record — CANCELED when both quantities are zero, EXECUTED
otherwise — and leaves the book exactly as the removal left it (the order is
not re-inserted into any ladder). -/
theorem C6_modify_shrink (i : String) (req : Order) (b0 b1 : Book) (found : Order)
    (hact : req.action = OrderAction.MODIFY)
    (hinstr : req.instrument = i)
    (hfind : findRemoveBook { b0 with ids_traded_this_event := [] } req.order_id =
      some (found, b1))
    (hq : req.quantity ≤ found.cumulative_executed_quantity) :
    processSingleOrder i req b0 =
      (b1,
       [addInitialOutputRecord i
          { found with
            timestamp := req.timestamp
            price := req.price
            quantity := req.quantity
            action := OrderAction.MODIFY
            type := req.type
            remaining_quantity := 0
            status :=
              if found.cumulative_executed_quantity = 0 ∧ req.quantity = 0 then
                OrderStatus.CANCELED
              else OrderStatus.EXECUTED }
          (if found.cumulative_executed_quantity = 0 ∧ req.quantity = 0 then
              OrderStatus.CANCELED
            else OrderStatus.EXECUTED) 0 0 0 req.timestamp]) := by
  simp [processSingleOrder, processModify, hinstr, hact, hfind, hq]

/-- Witness for C6: a resting bid with 4 units already executed is modified
down to quantity 3 (≤ 4); one EXECUTED record, book left without the order. -/
theorem C6_modify_shrink_witness :
    (mkEvent "X" 5 1 Side.BUY OrderType.LIMIT 3 100 OrderAction.MODIFY).action =
        OrderAction.MODIFY ∧
      (mkEvent "X" 5 1 Side.BUY OrderType.LIMIT 3 100 OrderAction.MODIFY).instrument = "X" ∧
      findRemoveBook
          { Book.mk [((100 : Int), [mkRestingPart "X" 1 1 Side.BUY 10 100 4])] [] [9] with
            ids_traded_this_event := [] }
          (mkEvent "X" 5 1 Side.BUY OrderType.LIMIT 3 100 OrderAction.MODIFY).order_id =
        some (mkRestingPart "X" 1 1 Side.BUY 10 100 4, Book.mk [] [] []) ∧
      (mkEvent "X" 5 1 Side.BUY OrderType.LIMIT 3 100 OrderAction.MODIFY).quantity ≤
        (mkRestingPart "X" 1 1 Side.BUY 10 100 4).cumulative_executed_quantity ∧
      processSingleOrder "X"
          (mkEvent "X" 5 1 Side.BUY OrderType.LIMIT 3 100 OrderAction.MODIFY)
          (Book.mk [((100 : Int), [mkRestingPart "X" 1 1 Side.BUY 10 100 4])] [] [9]) =
        (Book.mk [] [] [],
         [addInitialOutputRecord "X"
            { mkRestingPart "X" 1 1 Side.BUY 10 100 4 with
              timestamp := (mkEvent "X" 5 1 Side.BUY OrderType.LIMIT 3 100
                OrderAction.MODIFY).timestamp
              price := (mkEvent "X" 5 1 Side.BUY OrderType.LIMIT 3 100
                OrderAction.MODIFY).price
              quantity := (mkEvent "X" 5 1 Side.BUY OrderType.LIMIT 3 100
                OrderAction.MODIFY).quantity
              action := OrderAction.MODIFY
              type := (mkEvent "X" 5 1 Side.BUY OrderType.LIMIT 3 100
                OrderAction.MODIFY).type
              remaining_quantity := 0
              status :=
                if (mkRestingPart "X" 1 1 Side.BUY 10 100 4).cumulative_executed_quantity = 0 ∧
                    (mkEvent "X" 5 1 Side.BUY OrderType.LIMIT 3 100
                      OrderAction.MODIFY).quantity = 0 then
                  OrderStatus.CANCELED
                else OrderStatus.EXECUTED }
            (if (mkRestingPart "X" 1 1 Side.BUY 10 100 4).cumulative_executed_quantity = 0 ∧
                (mkEvent "X" 5 1 Side.BUY OrderType.LIMIT 3 100
                  OrderAction.MODIFY).quantity = 0 then
                OrderStatus.CANCELED
              else OrderStatus.EXECUTED) 0 0 0
            (mkEvent "X" 5 1 Side.BUY OrderType.LIMIT 3 100
              OrderAction.MODIFY).timestamp]) :=
  ⟨by decide, by decide, by decide, by decide,
   C6_modify_shrink "X" (mkEvent "X" 5 1 Side.BUY OrderType.LIMIT 3 100 OrderAction.MODIFY)
     (Book.mk [((100 : Int), [mkRestingPart "X" 1 1 Side.BUY 10 100 4])] [] [9])
     (Book.mk [] [] []) (mkRestingPart "X" 1 1 Side.BUY 10 100 4)
     (by decide) (by decide) (by decide) (by decide)⟩

/-- Claim C10: a NEW LIMIT order with quantity 0 is not rejected: it is
inserted into its ladder and a PENDING record is emitted; when it crosses the
opposing best price the matching loop emits a pair of records with
executed_quantity 0 in which the zero-quantity order is reported EXECUTED
while the opposing resting order keeps its remaining quantity (here the
zero-quantity order is a buy against a single resting sell). -/
theorem C10_zero_quantity_limit (i : String) (req sell : Order) (pa : Int)
    (tr0 : List Int) (hinstr : req.instrument = i) (hact : req.action = OrderAction.NEW)
    (hty : req.type = OrderType.LIMIT) (hside : req.side = Side.BUY)
    (hq : req.quantity = 0) (hsrem : sell.remaining_quantity ≠ 0)
    (hcross : pa ≤ req.price) :
    processSingleOrder i req ⟨[], [(pa, [sell])], tr0⟩ =
      (⟨[], [(pa, [applyFill sell 0])],
         insertId (insertId [] req.order_id) sell.order_id⟩,
       [addInitialOutputRecord i
          { req with
            remaining_quantity := req.quantity
            cumulative_executed_quantity := 0
            status := OrderStatus.PENDING }
          OrderStatus.PENDING 0 0 0 req.timestamp,
        matchRecord i
          (applyFill { req with
            remaining_quantity := req.quantity
            cumulative_executed_quantity := 0
            status := OrderStatus.PENDING } 0)
          sell.order_id 0
          (if req.timestamp < sell.timestamp then req.price
            else if sell.timestamp < req.timestamp then sell.price else req.price)
          req.timestamp,
        matchRecord i (applyFill sell 0) req.order_id 0
          (if req.timestamp < sell.timestamp then req.price
            else if sell.timestamp < req.timestamp then sell.price else req.price)
          req.timestamp]) ∧
    (applyFill { req with
            remaining_quantity := req.quantity
            cumulative_executed_quantity := 0
            status := OrderStatus.PENDING } 0).status =
      OrderStatus.EXECUTED ∧
    (applyFill sell 0).remaining_quantity = sell.remaining_quantity ∧
    ∀ r ∈ (processSingleOrder i req ⟨[], [(pa, [sell])], tr0⟩).2,
      r.status ≠ OrderStatus.REJECTED := by
  have h1 : processSingleOrder i req ⟨[], [(pa, [sell])], tr0⟩ =
      (⟨[], [(pa, [applyFill sell 0])],
         insertId (insertId [] req.order_id) sell.order_id⟩,
       [addInitialOutputRecord i
          { req with
            remaining_quantity := req.quantity
            cumulative_executed_quantity := 0
            status := OrderStatus.PENDING }
          OrderStatus.PENDING 0 0 0 req.timestamp,
        matchRecord i
          (applyFill { req with
            remaining_quantity := req.quantity
            cumulative_executed_quantity := 0
            status := OrderStatus.PENDING } 0)
          sell.order_id 0
          (if req.timestamp < sell.timestamp then req.price
            else if sell.timestamp < req.timestamp then sell.price else req.price)
          req.timestamp,
        matchRecord i (applyFill sell 0) req.order_id 0
          (if req.timestamp < sell.timestamp then req.price
            else if sell.timestamp < req.timestamp then sell.price else req.price)
          req.timestamp]) := by
    simp [processSingleOrder, processNewLimit, matchOrders, matchLoop, matchStep,
      insertBid, ladderWeight, hinstr, hact, hty, hside, hq, hsrem,
      not_lt.mpr hcross, applyFill, matchRecord]
  refine ⟨h1, ?_, ?_, ?_⟩
  · simp [applyFill, hq]
  · simp [applyFill]
  · intro r hr
    rw [h1] at hr
    simp only [List.mem_cons, List.not_mem_nil, or_false] at hr
    rcases hr with rfl | rfl | rfl
    · simp [addInitialOutputRecord]
    · simp only [matchRecord_status, applyFill_status]
      split <;> simp
    · simp only [matchRecord_status, applyFill_status]
      split <;> simp

/-- Witness for C10: zero-quantity buy at 100 against a resting sell of 5 at
100. -/
theorem C10_zero_quantity_limit_witness :
    (mkEvent "X" 2 2 Side.BUY OrderType.LIMIT 0 100 OrderAction.NEW).instrument = "X" ∧
    (mkEvent "X" 2 2 Side.BUY OrderType.LIMIT 0 100 OrderAction.NEW).action =
      OrderAction.NEW ∧
    (mkEvent "X" 2 2 Side.BUY OrderType.LIMIT 0 100 OrderAction.NEW).type =
      OrderType.LIMIT ∧
    (mkEvent "X" 2 2 Side.BUY OrderType.LIMIT 0 100 OrderAction.NEW).side = Side.BUY ∧
    (mkEvent "X" 2 2 Side.BUY OrderType.LIMIT 0 100 OrderAction.NEW).quantity = 0 ∧
    (mkResting "X" 1 1 Side.SELL 5 100).remaining_quantity ≠ 0 ∧
    (100 : Int) ≤ (mkEvent "X" 2 2 Side.BUY OrderType.LIMIT 0 100 OrderAction.NEW).price ∧
    ((applyFill { mkEvent "X" 2 2 Side.BUY OrderType.LIMIT 0 100 OrderAction.NEW with
        remaining_quantity :=
          (mkEvent "X" 2 2 Side.BUY OrderType.LIMIT 0 100 OrderAction.NEW).quantity
        cumulative_executed_quantity := 0
        status := OrderStatus.PENDING } 0).status =
      OrderStatus.EXECUTED ∧
     (applyFill (mkResting "X" 1 1 Side.SELL 5 100) 0).remaining_quantity =
      (mkResting "X" 1 1 Side.SELL 5 100).remaining_quantity ∧
     ∀ r ∈ (processSingleOrder "X"
        (mkEvent "X" 2 2 Side.BUY OrderType.LIMIT 0 100 OrderAction.NEW)
        ⟨[], [((100 : Int), [mkResting "X" 1 1 Side.SELL 5 100])], []⟩).2,
       r.status ≠ OrderStatus.REJECTED) :=
  ⟨by decide, by decide, by decide, by decide, by decide, by decide, by decide,
   ((C10_zero_quantity_limit "X"
      (mkEvent "X" 2 2 Side.BUY OrderType.LIMIT 0 100 OrderAction.NEW)
      (mkResting "X" 1 1 Side.SELL 5 100) 100 []
      (by decide) (by decide) (by decide) (by decide) (by decide) (by decide)
      (by decide)).2 : _)⟩

theorem sweepStep_measure_lt (i : String) (ts : Nat) {agg agg1 : Order}
    {lad lad1 : Ladder} {traded traded1 : List Int} {recs : List OutputRecord}
    (h : sweepStep i ts agg lad traded = some (agg1, lad1, traded1, recs)) :
    sweepMeasure agg1 lad1 < sweepMeasure agg lad := by
  by_cases h0 : agg.remaining_quantity = 0
  · simp [sweepStep, h0] at h
  rcases lad with _ | ⟨⟨p, l⟩, rest⟩
  · simp [sweepStep, h0] at h
  rcases l with _ | ⟨resting, tail⟩
  · simp only [sweepStep, if_neg h0, Option.some.injEq, Prod.mk.injEq] at h
    obtain ⟨rfl, rfl, rfl, rfl⟩ := h
    simp [sweepMeasure, h0]
  · simp only [sweepStep, if_neg h0, Option.some.injEq, Prod.mk.injEq] at h
    obtain ⟨h1, h2, _, _⟩ := h
    subst h1 h2
    set q := min agg.remaining_quantity resting.remaining_quantity with hq
    simp only [recordMatch_agg, recordMatch_pas, applyFill_rem]
    by_cases hs0 : resting.remaining_quantity - q = 0
    · -- the resting order is popped: the ladder weight drops
      have hle : q ≤ agg.remaining_quantity := by rw [hq]; exact Nat.min_le_left _ _
      rcases tail with _ | ⟨t1, tt⟩ <;>
        by_cases ha0 : agg.remaining_quantity - q = 0 <;>
        simp [sweepMeasure, hs0, ha0, h0] <;> omega
    · -- the resting order is kept, so the aggressive order was filled to zero
      have ha0 : agg.remaining_quantity - q = 0 := by
        rcases Nat.le_total agg.remaining_quantity resting.remaining_quantity with hh | hh
        · rw [hq, Nat.min_eq_left hh]
          omega
        · exact absurd (by rw [hq, Nat.min_eq_right hh]; omega) hs0
      simp [sweepMeasure, hs0, ha0, h0]

theorem sweepLoop_succ_stable (i : String) (ts : Nat) :
    ∀ fuel agg lad traded, sweepMeasure agg lad ≤ fuel →
      sweepLoop i (fuel + 1) ts agg lad traded =
        sweepLoop i fuel ts agg lad traded := by
  intro fuel
  induction fuel with
  | zero =>
    intro agg lad traded h
    have hz : sweepMeasure agg lad = 0 := Nat.le_zero.mp h
    have hl : lad = [] := by
      apply ladderWeight_eq_zero
      simp [sweepMeasure] at hz
      omega
    have h0 : agg.remaining_quantity = 0 := by
      by_contra hc
      simp [sweepMeasure, hc] at hz
    subst hl
    simp [sweepLoop, sweepStep, h0]
  | succ f ih =>
    intro agg lad traded h
    rcases hstep : sweepStep i ts agg lad traded with _ | ⟨agg1, lad1, traded1, recs⟩
    · rw [sweepLoop, sweepLoop, hstep]
    · have hlt := sweepStep_measure_lt i ts hstep
      rw [sweepLoop, sweepLoop, hstep]
      simp only
      rw [ih agg1 lad1 traded1 (by omega)]

theorem sweepLoop_stable (i : String) (ts : Nat) (agg : Order) (lad : Ladder)
    (traded : List Int) :
    ∀ fuel, sweepMeasure agg lad ≤ fuel →
      sweepLoop i fuel ts agg lad traded =
        sweepLoop i (sweepMeasure agg lad) ts agg lad traded := by
  intro fuel h
  obtain ⟨k, rfl⟩ : ∃ k, fuel = sweepMeasure agg lad + k :=
    ⟨fuel - sweepMeasure agg lad, by omega⟩
  induction k with
  | zero => rfl
  | succ k ihk =>
    rw [show sweepMeasure agg lad + (k + 1) = (sweepMeasure agg lad + k) + 1 by omega,
      sweepLoop_succ_stable i ts _ _ _ _ (by omega), ihk (by omega)]

/-- Claim C8 counterexample: the claim says `push` waits for the queue's size
to be below the fixed capacity (100 000 for the input queue) before enqueuing,
which would keep every queue's size at most the capacity after any push; in
the code `push` enqueues unconditionally, so pushing onto a queue that already
holds 100 000 elements yields 100 001. -/
theorem C8_bounded_push_counterexample :
    ¬ (∀ q : List Nat, ThreadSafeQueue.size (ThreadSafeQueue.push q (0 : Nat)) ≤ 100000) := by
  intro h
  have hgen : ∀ q : List Nat, q.length = 100000 → False := by
    intro q hq
    have hc := h q
    unfold ThreadSafeQueue.size ThreadSafeQueue.push at hc
    simp only [List.length_append, List.length_cons, List.length_nil, hq] at hc
    omega
  exact hgen (List.replicate 100000 0) (List.length_replicate _ _)

/-- Claim C8 amended: the queue itself is unbounded — `push` unconditionally
appends (strict FIFO) and wakes one waiter; the input-queue bound is enforced
by the caller `readOrdersFromStream`, which spins until `size() <
max_queue_size_allowed` and only then pushes, so a push made under the
reader's wait condition leaves at most `max` elements. -/
theorem C8_push_unbounded_reader_backpressure (T : Type) :
    (∀ (q : List T) (v : T), ThreadSafeQueue.push q v = q ++ [v]) ∧
    (∀ (q : List Order) (v : Order) (max_queue_size_allowed : Nat),
      ThreadSafeQueue.readerCanPush q max_queue_size_allowed →
        ThreadSafeQueue.size (ThreadSafeQueue.push q v) ≤ max_queue_size_allowed) := by
  constructor
  · intro q v; rfl
  · intro q v m h
    simp only [ThreadSafeQueue.readerCanPush, ThreadSafeQueue.size,
      ThreadSafeQueue.push] at h ⊢
    simp only [List.length_append, List.length_cons, List.length_nil]
    omega

/-- Witness for the amended C8 at a one-element queue and the real input-queue
bound 100 000. -/
theorem C8_push_unbounded_reader_backpressure_witness :
    ThreadSafeQueue.readerCanPush
        [mkEvent "X" 1 1 Side.BUY OrderType.LIMIT 1 1 OrderAction.NEW] 100000 ∧
      ThreadSafeQueue.size
          (ThreadSafeQueue.push
            [mkEvent "X" 1 1 Side.BUY OrderType.LIMIT 1 1 OrderAction.NEW]
            (mkEvent "X" 2 2 Side.SELL OrderType.LIMIT 1 1 OrderAction.NEW)) ≤ 100000 :=
  ⟨by simp [ThreadSafeQueue.readerCanPush, ThreadSafeQueue.size],
   (C8_push_unbounded_reader_backpressure Order).2
     [mkEvent "X" 1 1 Side.BUY OrderType.LIMIT 1 1 OrderAction.NEW]
     (mkEvent "X" 2 2 Side.SELL OrderType.LIMIT 1 1 OrderAction.NEW) 100000
     (by simp [ThreadSafeQueue.readerCanPush, ThreadSafeQueue.size])⟩

theorem applyFill_status_cases (o : Order) (q : Nat) :
    (applyFill o q).status = OrderStatus.PARTIALLY_EXECUTED ∨
      (applyFill o q).status = OrderStatus.EXECUTED := by
  simp only [applyFill_status]
  split <;> simp

theorem addInitialOutputRecord_colFacts (i : String) (o : Order) (st : OrderStatus)
    (ts : Nat) : recordColumnFacts (addInitialOutputRecord i o st 0 0 0 ts) := by
  cases st <;> simp [recordColumnFacts, addInitialOutputRecord]

theorem matchRecord_colFacts (i : String) (o : Order) (cp : Int) (q : Nat) (px : Int)
    (ts : Nat)
    (h : o.status = OrderStatus.PARTIALLY_EXECUTED ∨ o.status = OrderStatus.EXECUTED) :
    recordColumnFacts (matchRecord i o cp q px ts) := by
  rcases h with h | h <;> simp [recordColumnFacts, matchRecord, h]

theorem matchStep_recs_colFacts (i : String) (ts : Nat)
    {bids asks bids1 asks1 : Ladder} {traded traded1 : List Int}
    {recs : List OutputRecord}
    (h : matchStep i ts bids asks traded = some (bids1, asks1, traded1, recs)) :
    ∀ r ∈ recs, recordColumnFacts r ∧
      (r.status = OrderStatus.PARTIALLY_EXECUTED ∨ r.status = OrderStatus.EXECUTED) := by
  rcases bids with _ | ⟨⟨bp, bl⟩, brest⟩
  · simp [matchStep] at h
  rcases asks with _ | ⟨⟨ap, al⟩, arest⟩
  · simp [matchStep] at h
  by_cases hlt : bp < ap
  · simp [matchStep, hlt] at h
  rcases bl with _ | ⟨buy, bt⟩
  · simp only [matchStep, if_neg hlt, Option.some.injEq, Prod.mk.injEq] at h
    obtain ⟨rfl, rfl, rfl, rfl⟩ := h
    simp
  rcases al with _ | ⟨sell, st⟩
  · simp only [matchStep, if_neg hlt, Option.some.injEq, Prod.mk.injEq] at h
    obtain ⟨rfl, rfl, rfl, rfl⟩ := h
    simp
  · simp only [matchStep, if_neg hlt, Option.some.injEq, Prod.mk.injEq,
      recordMatch_recs] at h
    obtain ⟨_, _, _, hrecs⟩ := h
    subst hrecs
    intro r hr
    simp only [List.mem_cons, List.not_mem_nil, or_false] at hr
    rcases hr with rfl | rfl
    · exact ⟨matchRecord_colFacts _ _ _ _ _ _ (applyFill_status_cases _ _),
        by simp only [matchRecord_status]; exact applyFill_status_cases _ _⟩
    · exact ⟨matchRecord_colFacts _ _ _ _ _ _ (applyFill_status_cases _ _),
        by simp only [matchRecord_status]; exact applyFill_status_cases _ _⟩

theorem matchLoop_recs_colFacts (i : String) (ts : Nat) :
    ∀ fuel bids asks traded, ∀ r ∈ (matchLoop i fuel ts bids asks traded).2.2.2,
      recordColumnFacts r ∧
        (r.status = OrderStatus.PARTIALLY_EXECUTED ∨
          r.status = OrderStatus.EXECUTED) := by
  intro fuel
  induction fuel with
  | zero => intro bids asks traded r hr; simp [matchLoop] at hr
  | succ f ih =>
    intro bids asks traded r hr
    rcases hstep : matchStep i ts bids asks traded with _ | ⟨b1, a1, t1, recs⟩
    · rw [matchLoop, hstep] at hr
      simp at hr
    · rw [matchLoop, hstep] at hr
      simp only [List.mem_append] at hr
      rcases hr with hr | hr
      · exact matchStep_recs_colFacts i ts hstep r hr
      · exact ih b1 a1 t1 r hr

theorem sweepStep_recs_colFacts (i : String) (ts : Nat) {agg agg1 : Order}
    {lad lad1 : Ladder} {traded traded1 : List Int} {recs : List OutputRecord}
    (h : sweepStep i ts agg lad traded = some (agg1, lad1, traded1, recs)) :
    ∀ r ∈ recs, recordColumnFacts r ∧
      (r.status = OrderStatus.PARTIALLY_EXECUTED ∨ r.status = OrderStatus.EXECUTED) := by
  by_cases h0 : agg.remaining_quantity = 0
  · simp [sweepStep, h0] at h
  rcases lad with _ | ⟨⟨p, l⟩, rest⟩
  · simp [sweepStep, h0] at h
  rcases l with _ | ⟨resting, tail⟩
  · simp only [sweepStep, if_neg h0, Option.some.injEq, Prod.mk.injEq] at h
    obtain ⟨rfl, rfl, rfl, rfl⟩ := h
    simp
  · simp only [sweepStep, if_neg h0, Option.some.injEq, Prod.mk.injEq,
      recordMatch_recs] at h
    obtain ⟨_, _, _, hrecs⟩ := h
    subst hrecs
    intro r hr
    simp only [List.mem_cons, List.not_mem_nil, or_false] at hr
    rcases hr with rfl | rfl
    · exact ⟨matchRecord_colFacts _ _ _ _ _ _ (applyFill_status_cases _ _),
        by simp only [matchRecord_status]; exact applyFill_status_cases _ _⟩
    · exact ⟨matchRecord_colFacts _ _ _ _ _ _ (applyFill_status_cases _ _),
        by simp only [matchRecord_status]; exact applyFill_status_cases _ _⟩

theorem sweepLoop_recs_colFacts (i : String) (ts : Nat) :
    ∀ fuel agg lad traded, ∀ r ∈ (sweepLoop i fuel ts agg lad traded).2.2.2,
      recordColumnFacts r ∧
        (r.status = OrderStatus.PARTIALLY_EXECUTED ∨
          r.status = OrderStatus.EXECUTED) := by
  intro fuel
  induction fuel with
  | zero => intro agg lad traded r hr; simp [sweepLoop] at hr
  | succ f ih =>
    intro agg lad traded r hr
    rcases hstep : sweepStep i ts agg lad traded with _ | ⟨a1, l1, t1, recs⟩
    · rw [sweepLoop, hstep] at hr
      simp at hr
    · rw [sweepLoop, hstep] at hr
      simp only [List.mem_append] at hr
      rcases hr with hr | hr
      · exact sweepStep_recs_colFacts i ts hstep r hr
      · exact ih a1 l1 t1 r hr

theorem marketSweep_recs_colFacts (i : String) (ts : Nat) (o : Order) (b : Book) :
    ∀ r ∈ (marketSweep i ts o b).2.2, recordColumnFacts r ∧
      (r.status = OrderStatus.PARTIALLY_EXECUTED ∨ r.status = OrderStatus.EXECUTED) := by
  intro r hr
  unfold marketSweep at hr
  by_cases hs : o.side = Side.BUY <;> simp only [hs, if_true, if_false, ite_true,
    ite_false] at hr <;>
    exact sweepLoop_recs_colFacts i ts _ _ _ _ r hr

theorem processNewLimit_colFacts (i : String) (ts : Nat) (o : Order) (b : Book) :
    ∀ r ∈ (processNewLimit i ts o b).2, recordColumnFacts r := by
  intro r hr
  unfold processNewLimit matchOrders at hr
  simp only [List.mem_cons] at hr
  rcases hr with rfl | hr
  · exact addInitialOutputRecord_colFacts _ _ _ _
  · exact (matchLoop_recs_colFacts i ts _ _ _ _ r hr).1

theorem processNewMarket_colFacts (i : String) (ts : Nat) (o : Order) (b : Book) :
    ∀ r ∈ (processNewMarket i ts o b).2, recordColumnFacts r := by
  intro r hr
  unfold processNewMarket at hr
  dsimp only at hr
  split at hr <;> simp only [List.mem_append, List.mem_singleton] at hr
  · rcases hr with hr | rfl
    · exact (marketSweep_recs_colFacts i ts o b r hr).1
    · exact addInitialOutputRecord_colFacts _ _ _ _
  · exact (marketSweep_recs_colFacts i ts o b r hr).1

theorem modifyPendingExtra_colFacts (i : String) (ts : Nat) (bk : Book) (m : Order) :
    ∀ x ∈ modifyPendingExtra i ts bk m, recordColumnFacts x := by
  intro x hx
  unfold modifyPendingExtra at hx
  split at hx
  · split at hx
    · simp at hx
    · simp only [List.mem_singleton] at hx
      subst hx
      exact addInitialOutputRecord_colFacts _ _ _ _
  · simp at hx

theorem modifyLimitReinsert_colFacts (i : String) (ts : Nat) (m : Order) (b1 : Book) :
    ∀ r ∈ (modifyLimitReinsert i ts m b1).2, recordColumnFacts r := by
  intro r hr
  unfold modifyLimitReinsert matchOrders at hr
  dsimp only at hr
  rw [List.mem_append] at hr
  rcases hr with hr | hr
  · exact (matchLoop_recs_colFacts i ts _ _ _ _ r hr).1
  · exact modifyPendingExtra_colFacts i ts _ m r hr

theorem modifyMarketSweep_colFacts (i : String) (ts : Nat) (m : Order) (b1 : Book) :
    ∀ r ∈ (modifyMarketSweep i ts m b1).2, recordColumnFacts r := by
  intro r hr
  unfold modifyMarketSweep at hr
  dsimp only at hr
  split at hr <;> simp only [List.mem_append, List.mem_singleton] at hr
  · rcases hr with hr | rfl
    · exact (marketSweep_recs_colFacts i ts m b1 r hr).1
    · exact addInitialOutputRecord_colFacts _ _ _ _
  · exact (marketSweep_recs_colFacts i ts m b1 r hr).1

theorem processModify_colFacts (i : String) (ts : Nat) (req : Order) (b : Book) :
    ∀ r ∈ (processModify i ts req b).2, recordColumnFacts r := by
  intro r hr
  unfold processModify at hr
  rcases hf : findRemoveBook b req.order_id with _ | ⟨found, b1⟩ <;>
    rw [hf] at hr
  · simp only [List.mem_singleton] at hr
    subst hr
    exact addInitialOutputRecord_colFacts _ _ _ _
  · simp only at hr
    split at hr
    · simp only [List.mem_singleton] at hr
      subst hr
      exact addInitialOutputRecord_colFacts _ _ _ _
    · split at hr
      · exact modifyLimitReinsert_colFacts i ts _ _ r hr
      · exact modifyMarketSweep_colFacts i ts _ _ r hr
      · simp at hr

theorem processCancel_colFacts (i : String) (ts : Nat) (req : Order) (b : Book) :
    ∀ r ∈ (processCancel i ts req b).2, recordColumnFacts r := by
  intro r hr
  unfold processCancel at hr
  rcases hf : findRemoveBook b req.order_id with _ | ⟨found, b1⟩ <;>
    rw [hf] at hr <;> simp only [List.mem_singleton] at hr <;>
    (subst hr; exact addInitialOutputRecord_colFacts _ _ _ _)

theorem processSingleOrder_colFacts (i : String) (req : Order) (b : Book) :
    ∀ r ∈ (processSingleOrder i req b).2, recordColumnFacts r := by
  intro r hr
  by_cases hi : req.instrument = i
  swap
  · simp only [processSingleOrder, if_pos (show req.instrument ≠ i from hi),
      List.mem_singleton] at hr
    subst hr
    exact addInitialOutputRecord_colFacts _ _ _ _
  rcases hA : req.action with _ | _ | _ | _
  · rcases hT : req.type with _ | _ | _ <;>
      simp [processSingleOrder, hi, hA, hT] at hr
    · exact processNewLimit_colFacts _ _ _ _ r hr
    · exact processNewMarket_colFacts _ _ _ _ r hr
  · simp [processSingleOrder, hi, hA] at hr
    exact processModify_colFacts _ _ _ _ r hr
  · simp [processSingleOrder, hi, hA] at hr
    exact processCancel_colFacts _ _ _ _ r hr
  · simp [processSingleOrder, hi, hA] at hr
    rcases hr with ⟨rfl⟩
    exact addInitialOutputRecord_colFacts _ _ _ _

/-- Claim C3 counterexample: a MODIFY that shrinks a partially executed order
to at most its cumulative executed quantity emits an EXECUTED record with
counterparty_id 0 and no fill anywhere in the event, so the claimed EXECUTED
row contract ("counterparty_id = the other order's id", fill columns = this
fill's data) fails: the record has no partner record mirroring it. -/
theorem C3_status_contract_counterexample :
    ¬ recordsPartnered
      (processSingleOrder "X"
        (mkEvent "X" 3 1 Side.BUY OrderType.LIMIT 3 100 OrderAction.MODIFY)
        ⟨[((100 : Int), [mkRestingPart "X" 1 1 Side.BUY 10 100 4])], [], []⟩).2 := by
  decide

/-- Claim C3 amended: every emitted record obeys the status-dependent column
contract — PENDING/REJECTED rows show the original quantity and the order
price with zero execution data; PARTIALLY_EXECUTED rows show the remaining
quantity, the order price, this fill's quantity and price and the counterparty
id; EXECUTED rows show 0 in the quantity column and, when emitted by a match,
this fill's data; CANCELED rows are fully zeroed — except that the EXECUTED or
CANCELED record of a shrinking MODIFY carries executed_quantity 0,
execution_price 0 and counterparty_id 0, there being no fill. -/
theorem C3_status_contract_amended :
    (∀ (i : String) (o : Order) (st : OrderStatus) (ts : Nat),
      (addInitialOutputRecord i o st 0 0 0 ts).original_quantity_or_remaining =
        (if st = OrderStatus.PENDING ∨ st = OrderStatus.REJECTED then o.quantity
          else if st = OrderStatus.PARTIALLY_EXECUTED then o.remaining_quantity
          else 0) ∧
      (addInitialOutputRecord i o st 0 0 0 ts).price =
        (if st = OrderStatus.CANCELED then 0 else o.price) ∧
      (addInitialOutputRecord i o st 0 0 0 ts).executed_this_event_quantity = 0 ∧
      (addInitialOutputRecord i o st 0 0 0 ts).execution_price = 0 ∧
      (addInitialOutputRecord i o st 0 0 0 ts).counterparty_id = 0) ∧
    (∀ (i : String) (o : Order) (cp : Int) (q : Nat) (px : Int) (ts : Nat),
      (matchRecord i o cp q px ts).original_quantity_or_remaining =
        (if o.status = OrderStatus.EXECUTED then 0 else o.remaining_quantity) ∧
      (matchRecord i o cp q px ts).price = o.price ∧
      (matchRecord i o cp q px ts).executed_this_event_quantity = q ∧
      (matchRecord i o cp q px ts).execution_price = px ∧
      (matchRecord i o cp q px ts).counterparty_id = cp ∧
      (matchRecord i o cp q px ts).status = o.status) ∧
    (∀ (i : String) (req : Order) (b : Book),
      ∀ r ∈ (processSingleOrder i req b).2, recordColumnFacts r) := by
  refine ⟨?_, ?_, processSingleOrder_colFacts⟩
  · intro i o st ts
    exact ⟨rfl, rfl, rfl, rfl, rfl⟩
  · intro i o cp q px ts
    exact ⟨rfl, rfl, rfl, rfl, rfl, rfl⟩

/-- Witness for the amended C3: the record-contract clause applied to the
EXECUTED record of a concrete shrinking MODIFY. -/
theorem C3_status_contract_amended_witness :
    (processSingleOrder "X"
        (mkEvent "X" 3 1 Side.BUY OrderType.LIMIT 3 100 OrderAction.MODIFY)
        ⟨[((100 : Int), [mkRestingPart "X" 1 1 Side.BUY 10 100 4])], [], []⟩).2.head?.isSome ∧
    ∀ r ∈ (processSingleOrder "X"
        (mkEvent "X" 3 1 Side.BUY OrderType.LIMIT 3 100 OrderAction.MODIFY)
        ⟨[((100 : Int), [mkRestingPart "X" 1 1 Side.BUY 10 100 4])], [], []⟩).2,
      recordColumnFacts r :=
  ⟨by decide,
   C3_status_contract_amended.2.2 "X"
     (mkEvent "X" 3 1 Side.BUY OrderType.LIMIT 3 100 OrderAction.MODIFY)
     ⟨[((100 : Int), [mkRestingPart "X" 1 1 Side.BUY 10 100 4])], [], []⟩⟩

@[simp] theorem ordersOfLadder_nil : ordersOfLadder [] = [] := rfl

@[simp] theorem ordersOfLadder_cons (p : Int) (l : List Order) (rest : Ladder) :
    ordersOfLadder ((p, l) :: rest) = l ++ ordersOfLadder rest := by
  simp [ordersOfLadder]

theorem mem_ladderIds {id : Int} {lad : Ladder} :
    id ∈ ladderIds lad ↔ ∃ o ∈ ordersOfLadder lad, o.order_id = id := by
  simp [ladderIds]

theorem ladderIds_mono_rest (p : Int) (l : List Order) (rest : Ladder) {id : Int}
    (h : id ∈ ladderIds rest) : id ∈ ladderIds ((p, l) :: rest) := by
  rcases mem_ladderIds.mp h with ⟨o, ho, rfl⟩
  exact mem_ladderIds.mpr ⟨o, by simp [ho], rfl⟩

theorem ladderIds_mono_tail (p : Int) (o : Order) (tail : List Order) (rest : Ladder)
    {id : Int} (h : id ∈ ladderIds ((p, tail) :: rest)) :
    id ∈ ladderIds ((p, o :: tail) :: rest) := by
  rcases mem_ladderIds.mp h with ⟨x, hx, rfl⟩
  refine mem_ladderIds.mpr ⟨x, ?_, rfl⟩
  simp at hx ⊢
  tauto

theorem ladderIds_head_replace {o o1 : Order} (he : o1.order_id = o.order_id)
    (p : Int) (tail : List Order) (rest : Ladder) {id : Int}
    (h : id ∈ ladderIds ((p, o1 :: tail) :: rest)) :
    id ∈ ladderIds ((p, o :: tail) :: rest) := by
  rcases mem_ladderIds.mp h with ⟨x, hx, rfl⟩
  simp only [ordersOfLadder_cons, List.mem_append, List.mem_cons] at hx
  rcases hx with (rfl | hx) | hx
  · exact mem_ladderIds.mpr ⟨o, by simp, he.symm⟩
  · exact mem_ladderIds.mpr ⟨x, by simp [hx], rfl⟩
  · exact mem_ladderIds.mpr ⟨x, by simp [hx], rfl⟩

theorem sweepStep_ids_subset (i : String) (ts : Nat) {agg agg1 : Order}
    {lad lad1 : Ladder} {traded traded1 : List Int} {recs : List OutputRecord}
    (h : sweepStep i ts agg lad traded = some (agg1, lad1, traded1, recs)) :
    ∀ id, id ∈ ladderIds lad1 → id ∈ ladderIds lad := by
  by_cases h0 : agg.remaining_quantity = 0
  · simp [sweepStep, h0] at h
  rcases lad with _ | ⟨⟨p, l⟩, rest⟩
  · simp [sweepStep, h0] at h
  rcases l with _ | ⟨resting, tail⟩
  · simp only [sweepStep, if_neg h0, Option.some.injEq, Prod.mk.injEq] at h
    obtain ⟨rfl, rfl, rfl, rfl⟩ := h
    intro id hid
    simp [ladderIds] at hid ⊢
    exact hid
  · simp only [sweepStep, if_neg h0, Option.some.injEq, Prod.mk.injEq] at h
    obtain ⟨_, h2, _, _⟩ := h
    subst h2
    intro id hid
    simp only [recordMatch_pas, applyFill_rem] at hid
    by_cases hs0 : resting.remaining_quantity -
        min agg.remaining_quantity resting.remaining_quantity = 0
    · rw [if_pos hs0] at hid
      by_cases ht : tail = []
      · rw [if_pos ht] at hid
        exact ladderIds_mono_rest _ _ _ hid
      · rw [if_neg ht] at hid
        exact ladderIds_mono_tail _ _ _ _ hid
    · rw [if_neg hs0, if_neg (by simp)] at hid
      exact ladderIds_head_replace (applyFill_id _ _) _ _ _ hid

theorem sweepLoop_ids_subset (i : String) (ts : Nat) :
    ∀ fuel agg lad traded id,
      id ∈ ladderIds (sweepLoop i fuel ts agg lad traded).2.1 → id ∈ ladderIds lad := by
  intro fuel
  induction fuel with
  | zero => intro agg lad traded id hid; simpa [sweepLoop] using hid
  | succ f ih =>
    intro agg lad traded id hid
    rcases hstep : sweepStep i ts agg lad traded with _ | ⟨a1, l1, t1, recs⟩
    · rw [sweepLoop, hstep] at hid
      exact hid
    · rw [sweepLoop, hstep] at hid
      exact sweepStep_ids_subset i ts hstep id (ih a1 l1 t1 id hid)

theorem sweepStep_fillPaired_prepend (i : String) (ts : Nat) {agg agg1 : Order}
    {lad lad1 : Ladder} {traded traded1 : List Int} {recs : List OutputRecord}
    (h : sweepStep i ts agg lad traded = some (agg1, lad1, traded1, recs)) :
    ∀ l, fillPaired l → fillPaired (recs ++ l) := by
  by_cases h0 : agg.remaining_quantity = 0
  · simp [sweepStep, h0] at h
  rcases lad with _ | ⟨⟨p, lv⟩, rest⟩
  · simp [sweepStep, h0] at h
  rcases lv with _ | ⟨resting, tail⟩
  · simp only [sweepStep, if_neg h0, Option.some.injEq, Prod.mk.injEq] at h
    obtain ⟨rfl, rfl, rfl, rfl⟩ := h
    intro l hl
    simpa using hl
  · simp only [sweepStep, if_neg h0, Option.some.injEq, Prod.mk.injEq,
      recordMatch_recs] at h
    obtain ⟨_, _, _, h4⟩ := h
    subst h4
    intro l hl
    exact ⟨by simp [matchRecord], by simp [matchRecord], by simp, by simp, rfl, rfl, hl⟩

theorem sweepLoop_fillPaired (i : String) (ts : Nat) :
    ∀ fuel agg lad traded, fillPaired (sweepLoop i fuel ts agg lad traded).2.2.2 := by
  intro fuel
  induction fuel with
  | zero => intro agg lad traded; exact trivial
  | succ f ih =>
    intro agg lad traded
    rcases hstep : sweepStep i ts agg lad traded with _ | ⟨a1, l1, t1, recs⟩
    · rw [sweepLoop, hstep]
      exact trivial
    · rw [sweepLoop, hstep]
      exact sweepStep_fillPaired_prepend i ts hstep _ (ih a1 l1 t1)

theorem marketSweep_fillPaired (i : String) (ts : Nat) (o : Order) (b : Book) :
    fillPaired (marketSweep i ts o b).2.2 := by
  unfold marketSweep
  by_cases hs : o.side = Side.BUY <;> simp only [hs, ite_true, ite_false] <;>
    exact sweepLoop_fillPaired i ts _ _ _ _

/-- Claim C5: a NEW MARKET order never rests in any ladder; it sweeps the
opposing ladder from the best level outward matching at the resting orders'
prices (each fill pair is priced at the passive record's own price column);
one REJECTED record is emitted iff its initial quantity is positive and its
cumulative executed quantity stayed 0; a partially filled MARKET emits only
its fill records (all PARTIALLY_EXECUTED or EXECUTED), the residual being
discarded with no further record. -/
theorem C5_new_market_never_rests (i : String) (req reqInit : Order) (b bc : Book)
    (hinstr : req.instrument = i) (hact : req.action = OrderAction.NEW)
    (hty : req.type = OrderType.MARKET)
    (hreq : reqInit = { req with
      remaining_quantity := req.quantity
      cumulative_executed_quantity := 0
      status := OrderStatus.PENDING })
    (hbc : bc = { b with ids_traded_this_event := [] })
    (hidb : req.order_id ∉ ladderIds b.bids)
    (hida : req.order_id ∉ ladderIds b.asks) :
    processSingleOrder i req b = processNewMarket i req.timestamp reqInit bc ∧
    (processNewMarket i req.timestamp reqInit bc).2 =
      (marketSweep i req.timestamp reqInit bc).2.2 ++
        (if (marketSweep i req.timestamp reqInit bc).1.cumulative_executed_quantity = 0 ∧
            0 < req.quantity then
          [addInitialOutputRecord i (marketSweep i req.timestamp reqInit bc).1
            OrderStatus.REJECTED 0 0 0 req.timestamp]
        else []) ∧
    (processNewMarket i req.timestamp reqInit bc).1 =
      (marketSweep i req.timestamp reqInit bc).2.1 ∧
    fillPaired (marketSweep i req.timestamp reqInit bc).2.2 ∧
    (∀ r ∈ (marketSweep i req.timestamp reqInit bc).2.2,
      r.status = OrderStatus.PARTIALLY_EXECUTED ∨ r.status = OrderStatus.EXECUTED) ∧
    req.order_id ∉ ladderIds (marketSweep i req.timestamp reqInit bc).2.1.bids ∧
    req.order_id ∉ ladderIds (marketSweep i req.timestamp reqInit bc).2.1.asks ∧
    (((processNewMarket i req.timestamp reqInit bc).2.filter
        (fun r => r.status = OrderStatus.REJECTED)).length =
      if (marketSweep i req.timestamp reqInit bc).1.cumulative_executed_quantity = 0 ∧
          0 < req.quantity then 1 else 0) ∧
    ((∃ r ∈ (processNewMarket i req.timestamp reqInit bc).2,
        r.status = OrderStatus.REJECTED) ↔
      ((marketSweep i req.timestamp reqInit bc).1.cumulative_executed_quantity = 0 ∧
        0 < req.quantity)) := by
  have hnostatus : ∀ r ∈ (marketSweep i req.timestamp reqInit bc).2.2,
      r.status = OrderStatus.PARTIALLY_EXECUTED ∨ r.status = OrderStatus.EXECUTED :=
    fun r hr => (marketSweep_recs_colFacts i req.timestamp reqInit bc r hr).2
  have hnorej : ∀ r ∈ (marketSweep i req.timestamp reqInit bc).2.2,
      ¬ (r.status = OrderStatus.REJECTED) := by
    intro r hr
    rcases hnostatus r hr with h | h <;> simp [h]
  have hout : (processNewMarket i req.timestamp reqInit bc).2 =
      (marketSweep i req.timestamp reqInit bc).2.2 ++
        (if (marketSweep i req.timestamp reqInit bc).1.cumulative_executed_quantity = 0 ∧
            0 < req.quantity then
          [addInitialOutputRecord i (marketSweep i req.timestamp reqInit bc).1
            OrderStatus.REJECTED 0 0 0 req.timestamp]
        else []) := by
    unfold processNewMarket
    have : reqInit.remaining_quantity = req.quantity := by rw [hreq]
    simp only [this]
    split <;> simp
  refine ⟨?_, hout, ?_, marketSweep_fillPaired i req.timestamp reqInit bc,
    hnostatus, ?_, ?_, ?_, ?_⟩
  · subst hreq hbc
    simp [processSingleOrder, hinstr, hact, hty]
  · unfold processNewMarket
    dsimp only
    split <;> rfl
  · -- never rests on the bid side
    subst hbc
    unfold marketSweep
    split <;> simp only
    · simpa using hidb
    · intro hmem
      exact hidb (by simpa using
        sweepLoop_ids_subset i req.timestamp _ _ _ _ _ (by simpa using hmem))
  · -- never rests on the ask side
    subst hbc
    unfold marketSweep
    split <;> simp only
    · intro hmem
      exact hida (by simpa using
        sweepLoop_ids_subset i req.timestamp _ _ _ _ _ (by simpa using hmem))
    · simpa using hida
  · rw [hout]
    rw [List.filter_append]
    rw [List.filter_eq_nil_iff.mpr (by
      intro r hr
      simpa using hnorej r hr)]
    split <;> simp [addInitialOutputRecord]
  · rw [hout]
    constructor
    · rintro ⟨r, hr, hrst⟩
      rw [List.mem_append] at hr
      rcases hr with hr | hr
      · exact absurd hrst (hnorej r hr)
      · by_cases hc : (marketSweep i req.timestamp reqInit bc).1.cumulative_executed_quantity = 0 ∧
            0 < req.quantity
        · exact hc
        · rw [if_neg hc] at hr
          simp at hr
    · intro hc
      refine ⟨addInitialOutputRecord i (marketSweep i req.timestamp reqInit bc).1
        OrderStatus.REJECTED 0 0 0 req.timestamp, ?_, rfl⟩
      rw [List.mem_append, if_pos hc]
      right
      simp

/-- Witness for C5: a MARKET buy of 8 sweeping two ask levels (5 at 101, 5 at
102), partially consuming the second; the order id 3 rests nowhere and the
fill records are properly paired. -/
theorem C5_new_market_never_rests_witness :
    (mkEvent "X" 3 3 Side.BUY OrderType.MARKET 8 0 OrderAction.NEW).instrument = "X" ∧
    (mkEvent "X" 3 3 Side.BUY OrderType.MARKET 8 0 OrderAction.NEW).action =
      OrderAction.NEW ∧
    (mkEvent "X" 3 3 Side.BUY OrderType.MARKET 8 0 OrderAction.NEW).type =
      OrderType.MARKET ∧
    (mkEvent "X" 3 3 Side.BUY OrderType.MARKET 8 0 OrderAction.NEW).order_id ∉
      ladderIds (Book.mk []
        [((101 : Int), [mkResting "X" 1 1 Side.SELL 5 101]),
         ((102 : Int), [mkResting "X" 2 2 Side.SELL 5 102])] [9]).bids ∧
    (mkEvent "X" 3 3 Side.BUY OrderType.MARKET 8 0 OrderAction.NEW).order_id ∉
      ladderIds (Book.mk []
        [((101 : Int), [mkResting "X" 1 1 Side.SELL 5 101]),
         ((102 : Int), [mkResting "X" 2 2 Side.SELL 5 102])] [9]).asks ∧
    fillPaired (marketSweep "X"
      (mkEvent "X" 3 3 Side.BUY OrderType.MARKET 8 0 OrderAction.NEW).timestamp
      { mkEvent "X" 3 3 Side.BUY OrderType.MARKET 8 0 OrderAction.NEW with
        remaining_quantity :=
          (mkEvent "X" 3 3 Side.BUY OrderType.MARKET 8 0 OrderAction.NEW).quantity
        cumulative_executed_quantity := 0
        status := OrderStatus.PENDING }
      { Book.mk []
          [((101 : Int), [mkResting "X" 1 1 Side.SELL 5 101]),
           ((102 : Int), [mkResting "X" 2 2 Side.SELL 5 102])] [9] with
        ids_traded_this_event := [] }).2.2 ∧
    (mkEvent "X" 3 3 Side.BUY OrderType.MARKET 8 0 OrderAction.NEW).order_id ∉
      ladderIds (marketSweep "X"
        (mkEvent "X" 3 3 Side.BUY OrderType.MARKET 8 0 OrderAction.NEW).timestamp
        { mkEvent "X" 3 3 Side.BUY OrderType.MARKET 8 0 OrderAction.NEW with
          remaining_quantity :=
            (mkEvent "X" 3 3 Side.BUY OrderType.MARKET 8 0 OrderAction.NEW).quantity
          cumulative_executed_quantity := 0
          status := OrderStatus.PENDING }
        { Book.mk []
            [((101 : Int), [mkResting "X" 1 1 Side.SELL 5 101]),
             ((102 : Int), [mkResting "X" 2 2 Side.SELL 5 102])] [9] with
          ids_traded_this_event := [] }).2.1.asks :=
  ⟨by decide, by decide, by decide, by decide, by decide,
   (C5_new_market_never_rests "X"
     (mkEvent "X" 3 3 Side.BUY OrderType.MARKET 8 0 OrderAction.NEW)
     { mkEvent "X" 3 3 Side.BUY OrderType.MARKET 8 0 OrderAction.NEW with
       remaining_quantity :=
         (mkEvent "X" 3 3 Side.BUY OrderType.MARKET 8 0 OrderAction.NEW).quantity
       cumulative_executed_quantity := 0
       status := OrderStatus.PENDING }
     (Book.mk []
       [((101 : Int), [mkResting "X" 1 1 Side.SELL 5 101]),
        ((102 : Int), [mkResting "X" 2 2 Side.SELL 5 102])] [9])
     { Book.mk []
         [((101 : Int), [mkResting "X" 1 1 Side.SELL 5 101]),
          ((102 : Int), [mkResting "X" 2 2 Side.SELL 5 102])] [9] with
       ids_traded_this_event := [] }
     (by decide) (by decide) (by decide) rfl rfl (by decide) (by decide)).2.2.2.1,
   (C5_new_market_never_rests "X"
     (mkEvent "X" 3 3 Side.BUY OrderType.MARKET 8 0 OrderAction.NEW)
     { mkEvent "X" 3 3 Side.BUY OrderType.MARKET 8 0 OrderAction.NEW with
       remaining_quantity :=
         (mkEvent "X" 3 3 Side.BUY OrderType.MARKET 8 0 OrderAction.NEW).quantity
       cumulative_executed_quantity := 0
       status := OrderStatus.PENDING }
     (Book.mk []
       [((101 : Int), [mkResting "X" 1 1 Side.SELL 5 101]),
        ((102 : Int), [mkResting "X" 2 2 Side.SELL 5 102])] [9])
     { Book.mk []
         [((101 : Int), [mkResting "X" 1 1 Side.SELL 5 101]),
          ((102 : Int), [mkResting "X" 2 2 Side.SELL 5 102])] [9] with
       ids_traded_this_event := [] }
     (by decide) (by decide) (by decide) rfl rfl (by decide) (by decide)).2.2.2.2.2.2.1⟩

/-- Claim C2 counterexample: after a partial fill of 4 units, a MODIFY shrinks
order 1's original_quantity to 3; the order departs as EXECUTED with
cumulative 4, and the sum of its emitted executed quantities (4) exceeds its
most recent original_quantity (3). -/
theorem C2_conservation_counterexample :
    execSum 1 (runEvents "X"
      [mkEvent "X" 1 1 Side.BUY OrderType.LIMIT 10 100 OrderAction.NEW,
       mkEvent "X" 2 2 Side.SELL OrderType.LIMIT 4 100 OrderAction.NEW,
       mkEvent "X" 3 1 Side.BUY OrderType.LIMIT 3 100 OrderAction.MODIFY]).2 = 4 ∧
    mostRecentOriginalQuantity
      [mkEvent "X" 1 1 Side.BUY OrderType.LIMIT 10 100 OrderAction.NEW,
       mkEvent "X" 2 2 Side.SELL OrderType.LIMIT 4 100 OrderAction.NEW,
       mkEvent "X" 3 1 Side.BUY OrderType.LIMIT 3 100 OrderAction.MODIFY] 1 = 3 ∧
    ¬ execSum 1 (runEvents "X"
        [mkEvent "X" 1 1 Side.BUY OrderType.LIMIT 10 100 OrderAction.NEW,
         mkEvent "X" 2 2 Side.SELL OrderType.LIMIT 4 100 OrderAction.NEW,
         mkEvent "X" 3 1 Side.BUY OrderType.LIMIT 3 100 OrderAction.MODIFY]).2 ≤
      mostRecentOriginalQuantity
        [mkEvent "X" 1 1 Side.BUY OrderType.LIMIT 10 100 OrderAction.NEW,
         mkEvent "X" 2 2 Side.SELL OrderType.LIMIT 4 100 OrderAction.NEW,
         mkEvent "X" 3 1 Side.BUY OrderType.LIMIT 3 100 OrderAction.MODIFY] 1 := by
  decide

theorem insertBid_sorted (p : Int) (o : Order) :
    ∀ lad : Ladder, lad.Pairwise (fun x y => y.1 < x.1) →
      (insertBid lad p o).Pairwise (fun x y => y.1 < x.1) := by
  intro lad
  induction lad with
  | nil => intro h; simp [insertBid]
  | cons hd rest ih =>
    rcases hd with ⟨q, l⟩
    intro h
    rw [List.pairwise_cons] at h
    unfold insertBid
    by_cases h1 : p > q
    · rw [if_pos h1]
      refine List.pairwise_cons.mpr ⟨?_, List.pairwise_cons.mpr h⟩
      intro lv hlv
      rcases List.mem_cons.mp hlv with rfl | hlv
      · exact h1
      · exact lt_trans (h.1 lv hlv) h1
    · rw [if_neg h1]
      by_cases h2 : p = q
      · rw [if_pos h2]
        exact List.pairwise_cons.mpr ⟨fun lv hlv => h.1 lv hlv, h.2⟩
      · rw [if_neg h2]
        refine List.pairwise_cons.mpr ⟨?_, ih h.2⟩
        intro lv hlv
        have hmem : lv.1 = p ∨ lv ∈ rest := by
          clear ih h
          induction rest with
          | nil => simp [insertBid] at hlv; simp [hlv]
          | cons hd2 rest2 ih2 =>
            rcases hd2 with ⟨q2, l2⟩
            unfold insertBid at hlv
            by_cases ha : p > q2
            · rw [if_pos ha] at hlv
              rcases List.mem_cons.mp hlv with rfl | hlv
              · left; rfl
              · right; exact hlv
            · rw [if_neg ha] at hlv
              by_cases hb : p = q2
              · rw [if_pos hb] at hlv
                rcases List.mem_cons.mp hlv with rfl | hlv
                · left; exact hb.symm
                · right; exact List.mem_cons_of_mem _ hlv
              · rw [if_neg hb] at hlv
                rcases List.mem_cons.mp hlv with rfl | hlv
                · right; exact List.mem_cons_self _ _
                · rcases ih2 hlv with hc | hc
                  · left; exact hc
                  · right; exact List.mem_cons_of_mem _ hc
        rcases hmem with hc | hc
        · rw [hc]; omega
        · exact h.1 lv hc

theorem insertAsk_sorted (p : Int) (o : Order) :
    ∀ lad : Ladder, lad.Pairwise (fun x y => x.1 < y.1) →
      (insertAsk lad p o).Pairwise (fun x y => x.1 < y.1) := by
  intro lad
  induction lad with
  | nil => intro h; simp [insertAsk]
  | cons hd rest ih =>
    rcases hd with ⟨q, l⟩
    intro h
    rw [List.pairwise_cons] at h
    unfold insertAsk
    by_cases h1 : p < q
    · rw [if_pos h1]
      refine List.pairwise_cons.mpr ⟨?_, List.pairwise_cons.mpr h⟩
      intro lv hlv
      rcases List.mem_cons.mp hlv with rfl | hlv
      · exact h1
      · exact lt_trans h1 (h.1 lv hlv)
    · rw [if_neg h1]
      by_cases h2 : p = q
      · rw [if_pos h2]
        exact List.pairwise_cons.mpr ⟨fun lv hlv => h.1 lv hlv, h.2⟩
      · rw [if_neg h2]
        refine List.pairwise_cons.mpr ⟨?_, ih h.2⟩
        intro lv hlv
        have hmem : lv.1 = p ∨ lv ∈ rest := by
          clear ih h
          induction rest with
          | nil => simp [insertAsk] at hlv; simp [hlv]
          | cons hd2 rest2 ih2 =>
            rcases hd2 with ⟨q2, l2⟩
            unfold insertAsk at hlv
            by_cases ha : p < q2
            · rw [if_pos ha] at hlv
              rcases List.mem_cons.mp hlv with rfl | hlv
              · left; rfl
              · right; exact hlv
            · rw [if_neg ha] at hlv
              by_cases hb : p = q2
              · rw [if_pos hb] at hlv
                rcases List.mem_cons.mp hlv with rfl | hlv
                · left; exact hb.symm
                · right; exact List.mem_cons_of_mem _ hlv
              · rw [if_neg hb] at hlv
                rcases List.mem_cons.mp hlv with rfl | hlv
                · right; exact List.mem_cons_self _ _
                · rcases ih2 hlv with hc | hc
                  · left; exact hc
                  · right; exact List.mem_cons_of_mem _ hc
        rcases hmem with hc | hc
        · rw [hc]; omega
        · exact h.1 lv hc

theorem insertBid_mem_level (lad : Ladder) (p : Int) (o : Order) :
    ∃ l, (p, l) ∈ insertBid lad p o ∧ o ∈ l := by
  induction lad with
  | nil => exact ⟨[o], by simp [insertBid]⟩
  | cons hd rest ih =>
    rcases hd with ⟨q, l0⟩
    unfold insertBid
    by_cases h1 : p > q
    · exact ⟨[o], by simp [h1]⟩
    · rw [if_neg h1]
      by_cases h2 : p = q
      · subst h2
        exact ⟨l0 ++ [o], by simp⟩
      · rw [if_neg h2]
        rcases ih with ⟨l, hl, ho⟩
        exact ⟨l, List.mem_cons_of_mem _ hl, ho⟩

theorem insertAsk_mem_level (lad : Ladder) (p : Int) (o : Order) :
    ∃ l, (p, l) ∈ insertAsk lad p o ∧ o ∈ l := by
  induction lad with
  | nil => exact ⟨[o], by simp [insertAsk]⟩
  | cons hd rest ih =>
    rcases hd with ⟨q, l0⟩
    unfold insertAsk
    by_cases h1 : p < q
    · exact ⟨[o], by simp [h1]⟩
    · rw [if_neg h1]
      by_cases h2 : p = q
      · subst h2
        exact ⟨l0 ++ [o], by simp⟩
      · rw [if_neg h2]
        rcases ih with ⟨l, hl, ho⟩
        exact ⟨l, List.mem_cons_of_mem _ hl, ho⟩

theorem insertBid_orders_perm (lad : Ladder) (p : Int) (o : Order) :
    List.Perm (ordersOfLadder (insertBid lad p o)) (o :: ordersOfLadder lad) := by
  induction lad with
  | nil => simp [insertBid]
  | cons hd rest ih =>
    rcases hd with ⟨q, l0⟩
    unfold insertBid
    by_cases h1 : p > q
    · simp [h1]
    · rw [if_neg h1]
      by_cases h2 : p = q
      · rw [if_pos h2]
        simp only [ordersOfLadder_cons]
        rw [List.append_assoc, List.singleton_append]
        exact List.perm_middle
      · rw [if_neg h2]
        simp only [ordersOfLadder_cons]
        exact (List.Perm.append_left l0 ih).trans List.perm_middle

theorem insertAsk_orders_perm (lad : Ladder) (p : Int) (o : Order) :
    List.Perm (ordersOfLadder (insertAsk lad p o)) (o :: ordersOfLadder lad) := by
  induction lad with
  | nil => simp [insertAsk]
  | cons hd rest ih =>
    rcases hd with ⟨q, l0⟩
    unfold insertAsk
    by_cases h1 : p < q
    · simp [h1]
    · rw [if_neg h1]
      by_cases h2 : p = q
      · rw [if_pos h2]
        simp only [ordersOfLadder_cons]
        rw [List.append_assoc, List.singleton_append]
        exact List.perm_middle
      · rw [if_neg h2]
        simp only [ordersOfLadder_cons]
        exact (List.Perm.append_left l0 ih).trans List.perm_middle

theorem insertId_mem_self (s : List Int) (i : Int) : i ∈ insertId s i := by
  unfold insertId
  split
  · assumption
  · exact List.mem_cons_self _ _

theorem insertId_mono {s : List Int} {i x : Int} (h : x ∈ s) : x ∈ insertId s i := by
  unfold insertId
  split
  · exact h
  · exact List.mem_cons_of_mem _ h

theorem mem_insertId {s : List Int} {i x : Int} :
    x ∈ insertId s i ↔ x = i ∨ x ∈ s := by
  unfold insertId
  split
  · constructor
    · exact fun h => Or.inr h
    · rintro (rfl | h) <;> assumption
  · simp [List.mem_cons]

theorem matchStep_traded_mono (i : String) (ts : Nat)
    {bids asks bids1 asks1 : Ladder} {traded traded1 : List Int}
    {recs : List OutputRecord}
    (h : matchStep i ts bids asks traded = some (bids1, asks1, traded1, recs)) :
    ∀ x ∈ traded, x ∈ traded1 := by
  rcases bids with _ | ⟨⟨bp, bl⟩, brest⟩
  · simp [matchStep] at h
  rcases asks with _ | ⟨⟨ap, al⟩, arest⟩
  · simp [matchStep] at h
  by_cases hlt : bp < ap
  · simp [matchStep, hlt] at h
  rcases bl with _ | ⟨buy, bt⟩
  · simp only [matchStep, if_neg hlt, Option.some.injEq, Prod.mk.injEq] at h
    obtain ⟨rfl, rfl, rfl, rfl⟩ := h
    exact fun x hx => hx
  rcases al with _ | ⟨sell, st⟩
  · simp only [matchStep, if_neg hlt, Option.some.injEq, Prod.mk.injEq] at h
    obtain ⟨rfl, rfl, rfl, rfl⟩ := h
    exact fun x hx => hx
  · simp only [matchStep, if_neg hlt, Option.some.injEq, Prod.mk.injEq] at h
    obtain ⟨_, _, h3, _⟩ := h
    subst h3
    exact fun x hx => insertId_mono (insertId_mono hx)

theorem matchLoop_traded_mono (i : String) (ts : Nat) :
    ∀ fuel bids asks traded x, x ∈ traded →
      x ∈ (matchLoop i fuel ts bids asks traded).2.2.1 := by
  intro fuel
  induction fuel with
  | zero => intro bids asks traded x hx; exact hx
  | succ f ih =>
    intro bids asks traded x hx
    rcases hstep : matchStep i ts bids asks traded with _ | ⟨b1, a1, t1, recs⟩
    · rw [matchLoop, hstep]; exact hx
    · rw [matchLoop, hstep]
      exact ih b1 a1 t1 x (matchStep_traded_mono i ts hstep x hx)

theorem level_tail_preserved (bp : Int) (bt : List Order) (brest : Ladder)
    (C : Prop) [Decidable C] (X : Order) {o : Order} (ho : o ∈ bt) :
    ∃ l1, (bp, l1) ∈ (if (if C then bt else X :: bt) = [] then brest
        else (bp, if C then bt else X :: bt) :: brest) ∧ o ∈ l1 := by
  by_cases hC : C
  · rw [if_pos hC]
    by_cases hbt : bt = []
    · subst hbt; simp at ho
    · rw [if_neg hbt]
      exact ⟨bt, List.mem_cons_self _ _, ho⟩
  · rw [if_neg hC, if_neg (by simp)]
    exact ⟨X :: bt, List.mem_cons_self _ _, List.mem_cons_of_mem _ ho⟩

theorem level_rest_preserved (bp : Int) (lvl1 : List Order) (brest : Ladder)
    {p : Int} {l : List Order} (hpl : (p, l) ∈ brest) :
    (p, l) ∈ (if lvl1 = [] then brest else (bp, lvl1) :: brest) := by
  split
  · exact hpl
  · exact List.mem_cons_of_mem _ hpl

theorem matchStep_level_preserved (i : String) (ts : Nat)
    {bids asks bids1 asks1 : Ladder} {traded traded1 : List Int}
    {recs : List OutputRecord}
    (h : matchStep i ts bids asks traded = some (bids1, asks1, traded1, recs)) :
    (∀ p l o, (p, l) ∈ bids → o ∈ l →
      (∃ l1, (p, l1) ∈ bids1 ∧ o ∈ l1) ∨ o.order_id ∈ traded1) ∧
    (∀ p l o, (p, l) ∈ asks → o ∈ l →
      (∃ l1, (p, l1) ∈ asks1 ∧ o ∈ l1) ∨ o.order_id ∈ traded1) := by
  rcases bids with _ | ⟨⟨bp, bl⟩, brest⟩
  · simp [matchStep] at h
  rcases asks with _ | ⟨⟨ap, al⟩, arest⟩
  · simp [matchStep] at h
  by_cases hlt : bp < ap
  · simp [matchStep, hlt] at h
  rcases bl with _ | ⟨buy, bt⟩
  · simp only [matchStep, if_neg hlt, Option.some.injEq, Prod.mk.injEq] at h
    obtain ⟨rfl, rfl, rfl, rfl⟩ := h
    constructor
    · intro p l o hpl ho
      rcases List.mem_cons.mp hpl with heq | hpl
      · cases heq
        simp at ho
      · exact Or.inl ⟨l, hpl, ho⟩
    · intro p l o hpl ho
      exact Or.inl ⟨l, hpl, ho⟩
  rcases al with _ | ⟨sell, st⟩
  · simp only [matchStep, if_neg hlt, Option.some.injEq, Prod.mk.injEq] at h
    obtain ⟨rfl, rfl, rfl, rfl⟩ := h
    constructor
    · intro p l o hpl ho
      exact Or.inl ⟨l, hpl, ho⟩
    · intro p l o hpl ho
      rcases List.mem_cons.mp hpl with heq | hpl
      · cases heq
        simp at ho
      · exact Or.inl ⟨l, hpl, ho⟩
  · simp only [matchStep, if_neg hlt, Option.some.injEq, Prod.mk.injEq] at h
    obtain ⟨h1, h2, h3, _⟩ := h
    subst h1 h2 h3
    constructor
    · intro p l o hpl ho
      rcases List.mem_cons.mp hpl with heq | hpl
      · cases heq
        rcases List.mem_cons.mp ho with rfl | ho
        · exact Or.inr (insertId_mono (insertId_mem_self _ _))
        · exact Or.inl (level_tail_preserved _ _ _ _ _ ho)
      · exact Or.inl ⟨l, level_rest_preserved _ _ _ hpl, ho⟩
    · intro p l o hpl ho
      rcases List.mem_cons.mp hpl with heq | hpl
      · cases heq
        rcases List.mem_cons.mp ho with rfl | ho
        · exact Or.inr (insertId_mem_self _ _)
        · exact Or.inl (level_tail_preserved _ _ _ _ _ ho)
      · exact Or.inl ⟨l, level_rest_preserved _ _ _ hpl, ho⟩

theorem matchLoop_level_preserved (i : String) (ts : Nat) :
    ∀ fuel bids asks traded,
      (∀ p l o, (p, l) ∈ bids → o ∈ l →
        (∃ l1, (p, l1) ∈ (matchLoop i fuel ts bids asks traded).1 ∧ o ∈ l1) ∨
          o.order_id ∈ (matchLoop i fuel ts bids asks traded).2.2.1) ∧
      (∀ p l o, (p, l) ∈ asks → o ∈ l →
        (∃ l1, (p, l1) ∈ (matchLoop i fuel ts bids asks traded).2.1 ∧ o ∈ l1) ∨
          o.order_id ∈ (matchLoop i fuel ts bids asks traded).2.2.1) := by
  intro fuel
  induction fuel with
  | zero =>
    intro bids asks traded
    exact ⟨fun p l o hpl ho => Or.inl ⟨l, hpl, ho⟩,
      fun p l o hpl ho => Or.inl ⟨l, hpl, ho⟩⟩
  | succ f ih =>
    intro bids asks traded
    rcases hstep : matchStep i ts bids asks traded with _ | ⟨b1, a1, t1, recs⟩
    · rw [matchLoop, hstep]
      exact ⟨fun p l o hpl ho => Or.inl ⟨l, hpl, ho⟩,
        fun p l o hpl ho => Or.inl ⟨l, hpl, ho⟩⟩
    · rw [matchLoop, hstep]
      constructor
      · intro p l o hpl ho
        rcases (matchStep_level_preserved i ts hstep).1 p l o hpl ho with ⟨l1, hl1, ho1⟩ | htr
        · exact (ih b1 a1 t1).1 p l1 o hl1 ho1
        · exact Or.inr (matchLoop_traded_mono i ts f b1 a1 t1 _ htr)
      · intro p l o hpl ho
        rcases (matchStep_level_preserved i ts hstep).2 p l o hpl ho with ⟨l1, hl1, ho1⟩ | htr
        · exact (ih b1 a1 t1).2 p l1 o hl1 ho1
        · exact Or.inr (matchLoop_traded_mono i ts f b1 a1 t1 _ htr)

theorem mem_orders_reinsert {o : Order} (bp : Int) (lvl1 : List Order)
    (brest : Ladder)
    (h : o ∈ ordersOfLadder (if lvl1 = [] then brest else (bp, lvl1) :: brest)) :
    o ∈ lvl1 ∨ o ∈ ordersOfLadder brest := by
  split at h
  · exact Or.inr h
  · simp only [ordersOfLadder_cons, List.mem_append] at h
    exact h

theorem matchStep_orders_rev (i : String) (ts : Nat)
    {bids asks bids1 asks1 : Ladder} {traded traded1 : List Int}
    {recs : List OutputRecord}
    (h : matchStep i ts bids asks traded = some (bids1, asks1, traded1, recs)) :
    (∀ o ∈ ordersOfLadder bids1, o ∈ ordersOfLadder bids ∨ o.order_id ∈ traded1) ∧
    (∀ o ∈ ordersOfLadder asks1, o ∈ ordersOfLadder asks ∨ o.order_id ∈ traded1) := by
  rcases bids with _ | ⟨⟨bp, bl⟩, brest⟩
  · simp [matchStep] at h
  rcases asks with _ | ⟨⟨ap, al⟩, arest⟩
  · simp [matchStep] at h
  by_cases hlt : bp < ap
  · simp [matchStep, hlt] at h
  rcases bl with _ | ⟨buy, bt⟩
  · simp only [matchStep, if_neg hlt, Option.some.injEq, Prod.mk.injEq] at h
    obtain ⟨rfl, rfl, rfl, rfl⟩ := h
    exact ⟨fun o ho => Or.inl (by simp [ho]), fun o ho => Or.inl ho⟩
  rcases al with _ | ⟨sell, st⟩
  · simp only [matchStep, if_neg hlt, Option.some.injEq, Prod.mk.injEq] at h
    obtain ⟨rfl, rfl, rfl, rfl⟩ := h
    exact ⟨fun o ho => Or.inl ho, fun o ho => Or.inl (by simp [ho])⟩
  · simp only [matchStep, if_neg hlt, Option.some.injEq, Prod.mk.injEq] at h
    obtain ⟨h1, h2, h3, _⟩ := h
    subst h1 h2 h3
    constructor
    · intro o ho
      rcases mem_orders_reinsert _ _ _ ho with ho | ho
      · simp only [recordMatch_agg, applyFill_rem] at ho
        by_cases hb : buy.remaining_quantity -
            min buy.remaining_quantity sell.remaining_quantity = 0
        · rw [if_pos hb] at ho
          exact Or.inl (by simp [ho])
        · rw [if_neg hb] at ho
          rcases List.mem_cons.mp ho with rfl | ho
          · refine Or.inr ?_
            simp only [applyFill_id]
            exact insertId_mono (insertId_mem_self _ _)
          · exact Or.inl (by simp [ho])
      · exact Or.inl (by simp [ho])
    · intro o ho
      rcases mem_orders_reinsert _ _ _ ho with ho | ho
      · simp only [recordMatch_pas, applyFill_rem] at ho
        by_cases hb : sell.remaining_quantity -
            min buy.remaining_quantity sell.remaining_quantity = 0
        · rw [if_pos hb] at ho
          exact Or.inl (by simp [ho])
        · rw [if_neg hb] at ho
          rcases List.mem_cons.mp ho with rfl | ho
          · refine Or.inr ?_
            simp only [applyFill_id]
            exact insertId_mem_self _ _
          · exact Or.inl (by simp [ho])
      · exact Or.inl (by simp [ho])

theorem matchLoop_orders_rev (i : String) (ts : Nat) :
    ∀ fuel bids asks traded,
      (∀ o ∈ ordersOfLadder (matchLoop i fuel ts bids asks traded).1,
        o ∈ ordersOfLadder bids ∨
          o.order_id ∈ (matchLoop i fuel ts bids asks traded).2.2.1) ∧
      (∀ o ∈ ordersOfLadder (matchLoop i fuel ts bids asks traded).2.1,
        o ∈ ordersOfLadder asks ∨
          o.order_id ∈ (matchLoop i fuel ts bids asks traded).2.2.1) := by
  intro fuel
  induction fuel with
  | zero =>
    intro bids asks traded
    exact ⟨fun o ho => Or.inl ho, fun o ho => Or.inl ho⟩
  | succ f ih =>
    intro bids asks traded
    rcases hstep : matchStep i ts bids asks traded with _ | ⟨b1, a1, t1, recs⟩
    · rw [matchLoop, hstep]
      exact ⟨fun o ho => Or.inl ho, fun o ho => Or.inl ho⟩
    · rw [matchLoop, hstep]
      constructor
      · intro o ho
        rcases (ih b1 a1 t1).1 o ho with ho1 | htr
        · rcases (matchStep_orders_rev i ts hstep).1 o ho1 with ho2 | htr
          · exact Or.inl ho2
          · exact Or.inr (matchLoop_traded_mono i ts f b1 a1 t1 _ htr)
        · exact Or.inr htr
      · intro o ho
        rcases (ih b1 a1 t1).2 o ho with ho1 | htr
        · rcases (matchStep_orders_rev i ts hstep).2 o ho1 with ho2 | htr
          · exact Or.inl ho2
          · exact Or.inr (matchLoop_traded_mono i ts f b1 a1 t1 _ htr)
        · exact Or.inr htr

theorem keys_reinsert_suffix (bp : Int) (bl lvl1 : List Order) (brest : Ladder) :
    List.IsSuffix
      ((if lvl1 = [] then brest else (bp, lvl1) :: brest).map Prod.fst)
      (((bp, bl) :: brest).map Prod.fst) := by
  split
  · exact ⟨[bp], by simp⟩
  · exact ⟨[], by simp⟩

theorem matchStep_keys_suffix (i : String) (ts : Nat)
    {bids asks bids1 asks1 : Ladder} {traded traded1 : List Int}
    {recs : List OutputRecord}
    (h : matchStep i ts bids asks traded = some (bids1, asks1, traded1, recs)) :
    List.IsSuffix (bids1.map Prod.fst) (bids.map Prod.fst) ∧
    List.IsSuffix (asks1.map Prod.fst) (asks.map Prod.fst) := by
  rcases bids with _ | ⟨⟨bp, bl⟩, brest⟩
  · simp [matchStep] at h
  rcases asks with _ | ⟨⟨ap, al⟩, arest⟩
  · simp [matchStep] at h
  by_cases hlt : bp < ap
  · simp [matchStep, hlt] at h
  rcases bl with _ | ⟨buy, bt⟩
  · simp only [matchStep, if_neg hlt, Option.some.injEq, Prod.mk.injEq] at h
    obtain ⟨rfl, rfl, rfl, rfl⟩ := h
    exact ⟨⟨[bp], by simp⟩, ⟨[], by simp⟩⟩
  rcases al with _ | ⟨sell, st⟩
  · simp only [matchStep, if_neg hlt, Option.some.injEq, Prod.mk.injEq] at h
    obtain ⟨rfl, rfl, rfl, rfl⟩ := h
    exact ⟨⟨[], by simp⟩, ⟨[ap], by simp⟩⟩
  · simp only [matchStep, if_neg hlt, Option.some.injEq, Prod.mk.injEq] at h
    obtain ⟨h1, h2, _, _⟩ := h
    subst h1 h2
    exact ⟨keys_reinsert_suffix _ _ _ _, keys_reinsert_suffix _ _ _ _⟩

theorem matchLoop_keys_suffix (i : String) (ts : Nat) :
    ∀ fuel bids asks traded,
      List.IsSuffix ((matchLoop i fuel ts bids asks traded).1.map Prod.fst)
        (bids.map Prod.fst) ∧
      List.IsSuffix ((matchLoop i fuel ts bids asks traded).2.1.map Prod.fst)
        (asks.map Prod.fst) := by
  intro fuel
  induction fuel with
  | zero => intro bids asks traded; exact ⟨List.suffix_refl _, List.suffix_refl _⟩
  | succ f ih =>
    intro bids asks traded
    rcases hstep : matchStep i ts bids asks traded with _ | ⟨b1, a1, t1, recs⟩
    · rw [matchLoop, hstep]
      exact ⟨List.suffix_refl _, List.suffix_refl _⟩
    · rw [matchLoop, hstep]
      exact ⟨(ih b1 a1 t1).1.trans (matchStep_keys_suffix i ts hstep).1,
        (ih b1 a1 t1).2.trans (matchStep_keys_suffix i ts hstep).2⟩

theorem mem_ordersOfLadder_of_mem_level {lad : Ladder} {lv : Level} {o : Order}
    (hlv : lv ∈ lad) (ho : o ∈ lv.2) : o ∈ ordersOfLadder lad := by
  induction lad with
  | nil => simp at hlv
  | cons hd rest ih =>
    rcases hd with ⟨p, l⟩
    rcases List.mem_cons.mp hlv with rfl | hlv
    · simp only [ordersOfLadder_cons, List.mem_append]
      exact Or.inl ho
    · simp only [ordersOfLadder_cons, List.mem_append]
      exact Or.inr (ih hlv)

theorem find?_level_of_mem {lad : Ladder} {p : Int} {l : List Order}
    (hnd : (lad.map Prod.fst).Nodup) (hm : (p, l) ∈ lad) :
    lad.find? (fun lv => lv.1 = p) = some (p, l) := by
  induction lad with
  | nil => simp at hm
  | cons hd rest ih =>
    rcases hd with ⟨q, l0⟩
    by_cases hq : q = p
    · subst hq
      rcases List.mem_cons.mp hm with heq | hm
      · rw [List.find?_cons_of_pos _ (by simp)]
        exact congrArg some heq.symm
      · exfalso
        have hq1 : q ∈ rest.map Prod.fst := List.mem_map.mpr ⟨(q, l), hm, rfl⟩
        exact (List.nodup_cons.mp (by simpa using hnd)).1 hq1
    · rw [List.find?_cons_of_neg _ (by simp [hq])]
      rcases List.mem_cons.mp hm with heq | hm
      · exact absurd (congrArg Prod.fst heq).symm hq
      · exact ih (by simpa using (List.nodup_cons.mp (by simpa using hnd)).2) hm

theorem findTargetAtLevel_some {lad : Ladder} {p : Int} {id : Int}
    {ro : Order} (h : findTargetAtLevel lad p id = some ro) :
    ro.order_id = id ∧ ro ∈ ordersOfLadder lad := by
  unfold findTargetAtLevel at h
  rcases hlv : lad.find? (fun lv => lv.1 = p) with _ | lv
  · rw [hlv] at h
    simp at h
  · rw [hlv] at h
    simp only at h
    have hro := List.find?_some h
    have hmem := List.mem_of_find?_eq_some h
    refine ⟨by simpa using hro, ?_⟩
    exact mem_ordersOfLadder_of_mem_level (List.mem_of_find?_eq_some hlv) hmem

theorem findTargetAtLevel_of_mem {lad : Ladder} {p : Int} {id : Int}
    {l : List Order} {o : Order}
    (hnd : (lad.map Prod.fst).Nodup)
    (hlv : (p, l) ∈ lad)
    (ho : o ∈ l) (hid : o.order_id = id) :
    ∃ ro, findTargetAtLevel lad p id = some ro ∧ ro ∈ l ∧
      ro.order_id = id := by
  unfold findTargetAtLevel
  rw [find?_level_of_mem hnd hlv]
  simp only
  rcases hf : l.find? (fun x => x.order_id = id) with _ | ro
  · exfalso
    have := List.find?_eq_none.mp hf o ho
    simp [hid] at this
  · exact ⟨ro, hf, List.mem_of_find?_eq_some hf, by simpa using List.find?_some hf⟩

theorem findRestingAfterModify_some {b : Book} {side : Side} {p : Int} {id : Int}
    {ro : Order} (h : findRestingAfterModify b side p id = some ro) :
    ro.order_id = id ∧
      ((side = Side.BUY ∧ ro ∈ ordersOfLadder b.bids) ∨
        (side = Side.SELL ∧ ro ∈ ordersOfLadder b.asks)) := by
  unfold findRestingAfterModify at h
  by_cases hb : side = Side.BUY
  · rw [if_pos hb] at h
    obtain ⟨h1, h2⟩ := findTargetAtLevel_some h
    exact ⟨h1, Or.inl ⟨hb, h2⟩⟩
  · rw [if_neg hb] at h
    by_cases hs : side = Side.SELL
    · rw [if_pos hs] at h
      obtain ⟨h1, h2⟩ := findTargetAtLevel_some h
      exact ⟨h1, Or.inr ⟨hs, h2⟩⟩
    · rw [if_neg hs] at h
      simp at h

theorem findRestingAfterModify_buy (b : Book) (p : Int) (id : Int) :
    findRestingAfterModify b Side.BUY p id = findTargetAtLevel b.bids p id := by
  unfold findRestingAfterModify
  rw [if_pos rfl]

theorem findRestingAfterModify_sell (b : Book) (p : Int) (id : Int) :
    findRestingAfterModify b Side.SELL p id = findTargetAtLevel b.asks p id := by
  unfold findRestingAfterModify
  rw [if_neg (by decide), if_pos rfl]

theorem removeFirstById_some_id :
    ∀ {l : List Order} {t : Int} {o : Order} {l1 : List Order},
      removeFirstById l t = some (o, l1) → o.order_id = t := by
  intro l
  induction l with
  | nil => intro t o l1 h; simp [removeFirstById] at h
  | cons hd rest ih =>
    intro t o l1 h
    unfold removeFirstById at h
    by_cases hid : hd.order_id = t
    · rw [if_pos hid] at h
      simp only [Option.some.injEq, Prod.mk.injEq] at h
      obtain ⟨rfl, rfl⟩ := h
      exact hid
    · rw [if_neg hid] at h
      rcases hrec : removeFirstById rest t with _ | ⟨o2, l2⟩ <;> rw [hrec] at h
      · simp at h
      · simp only [Option.map, Option.bind, Option.some.injEq,
          Prod.mk.injEq] at h
        obtain ⟨rfl, rfl⟩ := h
        exact ih hrec

theorem findRemoveLadder_some_id :
    ∀ {lad : Ladder} {t : Int} {o : Order} {lad1 : Ladder},
      findRemoveLadder lad t = some (o, lad1) → o.order_id = t := by
  intro lad
  induction lad with
  | nil => intro t o lad1 h; simp [findRemoveLadder] at h
  | cons hd rest ih =>
    intro t o lad1 h
    rcases hd with ⟨p, l⟩
    unfold findRemoveLadder at h
    rcases hr : removeFirstById l t with _ | ⟨o2, l2⟩ <;> rw [hr] at h
    · rcases hrec : findRemoveLadder rest t with _ | ⟨o3, lad3⟩ <;>
        rw [hrec] at h
      · simp at h
      · simp only [Option.map, Option.bind, Option.some.injEq,
          Prod.mk.injEq] at h
        obtain ⟨rfl, rfl⟩ := h
        exact ih hrec
    · simp only [Option.some.injEq, Prod.mk.injEq] at h
      obtain ⟨rfl, rfl⟩ := h
      exact removeFirstById_some_id hr

theorem findRemoveBook_some_id {b : Book} {t : Int} {o : Order} {b1 : Book}
    (h : findRemoveBook b t = some (o, b1)) : o.order_id = t := by
  unfold findRemoveBook at h
  rcases hb : findRemoveLadder b.bids t with _ | ⟨o2, lad2⟩ <;> rw [hb] at h
  · rcases ha : findRemoveLadder b.asks t with _ | ⟨o3, lad3⟩ <;>
      rw [ha] at h
    · simp at h
    · simp only [Option.some.injEq, Prod.mk.injEq] at h
      obtain ⟨rfl, _⟩ := h
      exact findRemoveLadder_some_id ha
  · simp only [Option.some.injEq, Prod.mk.injEq] at h
    obtain ⟨rfl, _⟩ := h
    exact findRemoveLadder_some_id hb

theorem mem_bookIds {id : Int} {b : Book} :
    id ∈ bookIds b ↔ ∃ o ∈ bookOrders b, o.order_id = id := by
  simp [bookIds]

theorem sorted_desc_keys_nodup {lad : Ladder}
    (h : lad.Pairwise (fun x y => y.1 < x.1)) : (lad.map Prod.fst).Nodup := by
  have hp : (lad.map Prod.fst).Pairwise (fun a b => b < a) :=
    (List.pairwise_map).mpr h
  exact hp.imp (fun hlt => hlt.ne')

theorem sorted_asc_keys_nodup {lad : Ladder}
    (h : lad.Pairwise (fun x y => x.1 < y.1)) : (lad.map Prod.fst).Nodup := by
  have hp : (lad.map Prod.fst).Pairwise (fun a b => a < b) :=
    (List.pairwise_map).mpr h
  exact hp.imp (fun hlt => hlt.ne)

theorem modifyLimitReinsert_pending_iff (i : String) (ts : Nat) (m : Order)
    (b1 : Book)
    (hbs : m.side = Side.BUY ∨ m.side = Side.SELL)
    (hms : m.status = OrderStatus.PENDING)
    (hnotin : m.order_id ∉ bookIds b1)
    (hsort : ladderSorted b1) :
    (∃ rec ∈ (modifyLimitReinsert i ts m b1).2,
        rec.order_id = m.order_id ∧ rec.status = OrderStatus.PENDING) ↔
      (m.order_id ∈ bookIds (modifyLimitReinsert i ts m b1).1 ∧
        m.order_id ∉
          (modifyLimitReinsert i ts m b1).1.ids_traded_this_event) := by
  rcases hsort with ⟨hsb, hsa⟩
  rcases hbs with hside | hside
  · obtain ⟨lm, hlm, hmlm⟩ := insertBid_mem_level b1.bids m.price m
    have hperm := insertBid_orders_perm b1.bids m.price m
    have hnd2 : ((insertBid b1.bids m.price m).map Prod.fst).Nodup :=
      sorted_desc_keys_nodup (insertBid_sorted m.price m b1.bids hsb)
    rcases hL : matchLoop i
        (ladderWeight (insertBid b1.bids m.price m) + ladderWeight b1.asks) ts
        (insertBid b1.bids m.price m) b1.asks b1.ids_traded_this_event with
      ⟨Lb, La, Lt, Lr⟩
    have hM : matchOrders i ts { b1 with bids := insertBid b1.bids m.price m } =
        (Book.mk Lb La Lt, Lr) := by
      unfold matchOrders
      dsimp only
      rw [hL]
    have hre : modifyLimitReinsert i ts m b1 =
        (Book.mk Lb La Lt,
          Lr ++ modifyPendingExtra i ts (Book.mk Lb La Lt) m) := by
      unfold modifyLimitReinsert
      dsimp only
      rw [if_pos hside, hM]
    have hF1 := matchLoop_recs_colFacts i ts
      (ladderWeight (insertBid b1.bids m.price m) + ladderWeight b1.asks)
      (insertBid b1.bids m.price m) b1.asks b1.ids_traded_this_event
    rw [hL] at hF1
    have hlp := (matchLoop_level_preserved i ts
      (ladderWeight (insertBid b1.bids m.price m) + ladderWeight b1.asks)
      (insertBid b1.bids m.price m) b1.asks b1.ids_traded_this_event).1
      m.price lm m hlm hmlm
    rw [hL] at hlp
    have hrev := matchLoop_orders_rev i ts
      (ladderWeight (insertBid b1.bids m.price m) + ladderWeight b1.asks)
      (insertBid b1.bids m.price m) b1.asks b1.ids_traded_this_event
    rw [hL] at hrev
    have hks := (matchLoop_keys_suffix i ts
      (ladderWeight (insertBid b1.bids m.price m) + ladderWeight b1.asks)
      (insertBid b1.bids m.price m) b1.asks b1.ids_traded_this_event).1
    rw [hL] at hks
    dsimp only at hF1 hlp hrev hks
    have hndLb : (Lb.map Prod.fst).Nodup := List.Nodup.sublist hks.sublist hnd2
    rw [hre]
    dsimp only
    constructor
    · rintro ⟨rec, hrec, hrid, hrst⟩
      rcases List.mem_append.mp hrec with hrec | hrec
      · exfalso
        rcases (hF1 rec hrec).2 with h | h <;> rw [h] at hrst <;> simp at hrst
      · unfold modifyPendingExtra at hrec
        rcases hfr : findRestingAfterModify (Book.mk Lb La Lt) m.side m.price
            m.order_id with _ | ro
        · rw [hfr] at hrec
          simp at hrec
        · rw [hfr] at hrec
          dsimp only at hrec
          by_cases htr : m.order_id ∈ Lt
          · rw [if_pos htr] at hrec
            simp at hrec
          · rw [if_neg htr] at hrec
            obtain ⟨hroid, hroin⟩ := findRestingAfterModify_some hfr
            refine ⟨?_, htr⟩
            refine mem_bookIds.mpr ⟨ro, ?_, hroid⟩
            rcases hroin with ⟨_, hro⟩ | ⟨hs2, _⟩
            · exact List.mem_append_left _ hro
            · rw [hside] at hs2
              simp at hs2
    · rintro ⟨hin, hnt⟩
      rcases hlp with ⟨l1, hl1, hml1⟩ | htr
      · obtain ⟨ro, hfrT, hrol1, hroid⟩ :=
          findTargetAtLevel_of_mem hndLb hl1 hml1 rfl
        have hfr : findRestingAfterModify (Book.mk Lb La Lt) m.side m.price
            m.order_id = some ro := by
          rw [hside, findRestingAfterModify_buy]
          exact hfrT
        have hroLb : ro ∈ ordersOfLadder Lb :=
          mem_ordersOfLadder_of_mem_level hl1 hrol1
        have hrom : ro = m := by
          rcases hrev.1 ro hroLb with hro2 | hro2
          · rcases List.mem_cons.mp ((hperm.mem_iff).mp hro2) with h | h
            · exact h
            · exact absurd
                (mem_bookIds.mpr ⟨ro, List.mem_append_left _ h, hroid⟩) hnotin
          · rw [hroid] at hro2
            exact absurd hro2 hnt
        refine ⟨addInitialOutputRecord i ro ro.status 0 0 0 ts, ?_, ?_, ?_⟩
        · refine List.mem_append_right _ ?_
          unfold modifyPendingExtra
          rw [hfr]
          dsimp only
          rw [if_neg hnt]
          exact List.mem_singleton_self _
        · simp [addInitialOutputRecord, hroid]
        · simp [addInitialOutputRecord, hrom, hms]
      · exact absurd htr hnt
  · have hnb : ¬ (m.side = Side.BUY) := by
      rw [hside]
      decide
    obtain ⟨lm, hlm, hmlm⟩ := insertAsk_mem_level b1.asks m.price m
    have hperm := insertAsk_orders_perm b1.asks m.price m
    have hnd2 : ((insertAsk b1.asks m.price m).map Prod.fst).Nodup :=
      sorted_asc_keys_nodup (insertAsk_sorted m.price m b1.asks hsa)
    rcases hL : matchLoop i
        (ladderWeight b1.bids + ladderWeight (insertAsk b1.asks m.price m)) ts
        b1.bids (insertAsk b1.asks m.price m) b1.ids_traded_this_event with
      ⟨Lb, La, Lt, Lr⟩
    have hM : matchOrders i ts { b1 with asks := insertAsk b1.asks m.price m } =
        (Book.mk Lb La Lt, Lr) := by
      unfold matchOrders
      dsimp only
      rw [hL]
    have hre : modifyLimitReinsert i ts m b1 =
        (Book.mk Lb La Lt,
          Lr ++ modifyPendingExtra i ts (Book.mk Lb La Lt) m) := by
      unfold modifyLimitReinsert
      dsimp only
      rw [if_neg hnb, hM]
    have hF1 := matchLoop_recs_colFacts i ts
      (ladderWeight b1.bids + ladderWeight (insertAsk b1.asks m.price m))
      b1.bids (insertAsk b1.asks m.price m) b1.ids_traded_this_event
    rw [hL] at hF1
    have hlp := (matchLoop_level_preserved i ts
      (ladderWeight b1.bids + ladderWeight (insertAsk b1.asks m.price m))
      b1.bids (insertAsk b1.asks m.price m) b1.ids_traded_this_event).2
      m.price lm m hlm hmlm
    rw [hL] at hlp
    have hrev := matchLoop_orders_rev i ts
      (ladderWeight b1.bids + ladderWeight (insertAsk b1.asks m.price m))
      b1.bids (insertAsk b1.asks m.price m) b1.ids_traded_this_event
    rw [hL] at hrev
    have hks := (matchLoop_keys_suffix i ts
      (ladderWeight b1.bids + ladderWeight (insertAsk b1.asks m.price m))
      b1.bids (insertAsk b1.asks m.price m) b1.ids_traded_this_event).2
    rw [hL] at hks
    dsimp only at hF1 hlp hrev hks
    have hndLa : (La.map Prod.fst).Nodup := List.Nodup.sublist hks.sublist hnd2
    rw [hre]
    dsimp only
    constructor
    · rintro ⟨rec, hrec, hrid, hrst⟩
      rcases List.mem_append.mp hrec with hrec | hrec
      · exfalso
        rcases (hF1 rec hrec).2 with h | h <;> rw [h] at hrst <;> simp at hrst
      · unfold modifyPendingExtra at hrec
        rcases hfr : findRestingAfterModify (Book.mk Lb La Lt) m.side m.price
            m.order_id with _ | ro
        · rw [hfr] at hrec
          simp at hrec
        · rw [hfr] at hrec
          dsimp only at hrec
          by_cases htr : m.order_id ∈ Lt
          · rw [if_pos htr] at hrec
            simp at hrec
          · rw [if_neg htr] at hrec
            obtain ⟨hroid, hroin⟩ := findRestingAfterModify_some hfr
            refine ⟨?_, htr⟩
            refine mem_bookIds.mpr ⟨ro, ?_, hroid⟩
            rcases hroin with ⟨hb2, _⟩ | ⟨_, hro⟩
            · rw [hside] at hb2
              simp at hb2
            · exact List.mem_append_right _ hro
    · rintro ⟨hin, hnt⟩
      rcases hlp with ⟨l1, hl1, hml1⟩ | htr
      · obtain ⟨ro, hfrT, hrol1, hroid⟩ :=
          findTargetAtLevel_of_mem hndLa hl1 hml1 rfl
        have hfr : findRestingAfterModify (Book.mk Lb La Lt) m.side m.price
            m.order_id = some ro := by
          rw [hside, findRestingAfterModify_sell]
          exact hfrT
        have hroLa : ro ∈ ordersOfLadder La :=
          mem_ordersOfLadder_of_mem_level hl1 hrol1
        have hrom : ro = m := by
          rcases hrev.2 ro hroLa with hro2 | hro2
          · rcases List.mem_cons.mp ((hperm.mem_iff).mp hro2) with h | h
            · exact h
            · exact absurd
                (mem_bookIds.mpr ⟨ro, List.mem_append_right _ h, hroid⟩) hnotin
          · rw [hroid] at hro2
            exact absurd hro2 hnt
        refine ⟨addInitialOutputRecord i ro ro.status 0 0 0 ts, ?_, ?_, ?_⟩
        · refine List.mem_append_right _ ?_
          unfold modifyPendingExtra
          rw [hfr]
          dsimp only
          rw [if_neg hnt]
          exact List.mem_singleton_self _
        · simp [addInitialOutputRecord, hroid]
        · simp [addInitialOutputRecord, hrom, hms]
      · exact absurd htr hnt

/-- Counterexample to C7 as stated: a resting order with UNKNOWN side (the
NEW insert of orderbook.cpp line 316 puts every non-BUY order, UNKNOWN side
included, into the asks) is grown by a MODIFY on an otherwise empty book; it
is re-inserted into the asks, rests there untraded — yet the post-modify
lookup of orderbook.cpp lines 333-337 requires side BUY or SELL, so the
program emits no PENDING record and the claimed iff fails at this input. -/
theorem C7_modify_grow_pending_counterexample :
    ¬ ((∃ rec ∈ (processSingleOrder "X"
          (mkEvent "X" 5 1 Side.UNKNOWN_SIDE OrderType.LIMIT 12 100
            OrderAction.MODIFY)
          (Book.mk []
            [((100 : Int), [mkResting "X" 1 1 Side.UNKNOWN_SIDE 10 100])] [])).2,
        rec.order_id = (1 : Int) ∧ rec.status = OrderStatus.PENDING) ↔
      ((1 : Int) ∈ bookIds (processSingleOrder "X"
          (mkEvent "X" 5 1 Side.UNKNOWN_SIDE OrderType.LIMIT 12 100
            OrderAction.MODIFY)
          (Book.mk []
            [((100 : Int), [mkResting "X" 1 1 Side.UNKNOWN_SIDE 10 100])] [])).1 ∧
        (1 : Int) ∉ (processSingleOrder "X"
          (mkEvent "X" 5 1 Side.UNKNOWN_SIDE OrderType.LIMIT 12 100
            OrderAction.MODIFY)
          (Book.mk []
            [((100 : Int), [mkResting "X" 1 1 Side.UNKNOWN_SIDE 10 100])]
            [])).1.ids_traded_this_event)) := by
  decide

/-- **C7** (amended): on the MODIFY-LIMIT grow path (target found, new
quantity above the retained cumulative), the event is processed by
re-inserting the rebuilt PENDING order and running the matching loop, and —
provided the retained side is BUY or SELL — a PENDING record is emitted for
the modified order if and only if it still rests in a ladder afterwards and
its id is absent from ids_traded_this_event; in particular a modified order
that trades in the same event produces no extra PENDING record. For an
UNKNOWN retained side the program's post-modify lookup finds nothing (see
the counterexample), so no record is emitted even when the order rests. -/
theorem C7_modify_grow_limit_pending_iff_amended (i : String) (req : Order)
    (b0 b1 : Book) (found m : Order)
    (hact : req.action = OrderAction.MODIFY)
    (hinstr : req.instrument = i)
    (hfind : findRemoveBook { b0 with ids_traded_this_event := [] } req.order_id =
      some (found, b1))
    (hgrow : found.cumulative_executed_quantity < req.quantity)
    (hty : req.type = OrderType.LIMIT)
    (hsides : found.side = Side.BUY ∨ found.side = Side.SELL)
    (hm : m =
      { found with
        timestamp := req.timestamp
        price := req.price
        quantity := req.quantity
        action := OrderAction.MODIFY
        type := req.type
        remaining_quantity := req.quantity - found.cumulative_executed_quantity
        status := OrderStatus.PENDING })
    (hnotin : req.order_id ∉ bookIds b1)
    (hsort : ladderSorted b1) :
    processSingleOrder i req b0 = modifyLimitReinsert i req.timestamp m b1 ∧
      ((∃ rec ∈ (modifyLimitReinsert i req.timestamp m b1).2,
          rec.order_id = req.order_id ∧ rec.status = OrderStatus.PENDING) ↔
        (req.order_id ∈ bookIds (modifyLimitReinsert i req.timestamp m b1).1 ∧
          req.order_id ∉
            (modifyLimitReinsert i req.timestamp m b1).1.ids_traded_this_event)) := by
  have hfid : found.order_id = req.order_id := findRemoveBook_some_id hfind
  have him : m.order_id = req.order_id := by
    rw [hm]
    exact hfid
  have hms : m.status = OrderStatus.PENDING := by rw [hm]
  constructor
  · subst hm
    have hnle : ¬ (req.quantity ≤ found.cumulative_executed_quantity) :=
      not_le.mpr hgrow
    simp [processSingleOrder, processModify, hinstr, hact, hfind, hty, hnle]
  · have hmside : m.side = found.side := by rw [hm]
    have h := modifyLimitReinsert_pending_iff i req.timestamp m b1
      (by rw [hmside]; exact hsides) hms (by rw [him]; exact hnotin) hsort
    rw [him] at h
    exact h

/-- Witness for C7 (amended): a resting BUY bid with 4 of 10 executed is
modified up to quantity 12 (> 4) at the same price on an otherwise empty
book; the grow-LIMIT path applies and the amended iff is instantiated. -/
theorem C7_modify_grow_limit_pending_iff_amended_witness :
    (mkEvent "X" 5 1 Side.BUY OrderType.LIMIT 12 100 OrderAction.MODIFY).action =
        OrderAction.MODIFY ∧
      findRemoveBook
          { Book.mk [((100 : Int), [mkRestingPart "X" 1 1 Side.BUY 10 100 4])] [] [9] with
            ids_traded_this_event := [] }
          (mkEvent "X" 5 1 Side.BUY OrderType.LIMIT 12 100 OrderAction.MODIFY).order_id =
        some (mkRestingPart "X" 1 1 Side.BUY 10 100 4, Book.mk [] [] []) ∧
      (mkRestingPart "X" 1 1 Side.BUY 10 100 4).cumulative_executed_quantity <
        (mkEvent "X" 5 1 Side.BUY OrderType.LIMIT 12 100 OrderAction.MODIFY).quantity ∧
      (processSingleOrder "X"
          (mkEvent "X" 5 1 Side.BUY OrderType.LIMIT 12 100 OrderAction.MODIFY)
          (Book.mk [((100 : Int), [mkRestingPart "X" 1 1 Side.BUY 10 100 4])] [] [9]) =
        modifyLimitReinsert "X"
          (mkEvent "X" 5 1 Side.BUY OrderType.LIMIT 12 100 OrderAction.MODIFY).timestamp
          { mkRestingPart "X" 1 1 Side.BUY 10 100 4 with
            timestamp := (mkEvent "X" 5 1 Side.BUY OrderType.LIMIT 12 100
              OrderAction.MODIFY).timestamp
            price := (mkEvent "X" 5 1 Side.BUY OrderType.LIMIT 12 100
              OrderAction.MODIFY).price
            quantity := (mkEvent "X" 5 1 Side.BUY OrderType.LIMIT 12 100
              OrderAction.MODIFY).quantity
            action := OrderAction.MODIFY
            type := (mkEvent "X" 5 1 Side.BUY OrderType.LIMIT 12 100
              OrderAction.MODIFY).type
            remaining_quantity :=
              (mkEvent "X" 5 1 Side.BUY OrderType.LIMIT 12 100
                OrderAction.MODIFY).quantity -
                (mkRestingPart "X" 1 1 Side.BUY 10 100 4).cumulative_executed_quantity
            status := OrderStatus.PENDING }
          (Book.mk [] [] []) ∧
        ((∃ rec ∈ (modifyLimitReinsert "X"
            (mkEvent "X" 5 1 Side.BUY OrderType.LIMIT 12 100 OrderAction.MODIFY).timestamp
            { mkRestingPart "X" 1 1 Side.BUY 10 100 4 with
              timestamp := (mkEvent "X" 5 1 Side.BUY OrderType.LIMIT 12 100
                OrderAction.MODIFY).timestamp
              price := (mkEvent "X" 5 1 Side.BUY OrderType.LIMIT 12 100
                OrderAction.MODIFY).price
              quantity := (mkEvent "X" 5 1 Side.BUY OrderType.LIMIT 12 100
                OrderAction.MODIFY).quantity
              action := OrderAction.MODIFY
              type := (mkEvent "X" 5 1 Side.BUY OrderType.LIMIT 12 100
                OrderAction.MODIFY).type
              remaining_quantity :=
                (mkEvent "X" 5 1 Side.BUY OrderType.LIMIT 12 100
                  OrderAction.MODIFY).quantity -
                  (mkRestingPart "X" 1 1 Side.BUY 10 100 4).cumulative_executed_quantity
              status := OrderStatus.PENDING }
            (Book.mk [] [] [])).2,
            rec.order_id =
              (mkEvent "X" 5 1 Side.BUY OrderType.LIMIT 12 100 OrderAction.MODIFY).order_id ∧
              rec.status = OrderStatus.PENDING) ↔
          ((mkEvent "X" 5 1 Side.BUY OrderType.LIMIT 12 100 OrderAction.MODIFY).order_id ∈
              bookIds (modifyLimitReinsert "X"
                (mkEvent "X" 5 1 Side.BUY OrderType.LIMIT 12 100
                  OrderAction.MODIFY).timestamp
                { mkRestingPart "X" 1 1 Side.BUY 10 100 4 with
                  timestamp := (mkEvent "X" 5 1 Side.BUY OrderType.LIMIT 12 100
                    OrderAction.MODIFY).timestamp
                  price := (mkEvent "X" 5 1 Side.BUY OrderType.LIMIT 12 100
                    OrderAction.MODIFY).price
                  quantity := (mkEvent "X" 5 1 Side.BUY OrderType.LIMIT 12 100
                    OrderAction.MODIFY).quantity
                  action := OrderAction.MODIFY
                  type := (mkEvent "X" 5 1 Side.BUY OrderType.LIMIT 12 100
                    OrderAction.MODIFY).type
                  remaining_quantity :=
                    (mkEvent "X" 5 1 Side.BUY OrderType.LIMIT 12 100
                      OrderAction.MODIFY).quantity -
                      (mkRestingPart "X" 1 1 Side.BUY 10 100 4).cumulative_executed_quantity
                  status := OrderStatus.PENDING }
                (Book.mk [] [] [])).1 ∧
            (mkEvent "X" 5 1 Side.BUY OrderType.LIMIT 12 100 OrderAction.MODIFY).order_id ∉
              (modifyLimitReinsert "X"
                (mkEvent "X" 5 1 Side.BUY OrderType.LIMIT 12 100
                  OrderAction.MODIFY).timestamp
                { mkRestingPart "X" 1 1 Side.BUY 10 100 4 with
                  timestamp := (mkEvent "X" 5 1 Side.BUY OrderType.LIMIT 12 100
                    OrderAction.MODIFY).timestamp
                  price := (mkEvent "X" 5 1 Side.BUY OrderType.LIMIT 12 100
                    OrderAction.MODIFY).price
                  quantity := (mkEvent "X" 5 1 Side.BUY OrderType.LIMIT 12 100
                    OrderAction.MODIFY).quantity
                  action := OrderAction.MODIFY
                  type := (mkEvent "X" 5 1 Side.BUY OrderType.LIMIT 12 100
                    OrderAction.MODIFY).type
                  remaining_quantity :=
                    (mkEvent "X" 5 1 Side.BUY OrderType.LIMIT 12 100
                      OrderAction.MODIFY).quantity -
                      (mkRestingPart "X" 1 1 Side.BUY 10 100 4).cumulative_executed_quantity
                  status := OrderStatus.PENDING }
                (Book.mk [] [] [])).1.ids_traded_this_event))) :=
  ⟨by decide, by decide, by decide,
   C7_modify_grow_limit_pending_iff_amended "X"
     (mkEvent "X" 5 1 Side.BUY OrderType.LIMIT 12 100 OrderAction.MODIFY)
     (Book.mk [((100 : Int), [mkRestingPart "X" 1 1 Side.BUY 10 100 4])] [] [9])
     (Book.mk [] [] []) (mkRestingPart "X" 1 1 Side.BUY 10 100 4)
     { mkRestingPart "X" 1 1 Side.BUY 10 100 4 with
       timestamp := (mkEvent "X" 5 1 Side.BUY OrderType.LIMIT 12 100
         OrderAction.MODIFY).timestamp
       price := (mkEvent "X" 5 1 Side.BUY OrderType.LIMIT 12 100
         OrderAction.MODIFY).price
       quantity := (mkEvent "X" 5 1 Side.BUY OrderType.LIMIT 12 100
         OrderAction.MODIFY).quantity
       action := OrderAction.MODIFY
       type := (mkEvent "X" 5 1 Side.BUY OrderType.LIMIT 12 100
         OrderAction.MODIFY).type
       remaining_quantity :=
         (mkEvent "X" 5 1 Side.BUY OrderType.LIMIT 12 100
           OrderAction.MODIFY).quantity -
           (mkRestingPart "X" 1 1 Side.BUY 10 100 4).cumulative_executed_quantity
       status := OrderStatus.PENDING }
     (by decide) (by decide) (by decide) (by decide) (by decide) (by decide)
     (by decide) (by decide) ⟨List.Pairwise.nil, List.Pairwise.nil⟩⟩

theorem pairwise_keys_sublist (r : Int → Int → Prop) {lad lad1 : Ladder}
    (h : List.Sublist (lad1.map Prod.fst) (lad.map Prod.fst))
    (hs : lad.Pairwise (fun x y => r x.1 y.1)) :
    lad1.Pairwise (fun x y => r x.1 y.1) := by
  have h2 : (lad.map Prod.fst).Pairwise r := (List.pairwise_map).mpr hs
  have h3 : (lad1.map Prod.fst).Pairwise r := List.Pairwise.sublist h h2
  exact (List.pairwise_map).mp h3

theorem desc_head_max {p : Int} {l : List Order} {rest : Ladder} {k : Int}
    (hs : List.Pairwise (fun x y : Level => y.1 < x.1) ((p, l) :: rest))
    (hk : k ∈ ((p, l) :: rest).map Prod.fst) : k ≤ p := by
  rw [List.pairwise_cons] at hs
  simp only [List.map_cons, List.mem_cons] at hk
  rcases hk with rfl | hk
  · exact le_refl _
  · obtain ⟨lv, hlv, rfl⟩ := List.mem_map.mp hk
    exact le_of_lt (hs.1 lv hlv)

theorem asc_head_min {p : Int} {l : List Order} {rest : Ladder} {k : Int}
    (hs : List.Pairwise (fun x y : Level => x.1 < y.1) ((p, l) :: rest))
    (hk : k ∈ ((p, l) :: rest).map Prod.fst) : p ≤ k := by
  rw [List.pairwise_cons] at hs
  simp only [List.map_cons, List.mem_cons] at hk
  rcases hk with rfl | hk
  · exact le_refl _
  · obtain ⟨lv, hlv, rfl⟩ := List.mem_map.mp hk
    exact le_of_lt (hs.1 lv hlv)

theorem uncrossed_of_thinner {b b1 : Book}
    (hsb : b.bids.Pairwise (fun x y => y.1 < x.1))
    (hsa : b.asks.Pairwise (fun x y => x.1 < y.1))
    (hb : List.Sublist (b1.bids.map Prod.fst) (b.bids.map Prod.fst))
    (ha : List.Sublist (b1.asks.map Prod.fst) (b.asks.map Prod.fst))
    (hu : uncrossed b) : uncrossed b1 := by
  rcases hb1 : b1.bids with _ | ⟨⟨bp, bl⟩, brest⟩
  · unfold uncrossed
    rw [hb1]
    rcases ha0 : b1.asks with _ | ⟨⟨ap, al⟩, arest⟩ <;> exact trivial
  rcases ha1 : b1.asks with _ | ⟨⟨ap, al⟩, arest⟩
  · unfold uncrossed
    rw [hb1, ha1]
    exact trivial
  have hbp : bp ∈ b.bids.map Prod.fst := hb.subset (by rw [hb1]; simp)
  have hap : ap ∈ b.asks.map Prod.fst := ha.subset (by rw [ha1]; simp)
  rcases hbb : b.bids with _ | ⟨⟨BP, BL⟩, BR⟩
  · rw [hbb] at hbp
    simp at hbp
  rcases hba : b.asks with _ | ⟨⟨AP, AL⟩, AR⟩
  · rw [hba] at hap
    simp at hap
  have hBA : BP < AP := by
    unfold uncrossed at hu
    rw [hbb, hba] at hu
    exact hu
  rw [hbb] at hsb hbp
  rw [hba] at hsa hap
  have h1 : bp ≤ BP := desc_head_max hsb hbp
  have h2 : AP ≤ ap := asc_head_min hsa hap
  unfold uncrossed
  rw [hb1, ha1]
  show bp < ap
  omega

theorem findRemoveLadder_keys_sublist :
    ∀ {lad : Ladder} {t : Int} {o : Order} {lad1 : Ladder},
      findRemoveLadder lad t = some (o, lad1) →
      List.Sublist (lad1.map Prod.fst) (lad.map Prod.fst) := by
  intro lad
  induction lad with
  | nil => intro t o lad1 h; simp [findRemoveLadder] at h
  | cons hd rest ih =>
    intro t o lad1 h
    rcases hd with ⟨p, l⟩
    unfold findRemoveLadder at h
    rcases hr : removeFirstById l t with _ | ⟨o2, l2⟩ <;> rw [hr] at h
    · rcases hrec : findRemoveLadder rest t with _ | ⟨o3, lad3⟩ <;> rw [hrec] at h
      · simp at h
      · simp only [Option.map, Option.bind, Option.some.injEq, Prod.mk.injEq] at h
        obtain ⟨rfl, rfl⟩ := h
        simp only [List.map_cons]
        exact List.Sublist.cons₂ _ (ih hrec)
    · simp only [Option.some.injEq, Prod.mk.injEq] at h
      obtain ⟨rfl, rfl⟩ := h
      by_cases hl2 : l2 = []
      · rw [if_pos hl2]
        simp only [List.map_cons]
        exact List.sublist_cons_self _ _
      · rw [if_neg hl2]
        simp only [List.map_cons]
        exact List.Sublist.refl _

theorem findRemoveBook_keys {b : Book} {t : Int} {o : Order} {b1 : Book}
    (h : findRemoveBook b t = some (o, b1)) :
    List.Sublist (b1.bids.map Prod.fst) (b.bids.map Prod.fst) ∧
      List.Sublist (b1.asks.map Prod.fst) (b.asks.map Prod.fst) := by
  unfold findRemoveBook at h
  rcases hb : findRemoveLadder b.bids t with _ | ⟨o2, lad2⟩ <;> rw [hb] at h
  · rcases ha : findRemoveLadder b.asks t with _ | ⟨o3, lad3⟩ <;> rw [ha] at h
    · simp at h
    · simp only [Option.some.injEq, Prod.mk.injEq] at h
      obtain ⟨rfl, rfl⟩ := h
      exact ⟨List.Sublist.refl _, findRemoveLadder_keys_sublist ha⟩
  · simp only [Option.some.injEq, Prod.mk.injEq] at h
    obtain ⟨rfl, rfl⟩ := h
    exact ⟨findRemoveLadder_keys_sublist hb, List.Sublist.refl _⟩

theorem sweepStep_keys_suffix (i : String) (ts : Nat) {agg agg1 : Order}
    {lad lad1 : Ladder} {traded traded1 : List Int} {recs : List OutputRecord}
    (h : sweepStep i ts agg lad traded = some (agg1, lad1, traded1, recs)) :
    List.IsSuffix (lad1.map Prod.fst) (lad.map Prod.fst) := by
  by_cases h0 : agg.remaining_quantity = 0
  · simp [sweepStep, h0] at h
  rcases lad with _ | ⟨⟨p, l⟩, rest⟩
  · simp [sweepStep, h0] at h
  rcases l with _ | ⟨resting, tail⟩
  · simp only [sweepStep, if_neg h0, Option.some.injEq, Prod.mk.injEq] at h
    obtain ⟨rfl, rfl, rfl, rfl⟩ := h
    exact ⟨[p], by simp⟩
  · simp only [sweepStep, if_neg h0, Option.some.injEq, Prod.mk.injEq] at h
    obtain ⟨_, h2, _, _⟩ := h
    subst h2
    simp only [recordMatch_pas, applyFill_rem]
    by_cases hs0 : resting.remaining_quantity -
        min agg.remaining_quantity resting.remaining_quantity = 0
    · rw [if_pos hs0]
      by_cases ht : tail = []
      · rw [if_pos ht]
        exact ⟨[p], by simp⟩
      · rw [if_neg ht]
        simp only [List.map_cons]
        exact List.suffix_refl _
    · rw [if_neg hs0, if_neg (by simp)]
      simp only [List.map_cons]
      exact List.suffix_refl _

theorem sweepLoop_keys_suffix (i : String) (ts : Nat) :
    ∀ fuel agg lad traded,
      List.IsSuffix ((sweepLoop i fuel ts agg lad traded).2.1.map Prod.fst)
        (lad.map Prod.fst) := by
  intro fuel
  induction fuel with
  | zero => intro agg lad traded; exact List.suffix_refl _
  | succ f ih =>
    intro agg lad traded
    rcases hstep : sweepStep i ts agg lad traded with _ | ⟨a1, l1, t1, recs⟩
    · rw [sweepLoop, hstep]
    · rw [sweepLoop, hstep]
      exact (ih a1 l1 t1).trans (sweepStep_keys_suffix i ts hstep)

theorem matchLoop_exit (i : String) (ts : Nat) :
    ∀ fuel bids asks traded, matchMeasure bids asks ≤ fuel →
      matchStep i ts (matchLoop i fuel ts bids asks traded).1
        (matchLoop i fuel ts bids asks traded).2.1
        (matchLoop i fuel ts bids asks traded).2.2.1 = none := by
  intro fuel
  induction fuel with
  | zero =>
    intro bids asks traded h
    have hz : matchMeasure bids asks = 0 := Nat.le_zero.mp h
    have hb : bids = [] := by
      apply ladderWeight_eq_zero
      simp [matchMeasure] at hz
      omega
    subst hb
    simp [matchLoop, matchStep]
  | succ f ih =>
    intro bids asks traded h
    rcases hstep : matchStep i ts bids asks traded with _ | ⟨b1, a1, t1, recs⟩
    · rw [matchLoop, hstep]
      exact hstep
    · rw [matchLoop, hstep]
      have hlt := matchStep_measure_lt i ts hstep
      exact ih b1 a1 t1 (by omega)

theorem matchStep_none_uncrossed {i : String} {ts : Nat} {bids asks : Ladder}
    {traded : List Int} (h : matchStep i ts bids asks traded = none) :
    uncrossed (Book.mk bids asks traded) := by
  rcases bids with _ | ⟨⟨bp, bl⟩, brest⟩
  · rcases asks with _ | ⟨⟨ap, al⟩, arest⟩ <;> exact trivial
  rcases asks with _ | ⟨⟨ap, al⟩, arest⟩
  · exact trivial
  by_cases hlt : bp < ap
  · exact hlt
  · exfalso
    rcases bl with _ | ⟨buy, bt⟩
    · simp [matchStep, hlt] at h
    rcases al with _ | ⟨sell, st⟩
    · simp [matchStep, hlt] at h
    · simp [matchStep, hlt] at h

theorem matchOrders_uncrossed (i : String) (ts : Nat) (b : Book) :
    uncrossed (matchOrders i ts b).1 := by
  have hex := matchLoop_exit i ts (ladderWeight b.bids + ladderWeight b.asks)
    b.bids b.asks b.ids_traded_this_event (le_refl _)
  exact matchStep_none_uncrossed hex

theorem matchOrders_sorted (i : String) (ts : Nat) (b : Book)
    (hs : ladderSorted b) : ladderSorted (matchOrders i ts b).1 := by
  rcases hs with ⟨hsb, hsa⟩
  have hk := matchLoop_keys_suffix i ts
    (ladderWeight b.bids + ladderWeight b.asks) b.bids b.asks
    b.ids_traded_this_event
  refine ⟨?_, ?_⟩
  · have hp := pairwise_keys_sublist (fun a b => b < a) hk.1.sublist hsb
    exact hp
  · have hp := pairwise_keys_sublist (fun a b => a < b) hk.2.sublist hsa
    exact hp

theorem processNewLimit_book_inv (i : String) (ts : Nat) (o : Order) (b : Book)
    (hs : ladderSorted b) :
    ladderSorted (processNewLimit i ts o b).1 ∧
      uncrossed (processNewLimit i ts o b).1 := by
  rcases hs with ⟨hsb, hsa⟩
  unfold processNewLimit
  dsimp only
  by_cases hside : o.side = Side.BUY
  · rw [if_pos hside]
    exact ⟨matchOrders_sorted i ts _ ⟨insertBid_sorted o.price o b.bids hsb, hsa⟩,
      matchOrders_uncrossed i ts _⟩
  · rw [if_neg hside]
    exact ⟨matchOrders_sorted i ts _ ⟨hsb, insertAsk_sorted o.price o b.asks hsa⟩,
      matchOrders_uncrossed i ts _⟩

theorem marketSweep_book_inv (i : String) (ts : Nat) (o : Order) (b : Book)
    (hs : ladderSorted b) (hu : uncrossed b) :
    ladderSorted (marketSweep i ts o b).2.1 ∧
      uncrossed (marketSweep i ts o b).2.1 := by
  rcases hs with ⟨hsb, hsa⟩
  unfold marketSweep
  dsimp only
  by_cases hside : o.side = Side.BUY
  · rw [if_pos hside]
    have hk := sweepLoop_keys_suffix i ts (sweepFuel b.asks) o b.asks
      b.ids_traded_this_event
    refine ⟨⟨hsb, ?_⟩, ?_⟩
    · have hp := pairwise_keys_sublist (fun a b => a < b) hk.sublist hsa
      exact hp
    · exact uncrossed_of_thinner hsb hsa (List.Sublist.refl _) hk.sublist hu
  · rw [if_neg hside]
    have hk := sweepLoop_keys_suffix i ts (sweepFuel b.bids) o b.bids
      b.ids_traded_this_event
    refine ⟨⟨?_, hsa⟩, ?_⟩
    · have hp := pairwise_keys_sublist (fun a b => b < a) hk.sublist hsb
      exact hp
    · exact uncrossed_of_thinner hsb hsa hk.sublist (List.Sublist.refl _) hu

theorem processNewMarket_book_inv (i : String) (ts : Nat) (o : Order) (b : Book)
    (hs : ladderSorted b) (hu : uncrossed b) :
    ladderSorted (processNewMarket i ts o b).1 ∧
      uncrossed (processNewMarket i ts o b).1 := by
  unfold processNewMarket
  dsimp only
  by_cases hc : (marketSweep i ts o b).1.cumulative_executed_quantity = 0 ∧
      o.remaining_quantity > 0
  · rw [if_pos hc]
    exact marketSweep_book_inv i ts o b hs hu
  · rw [if_neg hc]
    exact marketSweep_book_inv i ts o b hs hu

theorem modifyLimitReinsert_book_inv (i : String) (ts : Nat) (m : Order)
    (b1 : Book) (hs : ladderSorted b1) :
    ladderSorted (modifyLimitReinsert i ts m b1).1 ∧
      uncrossed (modifyLimitReinsert i ts m b1).1 := by
  rcases hs with ⟨hsb, hsa⟩
  unfold modifyLimitReinsert
  dsimp only
  by_cases hside : m.side = Side.BUY
  · rw [if_pos hside]
    exact ⟨matchOrders_sorted i ts _ ⟨insertBid_sorted m.price m b1.bids hsb, hsa⟩,
      matchOrders_uncrossed i ts _⟩
  · rw [if_neg hside]
    exact ⟨matchOrders_sorted i ts _ ⟨hsb, insertAsk_sorted m.price m b1.asks hsa⟩,
      matchOrders_uncrossed i ts _⟩

theorem modifyMarketSweep_book_inv (i : String) (ts : Nat) (m : Order)
    (b1 : Book) (hs : ladderSorted b1) (hu : uncrossed b1) :
    ladderSorted (modifyMarketSweep i ts m b1).1 ∧
      uncrossed (modifyMarketSweep i ts m b1).1 := by
  unfold modifyMarketSweep
  dsimp only
  by_cases hc : (marketSweep i ts m b1).1.cumulative_executed_quantity =
      m.cumulative_executed_quantity ∧ m.remaining_quantity > 0
  · rw [if_pos hc]
    exact marketSweep_book_inv i ts m b1 hs hu
  · rw [if_neg hc]
    exact marketSweep_book_inv i ts m b1 hs hu

theorem processModify_book_inv (i : String) (ts : Nat) (req : Order) (b : Book)
    (hs : ladderSorted b) (hu : uncrossed b) :
    ladderSorted (processModify i ts req b).1 ∧
      uncrossed (processModify i ts req b).1 := by
  unfold processModify
  rcases hf : findRemoveBook b req.order_id with _ | ⟨found, b1⟩
  · exact ⟨hs, hu⟩
  · have hkeys := findRemoveBook_keys hf
    have hs1 : ladderSorted b1 := by
      refine ⟨?_, ?_⟩
      · have hp := pairwise_keys_sublist (fun a b => b < a) hkeys.1 hs.1
        exact hp
      · have hp := pairwise_keys_sublist (fun a b => a < b) hkeys.2 hs.2
        exact hp
    have hu1 : uncrossed b1 := uncrossed_of_thinner hs.1 hs.2 hkeys.1 hkeys.2 hu
    dsimp only
    by_cases hq : req.quantity ≤ found.cumulative_executed_quantity
    · rw [if_pos hq]
      exact ⟨hs1, hu1⟩
    · rw [if_neg hq]
      rcases hT : req.type with _ | _ | _
      · exact modifyLimitReinsert_book_inv i ts _ b1 hs1
      · exact modifyMarketSweep_book_inv i ts _ b1 hs1 hu1
      · exact ⟨hs1, hu1⟩

theorem processCancel_book_inv (i : String) (ts : Nat) (req : Order) (b : Book)
    (hs : ladderSorted b) (hu : uncrossed b) :
    ladderSorted (processCancel i ts req b).1 ∧
      uncrossed (processCancel i ts req b).1 := by
  unfold processCancel
  rcases hf : findRemoveBook b req.order_id with _ | ⟨found, b1⟩
  · exact ⟨hs, hu⟩
  · have hkeys := findRemoveBook_keys hf
    refine ⟨⟨?_, ?_⟩, ?_⟩
    · have hp := pairwise_keys_sublist (fun a b => b < a) hkeys.1 hs.1
      exact hp
    · have hp := pairwise_keys_sublist (fun a b => a < b) hkeys.2 hs.2
      exact hp
    · exact uncrossed_of_thinner hs.1 hs.2 hkeys.1 hkeys.2 hu

theorem processSingleOrder_book_inv (i : String) (req : Order) (b0 : Book)
    (hs : ladderSorted b0) (hu : uncrossed b0) :
    ladderSorted (processSingleOrder i req b0).1 ∧
      uncrossed (processSingleOrder i req b0).1 := by
  by_cases hi : req.instrument = i
  · rcases hA : req.action with _ | _ | _ | _
    · rcases hT : req.type with _ | _ | _
      · have h := processNewLimit_book_inv i req.timestamp
          { req with
            remaining_quantity := req.quantity
            cumulative_executed_quantity := 0
            status := OrderStatus.PENDING }
          { b0 with ids_traded_this_event := [] } hs
        simpa [processSingleOrder, hi, hA, hT] using h
      · have h := processNewMarket_book_inv i req.timestamp
          { req with
            remaining_quantity := req.quantity
            cumulative_executed_quantity := 0
            status := OrderStatus.PENDING }
          { b0 with ids_traded_this_event := [] } hs hu
        simpa [processSingleOrder, hi, hA, hT] using h
      · have h : ladderSorted ({ b0 with ids_traded_this_event := [] } : Book) ∧
            uncrossed ({ b0 with ids_traded_this_event := [] } : Book) := ⟨hs, hu⟩
        simpa [processSingleOrder, hi, hA, hT] using h
    · have h := processModify_book_inv i req.timestamp req
        { b0 with ids_traded_this_event := [] } hs hu
      simpa [processSingleOrder, hi, hA] using h
    · have h := processCancel_book_inv i req.timestamp req
        { b0 with ids_traded_this_event := [] } hs hu
      simpa [processSingleOrder, hi, hA] using h
    · have h : ladderSorted ({ b0 with ids_traded_this_event := [] } : Book) ∧
          uncrossed ({ b0 with ids_traded_this_event := [] } : Book) := ⟨hs, hu⟩
      simpa [processSingleOrder, hi, hA] using h
  · have h : ladderSorted b0 ∧ uncrossed b0 := ⟨hs, hu⟩
    simpa [processSingleOrder, hi] using h

theorem foldl_book_inv (i : String) :
    ∀ (events : List Order) (st : Book × List OutputRecord),
      ladderSorted st.1 → uncrossed st.1 →
      ladderSorted ((events.foldl
          (fun st e =>
            let r := processSingleOrder i e st.1
            (r.1, st.2 ++ r.2)) st).1) ∧
        uncrossed ((events.foldl
          (fun st e =>
            let r := processSingleOrder i e st.1
            (r.1, st.2 ++ r.2)) st).1) := by
  intro events
  induction events with
  | nil => intro st h1 h2; exact ⟨h1, h2⟩
  | cons e rest ih =>
    intro st h1 h2
    rw [List.foldl_cons]
    obtain ⟨ha, hb⟩ := processSingleOrder_book_inv i e st.1 h1 h2
    exact ih _ ha hb

/-- **C4**: after any sequence of input events is fully processed by a book
starting empty, the resulting book is never crossed: if both the bid ladder
and the ask ladder are non-empty, the best bid price is strictly below the
best ask price (every intermediate book of a run is itself the result of a
shorter run, so this covers the state after each single event). -/
theorem C4_no_crossed_book (i : String) (events : List Order) :
    uncrossed (runEvents i events).1 :=
  (foldl_book_inv i events (emptyBook, [])
    ⟨List.Pairwise.nil, List.Pairwise.nil⟩ trivial).2

theorem execSum_nil (id : Int) : execSum id [] = 0 := rfl

theorem execSum_cons (id : Int) (r : OutputRecord) (rs : List OutputRecord) :
    execSum id (r :: rs) =
      (if r.order_id = id then r.executed_this_event_quantity else 0) +
        execSum id rs := by
  unfold execSum
  by_cases h : r.order_id = id
  · rw [List.filter_cons_of_pos (by simpa using h)]
    simp [h]
  · rw [List.filter_cons_of_neg (by simpa using h)]
    simp [h]

theorem execSum_append (id : Int) (xs ys : List OutputRecord) :
    execSum id (xs ++ ys) = execSum id xs + execSum id ys := by
  induction xs with
  | nil => rw [List.nil_append, execSum_nil]; omega
  | cons r rs ih => rw [List.cons_append, execSum_cons, execSum_cons, ih]; omega

theorem execSum_zero_rec (id : Int) (out : List OutputRecord) (r : OutputRecord)
    (h : r.executed_this_event_quantity = 0) :
    execSum id (out ++ [r]) = execSum id out := by
  rw [execSum_append, execSum_cons, execSum_nil]
  by_cases hm : r.order_id = id <;> simp [hm, h]

theorem execSum_eq_zero (id : Int) (rs : List OutputRecord)
    (h : ∀ r ∈ rs, r.order_id ≠ id) : execSum id rs = 0 := by
  induction rs with
  | nil => rfl
  | cons r rest ih =>
    rw [execSum_cons, if_neg (h r (by simp))]
    simp only [Nat.zero_add]
    exact ih (fun r2 hr2 => h r2 (by simp [hr2]))

theorem ladderIds_cons (p : Int) (l : List Order) (rest : Ladder) :
    ladderIds ((p, l) :: rest) = l.map Order.order_id ++ ladderIds rest := by
  simp [ladderIds, ordersOfLadder]

theorem ladderIds_nil : ladderIds ([] : Ladder) = [] := rfl

theorem removeFirstById_perm :
    ∀ {l : List Order} {t : Int} {o : Order} {l1 : List Order},
      removeFirstById l t = some (o, l1) → List.Perm l (o :: l1) := by
  intro l
  induction l with
  | nil => intro t o l1 h; simp [removeFirstById] at h
  | cons hd rest ih =>
    intro t o l1 h
    unfold removeFirstById at h
    by_cases hid : hd.order_id = t
    · rw [if_pos hid] at h
      simp only [Option.some.injEq, Prod.mk.injEq] at h
      obtain ⟨rfl, rfl⟩ := h
      exact List.Perm.refl _
    · rw [if_neg hid] at h
      rcases hrec : removeFirstById rest t with _ | ⟨o2, l2⟩ <;> rw [hrec] at h
      · simp at h
      · simp only [Option.map, Option.bind, Option.some.injEq,
          Prod.mk.injEq] at h
        obtain ⟨rfl, rfl⟩ := h
        exact (List.Perm.cons hd (ih hrec)).trans (List.Perm.swap _ hd l2)

theorem findRemoveLadder_orders_perm :
    ∀ {lad : Ladder} {t : Int} {o : Order} {lad1 : Ladder},
      findRemoveLadder lad t = some (o, lad1) →
      List.Perm (ordersOfLadder lad) (o :: ordersOfLadder lad1) := by
  intro lad
  induction lad with
  | nil => intro t o lad1 h; simp [findRemoveLadder] at h
  | cons hd rest ih =>
    intro t o lad1 h
    rcases hd with ⟨p, l⟩
    unfold findRemoveLadder at h
    rcases hr : removeFirstById l t with _ | ⟨o2, l2⟩ <;> rw [hr] at h
    · rcases hrec : findRemoveLadder rest t with _ | ⟨o3, lad3⟩ <;> rw [hrec] at h
      · simp at h
      · simp only [Option.map, Option.bind, Option.some.injEq,
          Prod.mk.injEq] at h
        obtain ⟨rfl, rfl⟩ := h
        simp only [ordersOfLadder_cons]
        exact (List.Perm.append_left l (ih hrec)).trans List.perm_middle
    · simp only [Option.some.injEq, Prod.mk.injEq] at h
      obtain ⟨rfl, rfl⟩ := h
      have hp := removeFirstById_perm hr
      by_cases hl2 : l2 = []
      · rw [if_pos hl2]
        subst hl2
        simp only [ordersOfLadder_cons]
        exact (List.Perm.append_right (ordersOfLadder rest) hp)
      · rw [if_neg hl2]
        simp only [ordersOfLadder_cons]
        exact (List.Perm.append_right (ordersOfLadder rest) hp).trans
          (List.Perm.refl _)

theorem findRemoveBook_orders_perm {b : Book} {t : Int} {o : Order} {b1 : Book}
    (h : findRemoveBook b t = some (o, b1)) :
    List.Perm (bookOrders b) (o :: bookOrders b1) := by
  unfold findRemoveBook at h
  rcases hb : findRemoveLadder b.bids t with _ | ⟨o2, lad2⟩ <;> rw [hb] at h
  · rcases ha : findRemoveLadder b.asks t with _ | ⟨o3, lad3⟩ <;> rw [ha] at h
    · simp at h
    · simp only [Option.some.injEq, Prod.mk.injEq] at h
      obtain ⟨rfl, rfl⟩ := h
      have hp := findRemoveLadder_orders_perm ha
      unfold bookOrders
      exact (List.Perm.append_left (ordersOfLadder b.bids) hp).trans
        List.perm_middle
  · simp only [Option.some.injEq, Prod.mk.injEq] at h
    obtain ⟨rfl, rfl⟩ := h
    have hp := findRemoveLadder_orders_perm hb
    unfold bookOrders
    exact List.Perm.append_right (ordersOfLadder b.asks) hp

theorem bookIds_perm_of_orders {b : Book} {o : Order} {b1 : Book}
    (h : List.Perm (bookOrders b) (o :: bookOrders b1)) :
    List.Perm (bookIds b) (o.order_id :: bookIds b1) := by
  have := h.map Order.order_id
  simpa [bookIds] using this

theorem execSum_two_matchRecords (i : String) (ts : Nat) (id : Int)
    (o1 o2 : Order) (c1 c2 px1 px2 : Int) (q : Nat) :
    execSum id [matchRecord i o1 c1 q px1 ts, matchRecord i o2 c2 q px2 ts] =
      (if o1.order_id = id then q else 0) +
        (if o2.order_id = id then q else 0) := by
  rw [execSum_cons, execSum_cons, execSum_nil]
  simp only [matchRecord_order_id, matchRecord_exec_qty]
  omega

theorem matchStep_ledger (i : String) (ts : Nat)
    {bids asks bids1 asks1 : Ladder} {traded traded1 : List Int}
    {recs : List OutputRecord} (L : Int → Nat)
    (h : matchStep i ts bids asks traded = some (bids1, asks1, traded1, recs))
    (hnd : (ladderIds bids ++ ladderIds asks).Nodup)
    (hlive : ∀ o ∈ ordersOfLadder bids ++ ordersOfLadder asks,
      orderLive o ∧ L o.order_id = o.cumulative_executed_quantity) :
    List.IsSuffix (ladderIds bids1) (ladderIds bids) ∧
      List.IsSuffix (ladderIds asks1) (ladderIds asks) ∧
      (∀ r ∈ recs, r.order_id ∈ ladderIds bids ++ ladderIds asks) ∧
      (∀ o ∈ ordersOfLadder bids1 ++ ordersOfLadder asks1,
        orderLive o ∧
          L o.order_id + execSum o.order_id recs =
            o.cumulative_executed_quantity) := by
  rcases bids with _ | ⟨⟨bp, bl⟩, brest⟩
  · simp [matchStep] at h
  rcases asks with _ | ⟨⟨ap, al⟩, arest⟩
  · simp [matchStep] at h
  by_cases hlt : bp < ap
  · simp [matchStep, hlt] at h
  rcases bl with _ | ⟨buy, bt⟩
  · simp only [matchStep, if_neg hlt, Option.some.injEq, Prod.mk.injEq] at h
    obtain ⟨rfl, rfl, rfl, rfl⟩ := h
    refine ⟨?_, List.suffix_refl _, by simp, ?_⟩
    · rw [ladderIds_cons]
      simp only [List.map_nil, List.nil_append]
      exact List.suffix_refl _
    · intro o ho
      obtain ⟨hl1, hl2⟩ := hlive o (by simpa using ho)
      exact ⟨hl1, by rw [execSum_nil]; omega⟩
  rcases al with _ | ⟨sell, st⟩
  · simp only [matchStep, if_neg hlt, Option.some.injEq, Prod.mk.injEq] at h
    obtain ⟨rfl, rfl, rfl, rfl⟩ := h
    refine ⟨List.suffix_refl _, ?_, by simp, ?_⟩
    · rw [ladderIds_cons]
      simp only [List.map_nil, List.nil_append]
      exact List.suffix_refl _
    · intro o ho
      obtain ⟨hl1, hl2⟩ := hlive o (by simpa using ho)
      exact ⟨hl1, by rw [execSum_nil]; omega⟩
  · simp only [matchStep, if_neg hlt, Option.some.injEq, Prod.mk.injEq,
      recordMatch_agg, recordMatch_pas, recordMatch_recs, applyFill_rem] at h
    obtain ⟨h1, h2, h3, h4⟩ := h
    subst h1 h2 h3
    rw [ladderIds_cons, ladderIds_cons, List.map_cons, List.map_cons] at hnd
    simp only [List.cons_append] at hnd
    obtain ⟨hbuyNin, hndRest⟩ := List.nodup_cons.mp hnd
    rw [List.nodup_append] at hndRest
    obtain ⟨hndB2, hndSell, hdisj⟩ := hndRest
    obtain ⟨hsellNin, hndA2⟩ := List.nodup_cons.mp hndSell
    have hbs : buy.order_id ≠ sell.order_id := by
      intro he
      exact hbuyNin (by rw [he]; simp)
    have hidB : ∀ o : Order, o ∈ bt ∨ o ∈ ordersOfLadder brest →
        o.order_id ∈ bt.map Order.order_id ++ ladderIds brest := by
      intro o ho
      rcases ho with ho | ho
      · exact List.mem_append_left _ (List.mem_map_of_mem _ ho)
      · exact List.mem_append_right _ (mem_ladderIds.mpr ⟨o, ho, rfl⟩)
    have hidA : ∀ o : Order, o ∈ st ∨ o ∈ ordersOfLadder arest →
        o.order_id ∈ st.map Order.order_id ++ ladderIds arest := by
      intro o ho
      rcases ho with ho | ho
      · exact List.mem_append_left _ (List.mem_map_of_mem _ ho)
      · exact List.mem_append_right _ (mem_ladderIds.mpr ⟨o, ho, rfl⟩)
    have hneB : ∀ o : Order, o ∈ bt ∨ o ∈ ordersOfLadder brest →
        o.order_id ≠ buy.order_id ∧ o.order_id ≠ sell.order_id := by
      intro o ho
      have hm := hidB o ho
      constructor
      · intro he
        exact hbuyNin (by rw [← he]; exact List.mem_append_left _ hm)
      · intro he
        exact hdisj hm (by rw [he]; simp)
    have hneA : ∀ o : Order, o ∈ st ∨ o ∈ ordersOfLadder arest →
        o.order_id ≠ buy.order_id ∧ o.order_id ≠ sell.order_id := by
      intro o ho
      have hm := hidA o ho
      constructor
      · intro he
        exact hbuyNin (by
          rw [← he]
          exact List.mem_append_right _ (List.mem_cons_of_mem _ hm))
      · intro he
        rw [he] at hm
        exact hsellNin hm
    have hsumR : ∀ id : Int, execSum id recs =
        (if buy.order_id = id then
          min buy.remaining_quantity sell.remaining_quantity else 0) +
          (if sell.order_id = id then
            min buy.remaining_quantity sell.remaining_quantity else 0) := by
      intro id
      rw [← h4, execSum_two_matchRecords]
      simp only [applyFill_id]
    obtain ⟨⟨hbuySt, hbuyQ⟩, hbuyL⟩ := hlive buy (by simp)
    obtain ⟨⟨hsellSt, hsellQ⟩, hsellL⟩ := hlive sell (by simp)
    have hdqb : min buy.remaining_quantity sell.remaining_quantity ≤
        buy.remaining_quantity := Nat.min_le_left _ _
    have hdqs : min buy.remaining_quantity sell.remaining_quantity ≤
        sell.remaining_quantity := Nat.min_le_right _ _
    have hunB : ∀ o : Order, (o ∈ bt ∨ o ∈ ordersOfLadder brest) →
        orderLive o ∧ L o.order_id + execSum o.order_id recs =
          o.cumulative_executed_quantity := by
      intro o ho
      obtain ⟨hne1, hne2⟩ := hneB o ho
      have hmem : o ∈ ordersOfLadder ((bp, buy :: bt) :: brest) ++
          ordersOfLadder ((ap, sell :: st) :: arest) := by
        rcases ho with ho | ho <;> simp [ho]
      obtain ⟨hl1, hl2⟩ := hlive o hmem
      refine ⟨hl1, ?_⟩
      rw [hsumR, if_neg (fun he => hne1 he.symm),
        if_neg (fun he => hne2 he.symm)]
      omega
    have hunA : ∀ o : Order, (o ∈ st ∨ o ∈ ordersOfLadder arest) →
        orderLive o ∧ L o.order_id + execSum o.order_id recs =
          o.cumulative_executed_quantity := by
      intro o ho
      obtain ⟨hne1, hne2⟩ := hneA o ho
      have hmem : o ∈ ordersOfLadder ((bp, buy :: bt) :: brest) ++
          ordersOfLadder ((ap, sell :: st) :: arest) := by
        rcases ho with ho | ho <;> simp [ho]
      obtain ⟨hl1, hl2⟩ := hlive o hmem
      refine ⟨hl1, ?_⟩
      rw [hsumR, if_neg (fun he => hne1 he.symm),
        if_neg (fun he => hne2 he.symm)]
      omega
    refine ⟨?_, ?_, ?_, ?_⟩
    · by_cases hb0 : buy.remaining_quantity -
          min buy.remaining_quantity sell.remaining_quantity = 0
      · rw [if_pos hb0]
        by_cases hbt : bt = ([] : List Order)
        · rw [if_pos hbt]
          rw [ladderIds_cons, List.map_cons, hbt]
          exact ⟨[buy.order_id], by simp⟩
        · rw [if_neg hbt]
          rw [ladderIds_cons, ladderIds_cons, List.map_cons]
          exact ⟨[buy.order_id], by simp⟩
      · rw [if_neg hb0, if_neg (by simp)]
        rw [ladderIds_cons, ladderIds_cons, List.map_cons, List.map_cons,
          applyFill_id]
    · by_cases hs0 : sell.remaining_quantity -
          min buy.remaining_quantity sell.remaining_quantity = 0
      · rw [if_pos hs0]
        by_cases hst : st = ([] : List Order)
        · rw [if_pos hst]
          rw [ladderIds_cons, List.map_cons, hst]
          exact ⟨[sell.order_id], by simp⟩
        · rw [if_neg hst]
          rw [ladderIds_cons, ladderIds_cons, List.map_cons]
          exact ⟨[sell.order_id], by simp⟩
      · rw [if_neg hs0, if_neg (by simp)]
        rw [ladderIds_cons, ladderIds_cons, List.map_cons, List.map_cons,
          applyFill_id]
    · intro r hr
      rw [← h4] at hr
      rcases List.mem_cons.mp hr with rfl | hr
      · simp [ladderIds_cons]
      rcases List.mem_cons.mp hr with rfl | hr
      · simp [ladderIds_cons]
      · simp at hr
    · intro o ho
      rcases List.mem_append.mp ho with hob | hoa
      · rcases mem_orders_reinsert _ _ _ hob with hin | hin
        · by_cases hb0 : buy.remaining_quantity -
              min buy.remaining_quantity sell.remaining_quantity = 0
          · rw [if_pos hb0] at hin
            exact hunB o (Or.inl hin)
          · rw [if_neg hb0] at hin
            rcases List.mem_cons.mp hin with rfl | hin
            · refine ⟨⟨Or.inr ?_, ?_⟩, ?_⟩
              · rw [applyFill_status, if_neg hb0]
              · rw [applyFill_rem, applyFill_cum, applyFill_quantity]
                omega
              · rw [applyFill_id, applyFill_cum, hsumR, if_pos rfl,
                  if_neg (fun he => hbs he.symm)]
                omega
            · exact hunB o (Or.inl hin)
        · exact hunB o (Or.inr hin)
      · rcases mem_orders_reinsert _ _ _ hoa with hin | hin
        · by_cases hs0 : sell.remaining_quantity -
              min buy.remaining_quantity sell.remaining_quantity = 0
          · rw [if_pos hs0] at hin
            exact hunA o (Or.inl hin)
          · rw [if_neg hs0] at hin
            rcases List.mem_cons.mp hin with rfl | hin
            · refine ⟨⟨Or.inr ?_, ?_⟩, ?_⟩
              · rw [applyFill_status, if_neg hs0]
              · rw [applyFill_rem, applyFill_cum, applyFill_quantity]
                omega
              · rw [applyFill_id, applyFill_cum, hsumR, if_neg hbs,
                  if_pos rfl]
                omega
            · exact hunA o (Or.inl hin)
        · exact hunA o (Or.inr hin)

theorem matchLoop_ledger (i : String) (ts : Nat) :
    ∀ (fuel : Nat) (bids asks : Ladder) (traded : List Int) (L : Int → Nat),
      (ladderIds bids ++ ladderIds asks).Nodup →
      (∀ o ∈ ordersOfLadder bids ++ ordersOfLadder asks,
        orderLive o ∧ L o.order_id = o.cumulative_executed_quantity) →
      List.IsSuffix (ladderIds (matchLoop i fuel ts bids asks traded).1)
          (ladderIds bids) ∧
        List.IsSuffix (ladderIds (matchLoop i fuel ts bids asks traded).2.1)
          (ladderIds asks) ∧
        (∀ r ∈ (matchLoop i fuel ts bids asks traded).2.2.2,
          r.order_id ∈ ladderIds bids ++ ladderIds asks) ∧
        (∀ o ∈ ordersOfLadder (matchLoop i fuel ts bids asks traded).1 ++
            ordersOfLadder (matchLoop i fuel ts bids asks traded).2.1,
          orderLive o ∧
            L o.order_id +
              execSum o.order_id (matchLoop i fuel ts bids asks traded).2.2.2 =
              o.cumulative_executed_quantity) := by
  intro fuel
  induction fuel with
  | zero =>
    intro bids asks traded L hnd hlive
    refine ⟨List.suffix_refl _, List.suffix_refl _, by simp [matchLoop], ?_⟩
    intro o ho
    obtain ⟨h1, h2⟩ := hlive o ho
    have he : execSum o.order_id (matchLoop i 0 ts bids asks traded).2.2.2 = 0 :=
      rfl
    exact ⟨h1, by rw [he]; omega⟩
  | succ f ih =>
    intro bids asks traded L hnd hlive
    rcases hstep : matchStep i ts bids asks traded with _ | ⟨b1, a1, t1, recs⟩
    · rw [matchLoop, hstep]
      refine ⟨List.suffix_refl _, List.suffix_refl _, by simp, ?_⟩
      intro o ho
      obtain ⟨h1, h2⟩ := hlive o ho
      exact ⟨h1, by rw [execSum_nil]; omega⟩
    · obtain ⟨hsb, hsa, hrid, hinvStep⟩ := matchStep_ledger i ts L hstep hnd hlive
      have hnd1 : (ladderIds b1 ++ ladderIds a1).Nodup := by
        have hsub : List.Sublist (ladderIds b1 ++ ladderIds a1)
            (ladderIds bids ++ ladderIds asks) :=
          List.Sublist.append hsb.sublist hsa.sublist
        exact List.Nodup.sublist hsub hnd
      obtain ⟨hsb2, hsa2, hrid2, hinv2⟩ :=
        ih b1 a1 t1 (fun id => L id + execSum id recs) hnd1 hinvStep
      rw [matchLoop, hstep]
      refine ⟨hsb2.trans hsb, hsa2.trans hsa, ?_, ?_⟩
      · intro r hr
        rcases List.mem_append.mp hr with hr | hr
        · exact hrid r hr
        · rcases List.mem_append.mp (hrid2 r hr) with h2 | h2
          · exact List.mem_append_left _ (hsb.sublist.subset h2)
          · exact List.mem_append_right _ (hsa.sublist.subset h2)
      · intro o ho
        obtain ⟨h1, h2⟩ := hinv2 o ho
        refine ⟨h1, ?_⟩
        rw [execSum_append]
        omega

theorem sweepStep_ledger (i : String) (ts : Nat) {agg agg1 : Order}
    {lad lad1 : Ladder} {traded traded1 : List Int} {recs : List OutputRecord}
    (L : Int → Nat)
    (h : sweepStep i ts agg lad traded = some (agg1, lad1, traded1, recs))
    (hnd : (ladderIds lad).Nodup)
    (hagg : agg.order_id ∉ ladderIds lad)
    (hlive : ∀ o ∈ ordersOfLadder lad,
      orderLive o ∧ L o.order_id = o.cumulative_executed_quantity) :
    agg1.order_id = agg.order_id ∧
      List.IsSuffix (ladderIds lad1) (ladderIds lad) ∧
      (∀ r ∈ recs, r.order_id = agg.order_id ∨ r.order_id ∈ ladderIds lad) ∧
      (∀ o ∈ ordersOfLadder lad1,
        orderLive o ∧
          L o.order_id + execSum o.order_id recs =
            o.cumulative_executed_quantity) := by
  by_cases h0 : agg.remaining_quantity = 0
  · simp [sweepStep, h0] at h
  rcases lad with _ | ⟨⟨p, l⟩, rest⟩
  · simp [sweepStep, h0] at h
  rcases l with _ | ⟨resting, tail⟩
  · simp only [sweepStep, if_neg h0, Option.some.injEq, Prod.mk.injEq] at h
    obtain ⟨rfl, rfl, rfl, rfl⟩ := h
    refine ⟨rfl, ?_, by simp, ?_⟩
    · rw [ladderIds_cons]
      simp only [List.map_nil, List.nil_append]
      exact List.suffix_refl _
    · intro o ho
      obtain ⟨h1, h2⟩ := hlive o (by simpa using ho)
      exact ⟨h1, by rw [execSum_nil]; omega⟩
  · simp only [sweepStep, if_neg h0, Option.some.injEq, Prod.mk.injEq,
      recordMatch_agg, recordMatch_pas, recordMatch_recs, applyFill_rem] at h
    obtain ⟨h1, h2, h3, h4⟩ := h
    subst h1 h2 h3
    rw [ladderIds_cons, List.map_cons] at hnd hagg
    simp only [List.cons_append] at hnd hagg
    obtain ⟨hrNin, hnd2⟩ := List.nodup_cons.mp hnd
    have har : agg.order_id ≠ resting.order_id := by
      intro he
      exact hagg (by rw [he]; simp)
    have hne : ∀ o : Order, o ∈ tail ∨ o ∈ ordersOfLadder rest →
        o.order_id ≠ agg.order_id ∧ o.order_id ≠ resting.order_id := by
      intro o ho
      have hm : o.order_id ∈ tail.map Order.order_id ++ ladderIds rest := by
        rcases ho with ho | ho
        · exact List.mem_append_left _ (List.mem_map_of_mem _ ho)
        · exact List.mem_append_right _ (mem_ladderIds.mpr ⟨o, ho, rfl⟩)
      constructor
      · intro he
        exact hagg (by rw [← he]; exact List.mem_cons_of_mem _ hm)
      · intro he
        rw [he] at hm
        exact hrNin hm
    have hsumR : ∀ id : Int, execSum id recs =
        (if agg.order_id = id then
          min agg.remaining_quantity resting.remaining_quantity else 0) +
          (if resting.order_id = id then
            min agg.remaining_quantity resting.remaining_quantity else 0) := by
      intro id
      rw [← h4, execSum_two_matchRecords]
      simp only [applyFill_id]
    obtain ⟨⟨hrSt, hrQ⟩, hrL⟩ := hlive resting (by simp)
    have hdqr : min agg.remaining_quantity resting.remaining_quantity ≤
        resting.remaining_quantity := Nat.min_le_right _ _
    have hun : ∀ o : Order, (o ∈ tail ∨ o ∈ ordersOfLadder rest) →
        orderLive o ∧ L o.order_id + execSum o.order_id recs =
          o.cumulative_executed_quantity := by
      intro o ho
      obtain ⟨hne1, hne2⟩ := hne o ho
      have hmem : o ∈ ordersOfLadder ((p, resting :: tail) :: rest) := by
        rcases ho with ho | ho <;> simp [ho]
      obtain ⟨hl1, hl2⟩ := hlive o hmem
      refine ⟨hl1, ?_⟩
      rw [hsumR, if_neg (fun he => hne1 he.symm),
        if_neg (fun he => hne2 he.symm)]
      omega
    refine ⟨applyFill_id _ _, ?_, ?_, ?_⟩
    · by_cases hr0 : resting.remaining_quantity -
          min agg.remaining_quantity resting.remaining_quantity = 0
      · rw [if_pos hr0]
        by_cases ht : tail = ([] : List Order)
        · rw [if_pos ht]
          rw [ladderIds_cons, List.map_cons, ht]
          exact ⟨[resting.order_id], by simp⟩
        · rw [if_neg ht]
          rw [ladderIds_cons, ladderIds_cons, List.map_cons]
          exact ⟨[resting.order_id], by simp⟩
      · rw [if_neg hr0, if_neg (by simp)]
        rw [ladderIds_cons, ladderIds_cons, List.map_cons, List.map_cons,
          applyFill_id]
    · intro r hr
      rw [← h4] at hr
      rcases List.mem_cons.mp hr with rfl | hr
      · left
        rw [matchRecord_order_id, applyFill_id]
      rcases List.mem_cons.mp hr with rfl | hr
      · right
        simp [ladderIds_cons]
      · simp at hr
    · intro o ho
      rcases mem_orders_reinsert _ _ _ ho with hin | hin
      · by_cases hr0 : resting.remaining_quantity -
            min agg.remaining_quantity resting.remaining_quantity = 0
        · rw [if_pos hr0] at hin
          exact hun o (Or.inl hin)
        · rw [if_neg hr0] at hin
          rcases List.mem_cons.mp hin with rfl | hin
          · refine ⟨⟨Or.inr ?_, ?_⟩, ?_⟩
            · rw [applyFill_status, if_neg hr0]
            · rw [applyFill_rem, applyFill_cum, applyFill_quantity]
              omega
            · rw [applyFill_id, applyFill_cum, hsumR, if_neg har, if_pos rfl]
              omega
          · exact hun o (Or.inl hin)
      · exact hun o (Or.inr hin)

theorem sweepLoop_ledger (i : String) (ts : Nat) :
    ∀ (fuel : Nat) (agg : Order) (lad : Ladder) (traded : List Int)
      (L : Int → Nat),
      (ladderIds lad).Nodup →
      agg.order_id ∉ ladderIds lad →
      (∀ o ∈ ordersOfLadder lad,
        orderLive o ∧ L o.order_id = o.cumulative_executed_quantity) →
      List.IsSuffix (ladderIds (sweepLoop i fuel ts agg lad traded).2.1)
          (ladderIds lad) ∧
        (∀ r ∈ (sweepLoop i fuel ts agg lad traded).2.2.2,
          r.order_id = agg.order_id ∨ r.order_id ∈ ladderIds lad) ∧
        (∀ o ∈ ordersOfLadder (sweepLoop i fuel ts agg lad traded).2.1,
          orderLive o ∧
            L o.order_id +
              execSum o.order_id (sweepLoop i fuel ts agg lad traded).2.2.2 =
              o.cumulative_executed_quantity) := by
  intro fuel
  induction fuel with
  | zero =>
    intro agg lad traded L hnd hagg hlive
    refine ⟨List.suffix_refl _, by simp [sweepLoop], ?_⟩
    intro o ho
    obtain ⟨h1, h2⟩ := hlive o ho
    have he : execSum o.order_id (sweepLoop i 0 ts agg lad traded).2.2.2 = 0 :=
      rfl
    exact ⟨h1, by rw [he]; omega⟩
  | succ f ih =>
    intro agg lad traded L hnd hagg hlive
    rcases hstep : sweepStep i ts agg lad traded with _ | ⟨a1, l1, t1, recs⟩
    · rw [sweepLoop, hstep]
      refine ⟨List.suffix_refl _, by simp, ?_⟩
      intro o ho
      obtain ⟨h1, h2⟩ := hlive o ho
      exact ⟨h1, by rw [execSum_nil]; omega⟩
    · obtain ⟨haid, hsl, hrid, hinvStep⟩ :=
        sweepStep_ledger i ts L hstep hnd hagg hlive
      have hnd1 : (ladderIds l1).Nodup := List.Nodup.sublist hsl.sublist hnd
      have hagg1 : a1.order_id ∉ ladderIds l1 := by
        rw [haid]
        intro hmem
        exact hagg (hsl.sublist.subset hmem)
      obtain ⟨hsl2, hrid2, hinv2⟩ :=
        ih a1 l1 t1 (fun id => L id + execSum id recs) hnd1 hagg1 hinvStep
      rw [sweepLoop, hstep]
      refine ⟨hsl2.trans hsl, ?_, ?_⟩
      · intro r hr
        rcases List.mem_append.mp hr with hr | hr
        · exact hrid r hr
        · rcases hrid2 r hr with h2 | h2
          · rw [haid] at h2
            exact Or.inl h2
          · exact Or.inr (hsl.sublist.subset h2)
      · intro o ho
        obtain ⟨h1, h2⟩ := hinv2 o ho
        refine ⟨h1, ?_⟩
        rw [execSum_append]
        omega

theorem bookIds_eq (b : Book) :
    bookIds b = ladderIds b.bids ++ ladderIds b.asks := by
  simp [bookIds, bookOrders, ladderIds]

theorem matchOrders_ledger (i : String) (ts : Nat) (b : Book)
    (out : List OutputRecord)
    (hnd : (bookIds b).Nodup)
    (hlive : ∀ o ∈ bookOrders b,
      orderLive o ∧ execSum o.order_id out = o.cumulative_executed_quantity) :
    (∀ o ∈ bookOrders (matchOrders i ts b).1,
      orderLive o ∧
        execSum o.order_id (out ++ (matchOrders i ts b).2) =
          o.cumulative_executed_quantity) ∧
      (bookIds (matchOrders i ts b).1).Nodup ∧
      (∀ id ∈ bookIds (matchOrders i ts b).1, id ∈ bookIds b) ∧
      (∀ r ∈ (matchOrders i ts b).2, r.order_id ∈ bookIds b) := by
  rw [bookIds_eq] at hnd
  rcases hL : matchLoop i (ladderWeight b.bids + ladderWeight b.asks) ts b.bids
      b.asks b.ids_traded_this_event with ⟨Lb, La, Lt, Lr⟩
  have hM : matchOrders i ts b = (Book.mk Lb La Lt, Lr) := by
    unfold matchOrders
    dsimp only
    rw [hL]
  obtain ⟨hsb, hsa, hrid, hinv⟩ := matchLoop_ledger i ts
    (ladderWeight b.bids + ladderWeight b.asks) b.bids b.asks
    b.ids_traded_this_event (fun id => execSum id out) hnd
    (fun o ho => hlive o ho)
  rw [hL] at hsb hsa hrid hinv
  dsimp only at hsb hsa hrid hinv
  rw [hM]
  dsimp only
  refine ⟨?_, ?_, ?_, ?_⟩
  · intro o ho
    obtain ⟨h1, h2⟩ := hinv o ho
    refine ⟨h1, ?_⟩
    rw [execSum_append]
    omega
  · rw [bookIds_eq]
    exact List.Nodup.sublist (List.Sublist.append hsb.sublist hsa.sublist) hnd
  · intro id hid
    rw [bookIds_eq] at hid ⊢
    rcases List.mem_append.mp hid with hid | hid
    · exact List.mem_append_left _ (hsb.sublist.subset hid)
    · exact List.mem_append_right _ (hsa.sublist.subset hid)
  · intro r hr
    rw [bookIds_eq]
    exact hrid r hr

theorem insert_book_perm (m : Order) (b1 : Book) :
    List.Perm
      (bookOrders (if m.side = Side.BUY
        then { b1 with bids := insertBid b1.bids m.price m }
        else { b1 with asks := insertAsk b1.asks m.price m }))
      (m :: bookOrders b1) := by
  by_cases hside : m.side = Side.BUY
  · rw [if_pos hside]
    unfold bookOrders
    exact List.Perm.append_right _ (insertBid_orders_perm b1.bids m.price m)
  · rw [if_neg hside]
    unfold bookOrders
    exact (List.Perm.append_left _
      (insertAsk_orders_perm b1.asks m.price m)).trans List.perm_middle

theorem newLimit_core (i : String) (ts : Nat) (o : Order) (b b2 : Book)
    (out : List OutputRecord)
    (hperm : List.Perm (bookOrders b2) (o :: bookOrders b))
    (hnd : (bookIds b).Nodup)
    (hfresh : o.order_id ∉ bookIds b)
    (holive : orderLive o)
    (hoL : execSum o.order_id out = o.cumulative_executed_quantity)
    (hlive : ∀ x ∈ bookOrders b,
      orderLive x ∧ execSum x.order_id out = x.cumulative_executed_quantity) :
    (∀ x ∈ bookOrders (matchOrders i ts b2).1,
      orderLive x ∧
        execSum x.order_id
            (out ++ (addInitialOutputRecord i o OrderStatus.PENDING 0 0 0 ts ::
              (matchOrders i ts b2).2)) =
          x.cumulative_executed_quantity) ∧
      (bookIds (matchOrders i ts b2).1).Nodup ∧
      (∀ id ∈ bookIds (matchOrders i ts b2).1,
        id = o.order_id ∨ id ∈ bookIds b) ∧
      (∀ id, id ≠ o.order_id → id ∉ bookIds b →
        execSum id
            (out ++ (addInitialOutputRecord i o OrderStatus.PENDING 0 0 0 ts ::
              (matchOrders i ts b2).2)) =
          execSum id out) := by
  have hidperm : List.Perm (bookIds b2) (o.order_id :: bookIds b) := by
    have hm := hperm.map Order.order_id
    simpa [bookIds] using hm
  have hnd2 : (bookIds b2).Nodup :=
    (hidperm.nodup_iff).mpr (List.nodup_cons.mpr ⟨hfresh, hnd⟩)
  have hlive2 : ∀ x ∈ bookOrders b2,
      orderLive x ∧ execSum x.order_id out = x.cumulative_executed_quantity := by
    intro x hx
    rcases List.mem_cons.mp (hperm.subset hx) with rfl | hx2
    · exact ⟨holive, hoL⟩
    · exact hlive x hx2
  obtain ⟨hA, hB, hC, hD⟩ := matchOrders_ledger i ts b2 out hnd2 hlive2
  have hpend : ∀ id : Int,
      execSum id
          (out ++ (addInitialOutputRecord i o OrderStatus.PENDING 0 0 0 ts ::
            (matchOrders i ts b2).2)) =
        execSum id out + execSum id (matchOrders i ts b2).2 := by
    intro id
    have h0 : execSum id
        [addInitialOutputRecord i o OrderStatus.PENDING 0 0 0 ts] = 0 := by
      simp [execSum_cons, execSum_nil, addInitialOutputRecord]
    rw [List.append_cons, execSum_append, execSum_append, h0]
    omega
  refine ⟨?_, hB, ?_, ?_⟩
  · intro x hx
    obtain ⟨h1, h2⟩ := hA x hx
    rw [execSum_append] at h2
    exact ⟨h1, by rw [hpend]; omega⟩
  · intro id hid
    exact List.mem_cons.mp (hidperm.subset (hC id hid))
  · intro id hne hnin
    rw [hpend]
    have hz : execSum id (matchOrders i ts b2).2 = 0 := by
      apply execSum_eq_zero
      intro r hr he
      have hmem := hD r hr
      rw [he] at hmem
      rcases List.mem_cons.mp (hidperm.subset hmem) with h | h
      · exact hne h
      · exact hnin h
    omega

theorem processNewLimit_ledger (i : String) (ts : Nat) (o : Order) (b : Book)
    (out : List OutputRecord)
    (hnd : (bookIds b).Nodup)
    (hfresh : o.order_id ∉ bookIds b)
    (holive : orderLive o)
    (hoL : execSum o.order_id out = o.cumulative_executed_quantity)
    (hlive : ∀ x ∈ bookOrders b,
      orderLive x ∧ execSum x.order_id out = x.cumulative_executed_quantity) :
    (∀ x ∈ bookOrders (processNewLimit i ts o b).1,
      orderLive x ∧
        execSum x.order_id (out ++ (processNewLimit i ts o b).2) =
          x.cumulative_executed_quantity) ∧
      (bookIds (processNewLimit i ts o b).1).Nodup ∧
      (∀ id ∈ bookIds (processNewLimit i ts o b).1,
        id = o.order_id ∨ id ∈ bookIds b) ∧
      (∀ id, id ≠ o.order_id → id ∉ bookIds b →
        execSum id (out ++ (processNewLimit i ts o b).2) = execSum id out) := by
  have hcore := newLimit_core i ts o b
    (if o.side = Side.BUY then { b with bids := insertBid b.bids o.price o }
      else { b with asks := insertAsk b.asks o.price o })
    out (insert_book_perm o b) hnd hfresh holive hoL hlive
  unfold processNewLimit
  dsimp only
  exact hcore

theorem marketSweep_ledger (i : String) (ts : Nat) (o : Order) (b : Book)
    (out : List OutputRecord)
    (hnd : (bookIds b).Nodup)
    (hfresh : o.order_id ∉ bookIds b)
    (hlive : ∀ x ∈ bookOrders b,
      orderLive x ∧ execSum x.order_id out = x.cumulative_executed_quantity) :
    (∀ x ∈ bookOrders (marketSweep i ts o b).2.1,
      orderLive x ∧
        execSum x.order_id (out ++ (marketSweep i ts o b).2.2) =
          x.cumulative_executed_quantity) ∧
      (bookIds (marketSweep i ts o b).2.1).Nodup ∧
      (∀ id ∈ bookIds (marketSweep i ts o b).2.1, id ∈ bookIds b) ∧
      (∀ r ∈ (marketSweep i ts o b).2.2,
        r.order_id = o.order_id ∨ r.order_id ∈ bookIds b) := by
  rw [bookIds_eq] at hnd hfresh
  have hsplit := List.nodup_append.mp hnd
  obtain ⟨hndB, hndA, hdisj⟩ := hsplit
  have hfA : o.order_id ∉ ladderIds b.asks :=
    fun hm => hfresh (List.mem_append_right _ hm)
  have hfB : o.order_id ∉ ladderIds b.bids :=
    fun hm => hfresh (List.mem_append_left _ hm)
  unfold marketSweep
  dsimp only
  by_cases hside : o.side = Side.BUY
  · rw [if_pos hside]
    dsimp only
    obtain ⟨hsl, hrid, hinv⟩ := sweepLoop_ledger i ts (sweepFuel b.asks) o
      b.asks b.ids_traded_this_event (fun id => execSum id out) hndA hfA
      (fun x hx => hlive x (List.mem_append_right _ hx))
    have hz : ∀ id : Int, id ≠ o.order_id → id ∉ ladderIds b.asks →
        execSum id (sweepLoop i (sweepFuel b.asks) ts o b.asks
          b.ids_traded_this_event).2.2.2 = 0 := by
      intro id hne hnin
      apply execSum_eq_zero
      intro r hr he
      rcases hrid r hr with h | h
      · rw [he] at h
        exact hne h
      · rw [he] at h
        exact hnin h
    refine ⟨?_, ?_, ?_, ?_⟩
    · intro x hx
      rcases List.mem_append.mp hx with hxb | hxa
      · obtain ⟨h1, h2⟩ := hlive x (List.mem_append_left _ hxb)
        refine ⟨h1, ?_⟩
        rw [execSum_append]
        have hxid : x.order_id ∈ ladderIds b.bids :=
          mem_ladderIds.mpr ⟨x, hxb, rfl⟩
        rw [hz x.order_id (fun he => hfB (he ▸ hxid))
          (fun hm => hdisj hxid hm)]
        omega
      · obtain ⟨h1, h2⟩ := hinv x hxa
        refine ⟨h1, ?_⟩
        rw [execSum_append]
        omega
    · rw [bookIds_eq]
      dsimp only
      exact List.Nodup.sublist
        (List.Sublist.append (List.Sublist.refl _) hsl.sublist) hnd
    · intro id hid
      rw [bookIds_eq] at hid ⊢
      dsimp only at hid
      rcases List.mem_append.mp hid with h | h
      · exact List.mem_append_left _ h
      · exact List.mem_append_right _ (hsl.sublist.subset h)
    · intro r hr
      rcases hrid r hr with h | h
      · exact Or.inl h
      · refine Or.inr ?_
        rw [bookIds_eq]
        exact List.mem_append_right _ h
  · rw [if_neg hside]
    dsimp only
    obtain ⟨hsl, hrid, hinv⟩ := sweepLoop_ledger i ts (sweepFuel b.bids) o
      b.bids b.ids_traded_this_event (fun id => execSum id out) hndB hfB
      (fun x hx => hlive x (List.mem_append_left _ hx))
    have hz : ∀ id : Int, id ≠ o.order_id → id ∉ ladderIds b.bids →
        execSum id (sweepLoop i (sweepFuel b.bids) ts o b.bids
          b.ids_traded_this_event).2.2.2 = 0 := by
      intro id hne hnin
      apply execSum_eq_zero
      intro r hr he
      rcases hrid r hr with h | h
      · rw [he] at h
        exact hne h
      · rw [he] at h
        exact hnin h
    refine ⟨?_, ?_, ?_, ?_⟩
    · intro x hx
      rcases List.mem_append.mp hx with hxb | hxa
      · obtain ⟨h1, h2⟩ := hinv x hxb
        refine ⟨h1, ?_⟩
        rw [execSum_append]
        omega
      · obtain ⟨h1, h2⟩ := hlive x (List.mem_append_right _ hxa)
        refine ⟨h1, ?_⟩
        rw [execSum_append]
        have hxid : x.order_id ∈ ladderIds b.asks :=
          mem_ladderIds.mpr ⟨x, hxa, rfl⟩
        rw [hz x.order_id (fun he => hfA (he ▸ hxid))
          (fun hm => hdisj hm hxid)]
        omega
    · rw [bookIds_eq]
      dsimp only
      exact List.Nodup.sublist
        (List.Sublist.append hsl.sublist (List.Sublist.refl _)) hnd
    · intro id hid
      rw [bookIds_eq] at hid ⊢
      dsimp only at hid
      rcases List.mem_append.mp hid with h | h
      · exact List.mem_append_left _ (hsl.sublist.subset h)
      · exact List.mem_append_right _ h
    · intro r hr
      rcases hrid r hr with h | h
      · exact Or.inl h
      · refine Or.inr ?_
        rw [bookIds_eq]
        exact List.mem_append_left _ h

theorem processNewMarket_ledger (i : String) (ts : Nat) (o : Order) (b : Book)
    (out : List OutputRecord)
    (hnd : (bookIds b).Nodup)
    (hfresh : o.order_id ∉ bookIds b)
    (hlive : ∀ x ∈ bookOrders b,
      orderLive x ∧ execSum x.order_id out = x.cumulative_executed_quantity) :
    (∀ x ∈ bookOrders (processNewMarket i ts o b).1,
      orderLive x ∧
        execSum x.order_id (out ++ (processNewMarket i ts o b).2) =
          x.cumulative_executed_quantity) ∧
      (bookIds (processNewMarket i ts o b).1).Nodup ∧
      (∀ id ∈ bookIds (processNewMarket i ts o b).1, id ∈ bookIds b) ∧
      (∀ id, id ≠ o.order_id → id ∉ bookIds b →
        execSum id (out ++ (processNewMarket i ts o b).2) = execSum id out) := by
  obtain ⟨hA, hB, hC, hD⟩ := marketSweep_ledger i ts o b out hnd hfresh hlive
  have hz : ∀ id : Int, id ≠ o.order_id → id ∉ bookIds b →
      execSum id (marketSweep i ts o b).2.2 = 0 := by
    intro id hne hnin
    apply execSum_eq_zero
    intro r hr he
    rcases hD r hr with h | h
    · rw [he] at h
      exact hne h
    · rw [he] at h
      exact hnin h
  have hexec : (addInitialOutputRecord i (marketSweep i ts o b).1
      OrderStatus.REJECTED 0 0 0 ts).executed_this_event_quantity = 0 := by
    simp [addInitialOutputRecord]
  unfold processNewMarket
  dsimp only
  by_cases hc : (marketSweep i ts o b).1.cumulative_executed_quantity = 0 ∧
      o.remaining_quantity > 0
  · rw [if_pos hc]
    dsimp only
    refine ⟨?_, hB, hC, ?_⟩
    · intro x hx
      obtain ⟨h1, h2⟩ := hA x hx
      refine ⟨h1, ?_⟩
      rw [← List.append_assoc, execSum_zero_rec _ _ _ hexec]
      exact h2
    · intro id hne hnin
      rw [← List.append_assoc, execSum_zero_rec _ _ _ hexec, execSum_append,
        hz id hne hnin]
      omega
  · rw [if_neg hc]
    dsimp only
    refine ⟨hA, hB, hC, ?_⟩
    intro id hne hnin
    rw [execSum_append, hz id hne hnin]
    omega

theorem modifyMarketSweep_ledger (i : String) (ts : Nat) (m : Order) (b1 : Book)
    (out : List OutputRecord)
    (hnd : (bookIds b1).Nodup)
    (hfresh : m.order_id ∉ bookIds b1)
    (hlive : ∀ x ∈ bookOrders b1,
      orderLive x ∧ execSum x.order_id out = x.cumulative_executed_quantity) :
    (∀ x ∈ bookOrders (modifyMarketSweep i ts m b1).1,
      orderLive x ∧
        execSum x.order_id (out ++ (modifyMarketSweep i ts m b1).2) =
          x.cumulative_executed_quantity) ∧
      (bookIds (modifyMarketSweep i ts m b1).1).Nodup ∧
      (∀ id ∈ bookIds (modifyMarketSweep i ts m b1).1, id ∈ bookIds b1) ∧
      (∀ id, id ≠ m.order_id → id ∉ bookIds b1 →
        execSum id (out ++ (modifyMarketSweep i ts m b1).2) =
          execSum id out) := by
  obtain ⟨hA, hB, hC, hD⟩ := marketSweep_ledger i ts m b1 out hnd hfresh hlive
  have hz : ∀ id : Int, id ≠ m.order_id → id ∉ bookIds b1 →
      execSum id (marketSweep i ts m b1).2.2 = 0 := by
    intro id hne hnin
    apply execSum_eq_zero
    intro r hr he
    rcases hD r hr with h | h
    · rw [he] at h
      exact hne h
    · rw [he] at h
      exact hnin h
  have hexec : (addInitialOutputRecord i (marketSweep i ts m b1).1
      OrderStatus.REJECTED 0 0 0 ts).executed_this_event_quantity = 0 := by
    simp [addInitialOutputRecord]
  unfold modifyMarketSweep
  dsimp only
  by_cases hc : (marketSweep i ts m b1).1.cumulative_executed_quantity =
      m.cumulative_executed_quantity ∧ m.remaining_quantity > 0
  · rw [if_pos hc]
    dsimp only
    refine ⟨?_, hB, hC, ?_⟩
    · intro x hx
      obtain ⟨h1, h2⟩ := hA x hx
      refine ⟨h1, ?_⟩
      rw [← List.append_assoc, execSum_zero_rec _ _ _ hexec]
      exact h2
    · intro id hne hnin
      rw [← List.append_assoc, execSum_zero_rec _ _ _ hexec, execSum_append,
        hz id hne hnin]
      omega
  · rw [if_neg hc]
    dsimp only
    refine ⟨hA, hB, hC, ?_⟩
    intro id hne hnin
    rw [execSum_append, hz id hne hnin]
    omega

theorem execSum_append_addInitial (id : Int) (out : List OutputRecord)
    (i : String) (o : Order) (st : OrderStatus) (ts : Nat) :
    execSum id (out ++ [addInitialOutputRecord i o st 0 0 0 ts]) =
      execSum id out := by
  apply execSum_zero_rec
  simp [addInitialOutputRecord]

theorem execSum_modifyPendingExtra (i : String) (ts : Nat) (bAfter : Book)
    (m : Order) (id : Int) :
    execSum id (modifyPendingExtra i ts bAfter m) = 0 := by
  unfold modifyPendingExtra
  rcases findRestingAfterModify bAfter m.side m.price m.order_id with _ | ro
  · rfl
  · dsimp only
    by_cases htr : m.order_id ∈ bAfter.ids_traded_this_event
    · rw [if_pos htr]
      rfl
    · rw [if_neg htr]
      simp [execSum_cons, execSum_nil, addInitialOutputRecord]

theorem modifyLimitReinsert_ledger (i : String) (ts : Nat) (m : Order)
    (b1 : Book) (out : List OutputRecord)
    (hnd : (bookIds b1).Nodup)
    (hfresh : m.order_id ∉ bookIds b1)
    (hmlive : orderLive m)
    (hmL : execSum m.order_id out = m.cumulative_executed_quantity)
    (hlive : ∀ x ∈ bookOrders b1,
      orderLive x ∧ execSum x.order_id out = x.cumulative_executed_quantity) :
    (∀ x ∈ bookOrders (modifyLimitReinsert i ts m b1).1,
      orderLive x ∧
        execSum x.order_id (out ++ (modifyLimitReinsert i ts m b1).2) =
          x.cumulative_executed_quantity) ∧
      (bookIds (modifyLimitReinsert i ts m b1).1).Nodup ∧
      (∀ id ∈ bookIds (modifyLimitReinsert i ts m b1).1,
        id = m.order_id ∨ id ∈ bookIds b1) ∧
      (∀ id, id ≠ m.order_id → id ∉ bookIds b1 →
        execSum id (out ++ (modifyLimitReinsert i ts m b1).2) =
          execSum id out) := by
  have hperm := insert_book_perm m b1
  have hidperm : List.Perm
      (bookIds (if m.side = Side.BUY
        then { b1 with bids := insertBid b1.bids m.price m }
        else { b1 with asks := insertAsk b1.asks m.price m }))
      (m.order_id :: bookIds b1) := by
    have hm := hperm.map Order.order_id
    simpa [bookIds] using hm
  have hnd2 :
      (bookIds (if m.side = Side.BUY
        then { b1 with bids := insertBid b1.bids m.price m }
        else { b1 with asks := insertAsk b1.asks m.price m })).Nodup :=
    (hidperm.nodup_iff).mpr (List.nodup_cons.mpr ⟨hfresh, hnd⟩)
  have hlive2 : ∀ x ∈ bookOrders (if m.side = Side.BUY
      then { b1 with bids := insertBid b1.bids m.price m }
      else { b1 with asks := insertAsk b1.asks m.price m }),
      orderLive x ∧ execSum x.order_id out = x.cumulative_executed_quantity := by
    intro x hx
    rcases List.mem_cons.mp (hperm.subset hx) with rfl | hx2
    · exact ⟨hmlive, hmL⟩
    · exact hlive x hx2
  obtain ⟨hA, hB, hC, hD⟩ := matchOrders_ledger i ts _ out hnd2 hlive2
  unfold modifyLimitReinsert
  dsimp only
  have hout : ∀ id : Int,
      execSum id (out ++
          ((matchOrders i ts (if m.side = Side.BUY
            then { b1 with bids := insertBid b1.bids m.price m }
            else { b1 with asks := insertAsk b1.asks m.price m })).2 ++
            modifyPendingExtra i ts
              (matchOrders i ts (if m.side = Side.BUY
                then { b1 with bids := insertBid b1.bids m.price m }
                else { b1 with asks := insertAsk b1.asks m.price m })).1 m)) =
        execSum id out +
          execSum id (matchOrders i ts (if m.side = Side.BUY
            then { b1 with bids := insertBid b1.bids m.price m }
            else { b1 with asks := insertAsk b1.asks m.price m })).2 := by
    intro id
    rw [← List.append_assoc, execSum_append, execSum_append,
      execSum_modifyPendingExtra]
    omega
  refine ⟨?_, hB, ?_, ?_⟩
  · intro x hx
    obtain ⟨h1, h2⟩ := hA x hx
    rw [execSum_append] at h2
    refine ⟨h1, ?_⟩
    rw [hout]
    omega
  · intro id hid
    exact List.mem_cons.mp (hidperm.subset (hC id hid))
  · intro id hne hnin
    rw [hout]
    have hz : execSum id (matchOrders i ts (if m.side = Side.BUY
        then { b1 with bids := insertBid b1.bids m.price m }
        else { b1 with asks := insertAsk b1.asks m.price m })).2 = 0 := by
      apply execSum_eq_zero
      intro r hr he
      have hmem := hD r hr
      rw [he] at hmem
      rcases List.mem_cons.mp (hidperm.subset hmem) with h | h
      · exact hne h
      · exact hnin h
    omega

theorem processModify_ledger (i : String) (ts : Nat) (req : Order) (b : Book)
    (out : List OutputRecord)
    (hnd : (bookIds b).Nodup)
    (hlive : ∀ x ∈ bookOrders b,
      orderLive x ∧ execSum x.order_id out = x.cumulative_executed_quantity) :
    (∀ x ∈ bookOrders (processModify i ts req b).1,
      orderLive x ∧
        execSum x.order_id (out ++ (processModify i ts req b).2) =
          x.cumulative_executed_quantity) ∧
      (bookIds (processModify i ts req b).1).Nodup ∧
      (∀ id ∈ bookIds (processModify i ts req b).1, id ∈ bookIds b) ∧
      (∀ id, id ∉ bookIds b →
        execSum id (out ++ (processModify i ts req b).2) = execSum id out) := by
  unfold processModify
  rcases hf : findRemoveBook b req.order_id with _ | ⟨found, b1⟩
  · refine ⟨?_, hnd, fun id hid => hid, ?_⟩
    · intro x hx
      obtain ⟨h1, h2⟩ := hlive x hx
      refine ⟨h1, ?_⟩
      rw [execSum_append_addInitial]
      exact h2
    · intro id hnin
      rw [execSum_append_addInitial]
  · have hperm := findRemoveBook_orders_perm hf
    have hidperm := bookIds_perm_of_orders hperm
    have hndc := (hidperm.nodup_iff).mp hnd
    obtain ⟨hfrid, hnd1⟩ := List.nodup_cons.mp hndc
    have hfoundmem : found ∈ bookOrders b :=
      (hperm.mem_iff).mpr (List.mem_cons_self _ _)
    obtain ⟨hfoundLive, hfoundL⟩ := hlive found hfoundmem
    have hfound_in_b : found.order_id ∈ bookIds b :=
      mem_bookIds.mpr ⟨found, hfoundmem, rfl⟩
    have hlive1 : ∀ x ∈ bookOrders b1,
        orderLive x ∧ execSum x.order_id out = x.cumulative_executed_quantity :=
      fun x hx => hlive x ((hperm.mem_iff).mpr (List.mem_cons_of_mem _ hx))
    have hsub1 : ∀ id, id ∈ bookIds b1 → id ∈ bookIds b :=
      fun id h => (hidperm.mem_iff).mpr (List.mem_cons_of_mem _ h)
    dsimp only
    by_cases hq : req.quantity ≤ found.cumulative_executed_quantity
    · rw [if_pos hq]
      refine ⟨?_, hnd1, hsub1, ?_⟩
      · intro x hx
        obtain ⟨h1, h2⟩ := hlive1 x hx
        refine ⟨h1, ?_⟩
        rw [execSum_append_addInitial]
        exact h2
      · intro id hnin
        rw [execSum_append_addInitial]
    · rw [if_neg hq]
      have hgrowL : ∀ m : Order, m.order_id = found.order_id →
          orderLive m →
          m.cumulative_executed_quantity =
            found.cumulative_executed_quantity →
          (∀ x ∈ bookOrders (modifyLimitReinsert i ts m b1).1,
            orderLive x ∧
              execSum x.order_id (out ++ (modifyLimitReinsert i ts m b1).2) =
                x.cumulative_executed_quantity) ∧
            (bookIds (modifyLimitReinsert i ts m b1).1).Nodup ∧
            (∀ id ∈ bookIds (modifyLimitReinsert i ts m b1).1,
              id ∈ bookIds b) ∧
            (∀ id, id ∉ bookIds b →
              execSum id (out ++ (modifyLimitReinsert i ts m b1).2) =
                execSum id out) := by
        intro m hmid hmlive hmcum
        obtain ⟨hA, hB, hC, hD⟩ := modifyLimitReinsert_ledger i ts m b1 out
          hnd1 (by rw [hmid]; exact hfrid) hmlive
          (by rw [hmid, hmcum]; exact hfoundL) hlive1
        refine ⟨hA, hB, ?_, ?_⟩
        · intro id hid
          rcases hC id hid with h | h
          · rw [h, hmid]
            exact hfound_in_b
          · exact hsub1 id h
        · intro id hnin
          refine hD id ?_ ?_
          · intro he
            exact hnin (by rw [he, hmid]; exact hfound_in_b)
          · intro hm1
            exact hnin (hsub1 id hm1)
      have hgrowM : ∀ m : Order, m.order_id = found.order_id →
          (∀ x ∈ bookOrders (modifyMarketSweep i ts m b1).1,
            orderLive x ∧
              execSum x.order_id (out ++ (modifyMarketSweep i ts m b1).2) =
                x.cumulative_executed_quantity) ∧
            (bookIds (modifyMarketSweep i ts m b1).1).Nodup ∧
            (∀ id ∈ bookIds (modifyMarketSweep i ts m b1).1,
              id ∈ bookIds b) ∧
            (∀ id, id ∉ bookIds b →
              execSum id (out ++ (modifyMarketSweep i ts m b1).2) =
                execSum id out) := by
        intro m hmid
        obtain ⟨hA, hB, hC, hD⟩ := modifyMarketSweep_ledger i ts m b1 out
          hnd1 (by rw [hmid]; exact hfrid) hlive1
        refine ⟨hA, hB, fun id hid => hsub1 id (hC id hid), ?_⟩
        intro id hnin
        refine hD id ?_ ?_
        · intro he
          exact hnin (by rw [he, hmid]; exact hfound_in_b)
        · intro hm1
          exact hnin (hsub1 id hm1)
      rcases hT : req.type with _ | _ | _
      · exact hgrowL _ rfl
          ⟨Or.inl rfl, by dsimp only; omega⟩ rfl
      · exact hgrowM _ rfl
      · refine ⟨?_, hnd1, hsub1, ?_⟩
        · intro x hx
          obtain ⟨h1, h2⟩ := hlive1 x hx
          refine ⟨h1, ?_⟩
          rw [List.append_nil]
          exact h2
        · intro id hnin
          rw [List.append_nil]

theorem processCancel_ledger (i : String) (ts : Nat) (req : Order) (b : Book)
    (out : List OutputRecord)
    (hnd : (bookIds b).Nodup)
    (hlive : ∀ x ∈ bookOrders b,
      orderLive x ∧ execSum x.order_id out = x.cumulative_executed_quantity) :
    (∀ x ∈ bookOrders (processCancel i ts req b).1,
      orderLive x ∧
        execSum x.order_id (out ++ (processCancel i ts req b).2) =
          x.cumulative_executed_quantity) ∧
      (bookIds (processCancel i ts req b).1).Nodup ∧
      (∀ id ∈ bookIds (processCancel i ts req b).1, id ∈ bookIds b) ∧
      (∀ id, id ∉ bookIds b →
        execSum id (out ++ (processCancel i ts req b).2) = execSum id out) := by
  unfold processCancel
  rcases hf : findRemoveBook b req.order_id with _ | ⟨found, b1⟩
  · refine ⟨?_, hnd, fun id hid => hid, ?_⟩
    · intro x hx
      obtain ⟨h1, h2⟩ := hlive x hx
      refine ⟨h1, ?_⟩
      rw [execSum_append_addInitial]
      exact h2
    · intro id hnin
      rw [execSum_append_addInitial]
  · have hperm := findRemoveBook_orders_perm hf
    have hidperm := bookIds_perm_of_orders hperm
    have hndc := (hidperm.nodup_iff).mp hnd
    obtain ⟨hfrid, hnd1⟩ := List.nodup_cons.mp hndc
    have hlive1 : ∀ x ∈ bookOrders b1,
        orderLive x ∧ execSum x.order_id out = x.cumulative_executed_quantity :=
      fun x hx => hlive x ((hperm.mem_iff).mpr (List.mem_cons_of_mem _ hx))
    have hsub1 : ∀ id, id ∈ bookIds b1 → id ∈ bookIds b :=
      fun id h => (hidperm.mem_iff).mpr (List.mem_cons_of_mem _ h)
    dsimp only
    refine ⟨?_, hnd1, hsub1, ?_⟩
    · intro x hx
      obtain ⟨h1, h2⟩ := hlive1 x hx
      refine ⟨h1, ?_⟩
      rw [execSum_append_addInitial]
      exact h2
    · intro id hnin
      rw [execSum_append_addInitial]

theorem processSingleOrder_ledger (i : String) (req : Order) (b0 : Book)
    (out : List OutputRecord) (processed : List Int)
    (hinv : bookLedgerInv processed b0 out)
    (hfreshNew : req.action = OrderAction.NEW → req.order_id ∉ processed) :
    bookLedgerInv
      (if req.action = OrderAction.NEW then req.order_id :: processed
        else processed)
      (processSingleOrder i req b0).1
      (out ++ (processSingleOrder i req b0).2) := by
  obtain ⟨hlive, hnd, hsub, hzero⟩ := hinv
  by_cases hi : req.instrument = i
  · rcases hAct : req.action with _ | _ | _ | _
    · rcases hT : req.type with _ | _ | _
      · obtain ⟨hA, hB, hC, hD⟩ := processNewLimit_ledger i req.timestamp
          { req with
            remaining_quantity := req.quantity
            cumulative_executed_quantity := 0
            status := OrderStatus.PENDING }
          { b0 with ids_traded_this_event := [] } out hnd
          (fun hm => hfreshNew hAct (hsub _ hm)) ⟨Or.inl rfl, rfl⟩
          (hzero req.order_id (hfreshNew hAct)) hlive
        have hfin : bookLedgerInv (req.order_id :: processed)
            (processNewLimit i req.timestamp
              { req with
                remaining_quantity := req.quantity
                cumulative_executed_quantity := 0
                status := OrderStatus.PENDING }
              { b0 with ids_traded_this_event := [] }).1
            (out ++ (processNewLimit i req.timestamp
              { req with
                remaining_quantity := req.quantity
                cumulative_executed_quantity := 0
                status := OrderStatus.PENDING }
              { b0 with ids_traded_this_event := [] }).2) := by
          refine ⟨hA, hB, ?_, ?_⟩
          · intro id hid
            rcases hC id hid with h | h
            · rw [h]
              exact List.mem_cons_self _ _
            · exact List.mem_cons_of_mem _ (hsub _ h)
          · intro id hnin
            have hne : id ≠ req.order_id :=
              fun he => hnin (by rw [he]; exact List.mem_cons_self _ _)
            have hni2 : id ∉ processed :=
              fun hm => hnin (List.mem_cons_of_mem _ hm)
            rw [hD id hne (fun hm => hni2 (hsub _ hm))]
            exact hzero id hni2
        simpa [processSingleOrder, hi, hAct, hT] using hfin
      · obtain ⟨hA, hB, hC, hD⟩ := processNewMarket_ledger i req.timestamp
          { req with
            remaining_quantity := req.quantity
            cumulative_executed_quantity := 0
            status := OrderStatus.PENDING }
          { b0 with ids_traded_this_event := [] } out hnd
          (fun hm => hfreshNew hAct (hsub _ hm)) hlive
        have hfin : bookLedgerInv (req.order_id :: processed)
            (processNewMarket i req.timestamp
              { req with
                remaining_quantity := req.quantity
                cumulative_executed_quantity := 0
                status := OrderStatus.PENDING }
              { b0 with ids_traded_this_event := [] }).1
            (out ++ (processNewMarket i req.timestamp
              { req with
                remaining_quantity := req.quantity
                cumulative_executed_quantity := 0
                status := OrderStatus.PENDING }
              { b0 with ids_traded_this_event := [] }).2) := by
          refine ⟨hA, hB, ?_, ?_⟩
          · intro id hid
            exact List.mem_cons_of_mem _ (hsub _ (hC id hid))
          · intro id hnin
            have hne : id ≠ req.order_id :=
              fun he => hnin (by rw [he]; exact List.mem_cons_self _ _)
            have hni2 : id ∉ processed :=
              fun hm => hnin (List.mem_cons_of_mem _ hm)
            rw [hD id hne (fun hm => hni2 (hsub _ hm))]
            exact hzero id hni2
        simpa [processSingleOrder, hi, hAct, hT] using hfin
      · have hfin : bookLedgerInv (req.order_id :: processed)
            { b0 with ids_traded_this_event := [] } (out ++ []) := by
          refine ⟨?_, hnd, ?_, ?_⟩
          · intro x hx
            obtain ⟨h1, h2⟩ := hlive x hx
            refine ⟨h1, ?_⟩
            rw [List.append_nil]
            exact h2
          · intro id hid
            exact List.mem_cons_of_mem _ (hsub id hid)
          · intro id hnin
            rw [List.append_nil]
            exact hzero id (fun hm => hnin (List.mem_cons_of_mem _ hm))
        simpa [processSingleOrder, hi, hAct, hT] using hfin
    · obtain ⟨hA, hB, hC, hD⟩ := processModify_ledger i req.timestamp req
        { b0 with ids_traded_this_event := [] } out hnd hlive
      have hfin : bookLedgerInv processed
          (processModify i req.timestamp req
            { b0 with ids_traded_this_event := [] }).1
          (out ++ (processModify i req.timestamp req
            { b0 with ids_traded_this_event := [] }).2) := by
        refine ⟨hA, hB, ?_, ?_⟩
        · intro id hid
          exact hsub id (hC id hid)
        · intro id hnin
          rw [hD id (fun hm => hnin (hsub id hm))]
          exact hzero id hnin
      simpa [processSingleOrder, hi, hAct] using hfin
    · obtain ⟨hA, hB, hC, hD⟩ := processCancel_ledger i req.timestamp req
        { b0 with ids_traded_this_event := [] } out hnd hlive
      have hfin : bookLedgerInv processed
          (processCancel i req.timestamp req
            { b0 with ids_traded_this_event := [] }).1
          (out ++ (processCancel i req.timestamp req
            { b0 with ids_traded_this_event := [] }).2) := by
        refine ⟨hA, hB, ?_, ?_⟩
        · intro id hid
          exact hsub id (hC id hid)
        · intro id hnin
          rw [hD id (fun hm => hnin (hsub id hm))]
          exact hzero id hnin
      simpa [processSingleOrder, hi, hAct] using hfin
    · have hfin : bookLedgerInv processed
          { b0 with ids_traded_this_event := [] }
          (out ++ [addInitialOutputRecord i req OrderStatus.REJECTED 0 0 0
            req.timestamp]) := by
        refine ⟨?_, hnd, hsub, ?_⟩
        · intro x hx
          obtain ⟨h1, h2⟩ := hlive x hx
          refine ⟨h1, ?_⟩
          rw [execSum_append_addInitial]
          exact h2
        · intro id hnin
          rw [execSum_append_addInitial]
          exact hzero id hnin
      simpa [processSingleOrder, hi, hAct] using hfin
  · have hfin : bookLedgerInv processed b0
        (out ++ [addInitialOutputRecord i req OrderStatus.REJECTED 0 0 0
          req.timestamp]) := by
      refine ⟨?_, hnd, hsub, ?_⟩
      · intro x hx
        obtain ⟨h1, h2⟩ := hlive x hx
        refine ⟨h1, ?_⟩
        rw [execSum_append_addInitial]
        exact h2
      · intro id hnin
        rw [execSum_append_addInitial]
        exact hzero id hnin
    have hgoal : bookLedgerInv
        (if req.action = OrderAction.NEW then req.order_id :: processed
          else processed) b0
        (out ++ [addInitialOutputRecord i req OrderStatus.REJECTED 0 0 0
          req.timestamp]) := by
      obtain ⟨g1, g2, g3, g4⟩ := hfin
      refine ⟨g1, g2, ?_, ?_⟩
      · intro id hid
        have hm := g3 id hid
        split
        · exact List.mem_cons_of_mem _ hm
        · exact hm
      · intro id hnin
        refine g4 id ?_
        intro hm
        apply hnin
        split
        · exact List.mem_cons_of_mem _ hm
        · exact hm
    simpa [processSingleOrder, hi] using hgoal

theorem foldl_ledger (i : String) :
    ∀ (events : List Order) (st : Book × List OutputRecord)
      (processed : List Int),
      bookLedgerInv processed st.1 st.2 →
      (processed ++ newIds events).Nodup →
      bookLedgerInv (processed ++ newIds events)
        ((events.foldl (fun st e =>
          let r := processSingleOrder i e st.1
          (r.1, st.2 ++ r.2)) st).1)
        ((events.foldl (fun st e =>
          let r := processSingleOrder i e st.1
          (r.1, st.2 ++ r.2)) st).2) := by
  intro events
  induction events with
  | nil =>
    intro st processed hinv hnd
    simpa [newIds] using hinv
  | cons e rest ih =>
    intro st processed hinv hnd
    rw [List.foldl_cons]
    by_cases hN : e.action = OrderAction.NEW
    · have hni : newIds (e :: rest) = e.order_id :: newIds rest := by
        simp [newIds, hN]
      have hpermP : List.Perm (processed ++ newIds (e :: rest))
          ((e.order_id :: processed) ++ newIds rest) := by
        rw [hni]
        exact List.perm_middle
      have hfresh : e.order_id ∉ processed := by
        intro hm
        have hx := hnd
        rw [hni] at hx
        obtain ⟨_, _, hdisj⟩ := List.nodup_append.mp hx
        exact hdisj hm (List.mem_cons_self _ _)
      have hstep := processSingleOrder_ledger i e st.1 st.2 processed hinv
        (fun _ => hfresh)
      rw [if_pos hN] at hstep
      have hnd2 : ((e.order_id :: processed) ++ newIds rest).Nodup :=
        (hpermP.nodup_iff).mp hnd
      have hrec := ih
        ((processSingleOrder i e st.1).1,
          st.2 ++ (processSingleOrder i e st.1).2)
        (e.order_id :: processed) hstep hnd2
      obtain ⟨g1, g2, g3, g4⟩ := hrec
      refine ⟨g1, g2, ?_, ?_⟩
      · intro id hid
        exact (hpermP.mem_iff).mpr (g3 id hid)
      · intro id hnin
        exact g4 id (fun hm => hnin ((hpermP.mem_iff).mpr hm))
    · have hni : newIds (e :: rest) = newIds rest := by
        simp [newIds, hN]
      have hstep := processSingleOrder_ledger i e st.1 st.2 processed hinv
        (fun hc => absurd hc hN)
      rw [if_neg hN] at hstep
      have hnd2 : (processed ++ newIds rest).Nodup := by
        rw [hni] at hnd
        exact hnd
      have hrec := ih
        ((processSingleOrder i e st.1).1,
          st.2 ++ (processSingleOrder i e st.1).2)
        processed hstep hnd2
      rw [hni]
      exact hrec

/-- **C2** (amended): for every event stream whose NEW events carry pairwise
distinct order ids, every order resting in the book at termination has a live
status (PENDING or PARTIALLY_EXECUTED), satisfies
`remaining_quantity + cumulative_executed_quantity = original_quantity`, and
its cumulative executed quantity equals the sum of the `executed_quantity`
values across all records emitted for its id and is at most its current
original_quantity (the quantity of its most recent NEW/MODIFY). The original
claim's bound fails for orders removed by a shrinking MODIFY (see the
counterexample): their cumulative may exceed the most recent
original_quantity. -/
theorem C2_conservation_amended (i : String) (events : List Order)
    (hnd : (newIds events).Nodup) :
    ∀ o ∈ bookOrders (runEvents i events).1,
      (o.status = OrderStatus.PENDING ∨
        o.status = OrderStatus.PARTIALLY_EXECUTED) ∧
        o.remaining_quantity + o.cumulative_executed_quantity = o.quantity ∧
        execSum o.order_id (runEvents i events).2 =
          o.cumulative_executed_quantity ∧
        o.cumulative_executed_quantity ≤ o.quantity := by
  have hinv0 : bookLedgerInv [] emptyBook [] := by
    refine ⟨?_, ?_, ?_, ?_⟩
    · intro x hx
      simp [bookOrders, emptyBook, ordersOfLadder] at hx
    · simp [bookIds, bookOrders, emptyBook, ordersOfLadder]
    · intro id hid
      simp [bookIds, bookOrders, emptyBook, ordersOfLadder] at hid
    · intro id hnin
      rfl
  have h := foldl_ledger i events (emptyBook, []) [] hinv0 (by simpa using hnd)
  intro o ho
  obtain ⟨hL, h3⟩ := h.1 o ho
  have h1 := hL.1
  have h2 := hL.2
  exact ⟨h1, h2, h3, by omega⟩

/-- Witness for C2 (amended) on a two-event run: a NEW buy for 10 crosses a
NEW sell for 4; the resting buy has remaining 6, cumulative 4, status
PARTIALLY_EXECUTED, and the sum of its executed quantities in the output is
4 = its cumulative, at most its original 10. -/
theorem C2_conservation_amended_witness :
    (newIds
      [mkEvent "X" 1 1 Side.BUY OrderType.LIMIT 10 100 OrderAction.NEW,
       mkEvent "X" 2 2 Side.SELL OrderType.LIMIT 4 100 OrderAction.NEW]).Nodup ∧
    mkRestingPart "X" 1 1 Side.BUY 10 100 4 ∈ bookOrders (runEvents "X"
      [mkEvent "X" 1 1 Side.BUY OrderType.LIMIT 10 100 OrderAction.NEW,
       mkEvent "X" 2 2 Side.SELL OrderType.LIMIT 4 100 OrderAction.NEW]).1 ∧
    (((mkRestingPart "X" 1 1 Side.BUY 10 100 4).status = OrderStatus.PENDING ∨
      (mkRestingPart "X" 1 1 Side.BUY 10 100 4).status =
        OrderStatus.PARTIALLY_EXECUTED) ∧
      (mkRestingPart "X" 1 1 Side.BUY 10 100 4).remaining_quantity +
          (mkRestingPart "X" 1 1 Side.BUY 10 100 4).cumulative_executed_quantity =
        (mkRestingPart "X" 1 1 Side.BUY 10 100 4).quantity ∧
      execSum (mkRestingPart "X" 1 1 Side.BUY 10 100 4).order_id
          (runEvents "X"
            [mkEvent "X" 1 1 Side.BUY OrderType.LIMIT 10 100 OrderAction.NEW,
             mkEvent "X" 2 2 Side.SELL OrderType.LIMIT 4 100 OrderAction.NEW]).2 =
        (mkRestingPart "X" 1 1 Side.BUY 10 100 4).cumulative_executed_quantity ∧
      (mkRestingPart "X" 1 1 Side.BUY 10 100 4).cumulative_executed_quantity ≤
        (mkRestingPart "X" 1 1 Side.BUY 10 100 4).quantity) :=
  ⟨by decide, by decide,
   C2_conservation_amended "X"
     [mkEvent "X" 1 1 Side.BUY OrderType.LIMIT 10 100 OrderAction.NEW,
      mkEvent "X" 2 2 Side.SELL OrderType.LIMIT 4 100 OrderAction.NEW]
     (by decide) (mkRestingPart "X" 1 1 Side.BUY 10 100 4) (by decide)⟩

end OrderBook